import Mathlib

/-!
A shallow embedding of the codex-account-switcher profile store and sharing
engine (Go sources: internal/storage/directory.go, internal/sharing/manager.go,
the pkg/codex path resolver), together with proofs settling the frozen claims.

Modelling conventions:

* Filesystem paths are lists of components (`Path`); `filepath.Join` of a base
  path with a single name appends one component, except that joining the empty
  string leaves the path unchanged, exactly as in Go.
* The filesystem is a finite association list from paths to nodes (`FS`).
  Node kinds are regular files, directories and symbolic links.  Permission
  bits are not modelled (no claim refers to them); modification times are a
  `Nat` stored on files and directories, set from the world clock at creation.
* JSON file contents are an inductive `Data` type whose constructors are the
  decodable encodings of the three record shapes plus opaque bytes; decoding
  content of the wrong shape fails, which models corrupt JSON.
* Failure injection: the world carries a set `bad` of paths at which mutating
  filesystem primitives fail, modelling external I/O errors.  A primitive
  touching no bad path succeeds.
* Mutating operations return both an `Except` result and the final world, so
  the partial effects of a failed operation are preserved, as in the Go code.
* Reads (`os.ReadFile`, `os.Stat`) follow chains of symbolic links; writes are
  modelled without following a link at the written path itself, and directory
  creation does not materialise intermediate parents.  No modelled code path
  writes through a symbolic link or stats an unmaterialised parent.
* `filepath.Walk` visits entries in lexical order; the model folds over the
  entries in association-list order.  None of the stated properties depend on
  the visit order, because distinct source entries map to distinct
  destination paths.
-/

namespace Cxa

/-- A filesystem path, as a list of name components. -/
abbrev Path := List String

/-- Joining one further name onto a path; Go's filepath.Join drops empty
components, so joining the empty string leaves the path unchanged. -/
def joinName (p : Path) (s : String) : Path :=
  if s = "" then p else p ++ [s]

/-- Go's filepath.Ext is nonempty exactly when the (single-component) name
contains a dot. -/
def hasExt (s : String) : Bool :=
  s.toList.contains '.'

/-- The sharing mode (internal/sharing/manager.go). -/
inductive Mode where
  | disabled
  | global
  | group
deriving DecidableEq

/-- The sharing configuration singleton (internal/sharing/manager.go). -/
structure Config where
  mode : Mode
  includeSettings : Bool
  groups : List (String × String)
deriving DecidableEq

/-- Account metadata (internal/account/account.go); timestamps are Nat. -/
structure Account where
  name : String
  email : Option String
  createdAt : Nat
  updatedAt : Nat
deriving DecidableEq

/-- The active-state record (internal/storage/directory.go `State`). -/
structure StateRec where
  current : String
  previous : String
deriving DecidableEq

/-- File contents.  The three record constructors are the valid JSON
encodings of the corresponding record type; `bytes` is any other content
(opaque payload bytes, or corrupt JSON from the decoders' point of view). -/
inductive Data where
  | bytes (s : String)
  | stateJson (st : StateRec)
  | configJson (c : Config)
  | accountJson (a : Account)
deriving DecidableEq

/-- json.Unmarshal into `State`: succeeds only on a state encoding. -/
def unmarshalState : Data → Option StateRec
  | .stateJson st => some st
  | _ => none

/-- json.Unmarshal into `Config`: succeeds only on a config encoding. -/
def unmarshalConfig : Data → Option Config
  | .configJson c => some c
  | _ => none

/-- json.Unmarshal into `Account`: succeeds only on an account encoding. -/
def unmarshalAccount : Data → Option Account
  | .accountJson a => some a
  | _ => none

/-- A filesystem node: regular file, directory, or symbolic link. -/
inductive Node where
  | file (d : Data) (mtime : Nat)
  | dir (mtime : Nat)
  | symlink (target : Path)
deriving DecidableEq

/-- The modification time reported by Stat for a resolved node. -/
def Node.modTime : Node → Nat
  | .file _ m => m
  | .dir m => m
  | .symlink _ => 0

/-- The filesystem: a finite map from paths to nodes, as an association
list with pairwise-distinct keys (see `WFfs`). -/
abbrev FS := List (Path × Node)

/-- Key lookup (first match). -/
def lookupFS (fs : FS) (p : Path) : Option Node :=
  List.lookup p fs

/-- Well-formedness: the association list has pairwise-distinct keys. -/
def WFfs (fs : FS) : Prop :=
  (fs.map Prod.fst).Nodup

instance : DecidablePred WFfs := fun fs =>
  inferInstanceAs (Decidable ((fs.map Prod.fst).Nodup))

/-- Remove the entry at exactly `p`. -/
def eraseFS (fs : FS) (p : Path) : FS :=
  fs.filter (fun e => !(e.1 == p))

/-- Insert (or overwrite) the entry at `p`. -/
def insertFS (fs : FS) (p : Path) (n : Node) : FS :=
  (p, n) :: eraseFS fs p

/-- Remove the whole subtree rooted at `p` (os.RemoveAll effect). -/
def dropTree (fs : FS) (p : Path) : FS :=
  fs.filter (fun e => !(p.isPrefixOf e.1))

/-- Does any entry live strictly below `p`? -/
def hasChild (fs : FS) (p : Path) : Bool :=
  fs.any (fun e => p.isPrefixOf e.1 && !(e.1 == p))

/-- The entries of the subtree at `root`, re-rooted (path relative to root). -/
def entriesUnder (fs : FS) (root : Path) : List (Path × Node) :=
  fs.filterMap (fun e =>
    if root.isPrefixOf e.1 then some (e.1.drop root.length, e.2) else none)

/-- Resolve a chain of symbolic links at the final path component, with
fuel; returns the final (non-symlink) path, or none on a cycle. -/
def resolve (fs : FS) : Nat → Path → Option Path
  | 0, _ => none
  | fuel + 1, p =>
    match lookupFS fs p with
    | some (.symlink t) => resolve fs fuel t
    | _ => some p

/-- os.Stat: resolve symlinks, then look up the node. -/
def statFS (fs : FS) (p : Path) : Option Node :=
  (resolve fs (fs.length + 1) p).bind (lookupFS fs)

/-- Read errors, distinguishing os.IsNotExist from everything else. -/
inductive ReadErr where
  | notExist
  | other
deriving DecidableEq

/-- os.ReadFile: follows symlinks; fails with notExist when nothing is at
the resolved path, and with a non-notExist error on a directory or a
symlink cycle. -/
def readFile (fs : FS) (p : Path) : Except ReadErr Data :=
  match resolve fs (fs.length + 1) p with
  | none => .error .other
  | some rp =>
    match lookupFS fs rp with
    | some (.file d _) => .ok d
    | some _ => .error .other
    | none => .error .notExist

/-- Errors surfaced by the repository and sharing operations. -/
inductive Err where
  | notFound (name : String)
  | codexMissing
  | ioError (p : Path)
  | decodeError
  | wrapped (msg : String) (e : Err)
deriving DecidableEq

/-- The world: the filesystem, the injected-fault set, and the clock. -/
structure World where
  fs : FS
  bad : List Path
  now : Nat
deriving DecidableEq

/-- os.WriteFile: fails at an injected-fault path or a directory;
otherwise creates or truncates the file at `p`. -/
def writeFileW (w : World) (p : Path) (d : Data) : Except Err Unit × World :=
  if p ∈ w.bad then (.error (.ioError p), w)
  else
    match lookupFS w.fs p with
    | some (.dir _) => (.error (.ioError p), w)
    | _ => (.ok (), { w with fs := insertFS w.fs p (.file d w.now) })

/-- os.MkdirAll: succeeds if a directory already exists at `p`, fails on a
fault or a non-directory node, otherwise creates the directory. -/
def mkdirAllW (w : World) (p : Path) : Except Err Unit × World :=
  if p ∈ w.bad then (.error (.ioError p), w)
  else
    match lookupFS w.fs p with
    | some (.dir _) => (.ok (), w)
    | some _ => (.error (.ioError p), w)
    | none => (.ok (), { w with fs := insertFS w.fs p (.dir w.now) })

/-- os.Symlink target linkPath: fails if anything already exists at the
link path (EEXIST) or on a fault; otherwise records the link. -/
def symlinkW (w : World) (target p : Path) : Except Err Unit × World :=
  if p ∈ w.bad then (.error (.ioError p), w)
  else
    match lookupFS w.fs p with
    | some _ => (.error (.ioError p), w)
    | none => (.ok (), { w with fs := insertFS w.fs p (.symlink target) })

/-- os.RemoveAll with its error checked by the caller. -/
def removeAllW (w : World) (p : Path) : Except Err Unit × World :=
  if p ∈ w.bad then (.error (.ioError p), w)
  else (.ok (), { w with fs := dropTree w.fs p })

/-- os.RemoveAll with the error ignored by the caller (`_ = os.RemoveAll`):
on a fault nothing is removed. -/
def removeAllQ (w : World) (p : Path) : World :=
  if p ∈ w.bad then w else { w with fs := dropTree w.fs p }

/-- os.Remove with the error ignored: removes a file, a symlink, or an
empty directory; leaves anything else in place. -/
def removeQ (w : World) (p : Path) : World :=
  match lookupFS w.fs p with
  | some (.dir _) => if hasChild w.fs p then w else { w with fs := eraseFS w.fs p }
  | some _ => { w with fs := eraseFS w.fs p }
  | none => w

/-- os.Rename: moves the subtree at `src` to `dst`; fails on a fault, a
missing source, or an existing directory at the destination (replacing a
file or symlink at the destination is allowed). -/
def renameW (w : World) (src dst : Path) : Except Err Unit × World :=
  if src ∈ w.bad ∨ dst ∈ w.bad then (.error (.ioError dst), w)
  else
    match lookupFS w.fs src with
    | none => (.error (.ioError src), w)
    | some _ =>
      match lookupFS w.fs dst with
      | some (.dir _) => (.error (.ioError dst), w)
      | _ =>
        let moved := (entriesUnder w.fs src).map (fun e => (dst ++ e.1, e.2))
        (.ok (), { w with fs := moved ++ dropTree (eraseFS w.fs dst) src })

/-- The path resolver (pkg/codex): all locations derive from the user's
home directory. -/
structure Paths where
  home : Path
deriving DecidableEq

/-- ~/.codex, the live configuration directory (field Home in the source). -/
def Paths.Home (ps : Paths) : Path := ps.home ++ [".codex"]

/-- ~/codex-data, the account storage root. -/
def Paths.DataDir (ps : Paths) : Path := ps.home ++ ["codex-data"]

/-- ~/.codex-switch, the state directory. -/
def Paths.StateDir (ps : Paths) : Path := ps.home ++ [".codex-switch"]

/-- ~/codex-data/shared. -/
def Paths.SharedDir (ps : Paths) : Path := ps.home ++ ["codex-data", "shared"]

/-- ~/codex-data/groups. -/
def Paths.GroupsDir (ps : Paths) : Path := ps.home ++ ["codex-data", "groups"]

/-- The accounts root, `DataDir/accounts`. -/
def Paths.AccountsDir (ps : Paths) : Path := ps.DataDir ++ ["accounts"]

/-- The snapshot directory for one account: filepath.Join of the accounts
root and the name (so the empty name yields the accounts root itself). -/
def Paths.AccountPath (ps : Paths) (name : String) : Path :=
  joinName ps.AccountsDir name

/-- The state-record file. -/
def Paths.StateFile (ps : Paths) : Path := ps.StateDir ++ ["state.json"]

/-- The sharing-config file. -/
def Paths.SharingConfigFile (ps : Paths) : Path := ps.StateDir ++ ["sharing.json"]

/-- EnsureDirs: create DataDir, StateDir and AccountsDir. -/
def Paths.EnsureDirs (ps : Paths) (w : World) : Except Err Unit × World :=
  match mkdirAllW w ps.DataDir with
  | (.error e, w') => (.error e, w')
  | (.ok _, w1) =>
    match mkdirAllW w1 ps.StateDir with
    | (.error e, w') => (.error e, w')
    | (.ok _, w2) => mkdirAllW w2 ps.AccountsDir

/-- CodexExists: os.Stat(~/.codex) succeeds. -/
def Paths.CodexExists (ps : Paths) (w : World) : Bool :=
  (statFS w.fs ps.Home).isSome

/-- The mandatory shareable items (pkg/codex). -/
def ShareableItems : List String :=
  ["sessions", "sqlite", "history.jsonl", ".codex-global-state.json"]

/-- The optional shareable items, gated by include_settings. -/
def OptionalShareableItems : List String :=
  ["config.toml", "settings.json"]

/-- The always-private items (never in the shareable lists). -/
def AccountSpecificItems : List String :=
  ["auth.json", "license.secret"]

/-! ## Sharing engine (internal/sharing/manager.go) -/

/-- LoadConfig: a missing file yields the Disabled default without error;
a file that fails to decode (corrupt JSON), or any other read failure, is
an error. -/
def LoadConfig (ps : Paths) (w : World) : Except Err Config :=
  match readFile w.fs ps.SharingConfigFile with
  | .error .notExist => .ok { mode := .disabled, includeSettings := false, groups := [] }
  | .error .other => .error (.ioError ps.SharingConfigFile)
  | .ok d =>
    match unmarshalConfig d with
    | none => .error .decodeError
    | some c => .ok c

/-- SaveConfig: EnsureDirs, then write the config file. -/
def SaveConfig (ps : Paths) (cfg : Config) (w : World) : Except Err Unit × World :=
  match ps.EnsureDirs w with
  | (.error e, w') => (.error e, w')
  | (.ok _, w1) => writeFileW w1 ps.SharingConfigFile (.configJson cfg)

/-- IsEnabled: mode is global or group. -/
def IsEnabled (cfg : Config) : Bool :=
  cfg.mode = Mode.global || cfg.mode = Mode.group

/-- getShareTarget: the share directory for the mode; Go returns "" (here
none) when disabled or when the account has no group mapping. -/
def getShareTarget (ps : Paths) (cfg : Config) (accountName : String) : Option Path :=
  match cfg.mode with
  | .global => some ps.SharedDir
  | .group =>
    match cfg.groups.lookup accountName with
    | some g => some (ps.GroupsDir ++ [g])
    | none => none
  | .disabled => none

/-- The part of setupSymlink after the initial Readlink check: migrate
real local data (rename into the share target if nothing is there,
otherwise delete the local copy, error ignored); then create the target
empty if still absent (file when the item name has an extension,
directory otherwise); finally create the symlink. -/
def setupSymlinkTail (ps : Paths) (item : String) (targetDir : Path) (w : World) :
    Except Err Unit × World :=
  let src := ps.Home ++ [item]
  let dest := targetDir ++ [item]
  let step1 : Except Err Unit × World :=
    match lookupFS w.fs src with
    | some (.symlink _) => (.ok (), w)
    | none => (.ok (), w)
    | some _ =>
      if (statFS w.fs dest).isNone then renameW w src dest
      else (.ok (), removeAllQ w src)
  match step1 with
  | (.error e, w') => (.error e, w')
  | (.ok _, w1) =>
    let step2 : Except Err Unit × World :=
      if (statFS w1.fs dest).isNone then
        if hasExt item then writeFileW w1 dest (.bytes "")
        else mkdirAllW w1 dest
      else (.ok (), w1)
    match step2 with
    | (.error e, w') => (.error e, w')
    | (.ok _, w2) => symlinkW w2 dest src

/-- setupSymlink for one item against the share target directory, exactly
following the source: an already-correct symlink is left alone; a wrong
symlink is removed (error ignored); then the common tail migrates local
data, ensures the target exists and creates the symlink. -/
def setupSymlink (ps : Paths) (item : String) (targetDir : Path) (w : World) :
    Except Err Unit × World :=
  let src := ps.Home ++ [item]
  let dest := targetDir ++ [item]
  match lookupFS w.fs src with
  | some (.symlink link) =>
    if link = dest then (.ok (), w)
    else setupSymlinkTail ps item targetDir (removeQ w src)
  | _ => setupSymlinkTail ps item targetDir w

/-- Fold setupSymlink over a list of items, failing fast with the wrapped
per-item error, keeping partial effects. -/
def setupItems (ps : Paths) (targetDir : Path) (w : World) :
    List String → Except Err Unit × World
  | [] => (.ok (), w)
  | item :: rest =>
    match setupSymlink ps item targetDir w with
    | (.error e, w') => (.error (.wrapped ("failed to setup symlink for " ++ item) e), w')
    | (.ok _, w') => setupItems ps targetDir w' rest

/-- SetupSymlinks: no-op when disabled or when there is no share target;
otherwise create the target directory and reconcile every mandatory item,
plus the optional items when include_settings is set. -/
def SetupSymlinks (ps : Paths) (cfg : Config) (w : World) : Except Err Unit × World :=
  if !(IsEnabled cfg) then (.ok (), w)
  else
    match getShareTarget ps cfg "" with
    | none => (.ok (), w)
    | some targetDir =>
      match mkdirAllW w targetDir with
      | (.error e, w') => (.error e, w')
      | (.ok _, w1) =>
        match setupItems ps targetDir w1 ShareableItems with
        | (.error e, w') => (.error e, w')
        | (.ok _, w2) =>
          if cfg.includeSettings then setupItems ps targetDir w2 OptionalShareableItems
          else (.ok (), w2)

/-- The sharing package's copyFile: ReadFile (which follows symlinks),
then WriteFile. -/
def copyFileSharing (w : World) (src dst : Path) : Except Err Unit × World :=
  match readFile w.fs src with
  | .error _ => (.error (.ioError src), w)
  | .ok d => writeFileW w dst d

/-- One step of the sharing package's copyDir walk: a directory entry is
re-created with MkdirAll; every other entry (regular file or symlink) goes
through copyFile, so a symlink's resolved content is copied, never the
link itself (the walk function has no symlink case in this package). -/
def copyStepSharing (src dst : Path) (w : World) (e : Path × Node) :
    Except Err Unit × World :=
  match e.2 with
  | .dir _ => mkdirAllW w (dst ++ e.1)
  | _ => copyFileSharing w (src ++ e.1) (dst ++ e.1)

/-- Fail-fast fold of the sharing copy step over the walk entries. -/
def copyGoSharing (src dst : Path) (w : World) :
    List (Path × Node) → Except Err Unit × World
  | [] => (.ok (), w)
  | e :: rest =>
    match copyStepSharing src dst w e with
    | (.error err, w') => (.error err, w')
    | (.ok _, w') => copyGoSharing src dst w' rest

/-- The sharing package's copyDir: walk the source subtree (the walk does
not follow symlinks into their targets, and errors if the root is
missing). -/
def copyDirSharing (w : World) (src dst : Path) : Except Err Unit × World :=
  match lookupFS w.fs src with
  | none => (.error (.ioError src), w)
  | some _ => copyGoSharing src dst w (entriesUnder w.fs src)

/-- The sharing package's copyPath: Stat the source (following symlinks);
a directory is copied with copyDir, anything else with copyFile. -/
def copyPath (w : World) (src dst : Path) : Except Err Unit × World :=
  match statFS w.fs src with
  | none => (.error (.ioError src), w)
  | some (.dir _) => copyDirSharing w src dst
  | some _ => copyFileSharing w src dst

/-- One item of RemoveSymlinks: a non-symlink is skipped; a symlink is
removed (error ignored) and, when its target exists, the target's data is
copied back to the live path. -/
def removeSymlinkItem (ps : Paths) (w : World) (item : String) :
    Except Err Unit × World :=
  let src := ps.Home ++ [item]
  match lookupFS w.fs src with
  | some (.symlink link) =>
    let w1 := removeQ w src
    if (statFS w1.fs link).isSome then copyPath w1 link src
    else (.ok (), w1)
  | _ => (.ok (), w)

/-- Fail-fast fold of removeSymlinkItem over an item list. -/
def removeItems (ps : Paths) (w : World) : List String → Except Err Unit × World
  | [] => (.ok (), w)
  | item :: rest =>
    match removeSymlinkItem ps w item with
    | (.error e, w') => (.error e, w')
    | (.ok _, w') => removeItems ps w' rest

/-- RemoveSymlinks over all mandatory plus optional items. -/
def RemoveSymlinks (ps : Paths) (w : World) : Except Err Unit × World :=
  removeItems ps w (ShareableItems ++ OptionalShareableItems)

/-- Enable: set mode global and the include_settings flag, create the
shared root, run SetupSymlinks, and only then persist the config.  The
resulting manager config is returned alongside. -/
def Enable (ps : Paths) (cfg : Config) (includeSettings : Bool) (w : World) :
    Except Err Config × World :=
  let cfg1 : Config := { cfg with mode := .global, includeSettings := includeSettings }
  match mkdirAllW w ps.SharedDir with
  | (.error e, w') => (.error e, w')
  | (.ok _, w1) =>
    match SetupSymlinks ps cfg1 w1 with
    | (.error e, w') => (.error e, w')
    | (.ok _, w2) =>
      match SaveConfig ps cfg1 w2 with
      | (.error e, w') => (.error e, w')
      | (.ok _, w3) => (.ok cfg1, w3)

/-- Disable: first RemoveSymlinks, then flip the mode to disabled and
persist the config. -/
def Disable (ps : Paths) (cfg : Config) (w : World) : Except Err Config × World :=
  match RemoveSymlinks ps w with
  | (.error e, w') => (.error e, w')
  | (.ok _, w1) =>
    let cfg1 : Config := { cfg with mode := .disabled, includeSettings := false }
    match SaveConfig ps cfg1 w1 with
    | (.error e, w') => (.error e, w')
    | (.ok _, w2) => (.ok cfg1, w2)

/-! ## Profile store (internal/storage/directory.go) -/

/-- The storage package's copyFile: the destination is created with the
source's content (truncating an existing file); fails on a fault or when
the destination is a directory. -/
def copyFileStorage (w : World) (d : Data) (dst : Path) : Except Err Unit × World :=
  if dst ∈ w.bad then (.error (.ioError dst), w)
  else
    match lookupFS w.fs dst with
    | some (.dir _) => (.error (.ioError dst), w)
    | _ => (.ok (), { w with fs := insertFS w.fs dst (.file d w.now) })

/-- One step of the storage copyDir walk: symlinks are re-created as
symlinks with the same target, directories with MkdirAll, and regular
files byte-for-byte. -/
def copyStepStorage (dst : Path) (w : World) (e : Path × Node) :
    Except Err Unit × World :=
  match e.2 with
  | .symlink t => symlinkW w t (dst ++ e.1)
  | .dir _ => mkdirAllW w (dst ++ e.1)
  | .file d _ => copyFileStorage w d (dst ++ e.1)

/-- Fail-fast fold of the storage copy step over the walk entries. -/
def copyGoStorage (dst : Path) (w : World) :
    List (Path × Node) → Except Err Unit × World
  | [] => (.ok (), w)
  | e :: rest =>
    match copyStepStorage dst w e with
    | (.error err, w') => (.error err, w')
    | (.ok _, w') => copyGoStorage dst w' rest

/-- The storage package's copyDir: walk the source subtree, failing when
the root is missing. -/
def copyDirStorage (w : World) (src dst : Path) : Except Err Unit × World :=
  match lookupFS w.fs src with
  | none => (.error (.ioError src), w)
  | some _ => copyGoStorage dst w (entriesUnder w.fs src)

/-- loadState: any read failure, and any decode failure, yields the empty
state; never an error. -/
def loadState (ps : Paths) (w : World) : StateRec :=
  match readFile w.fs ps.StateFile with
  | .error _ => { current := "", previous := "" }
  | .ok d =>
    match unmarshalState d with
    | none => { current := "", previous := "" }
    | some st => st

/-- Current: the current field of the loaded state; never an error. -/
def CurrentName (ps : Paths) (w : World) : String :=
  (loadState ps w).current

/-- saveState: previous gets the old current, current gets the new name;
EnsureDirs, then write the state file. -/
def saveState (ps : Paths) (current : String) (w : World) : Except Err Unit × World :=
  let st := loadState ps w
  let st1 : StateRec := { current := current, previous := st.current }
  match ps.EnsureDirs w with
  | (.error e, w') => (.error e, w')
  | (.ok _, w1) => writeFileW w1 ps.StateFile (.stateJson st1)

/-- Get: read the `.account.json` sidecar; when it is absent, fall back to
a synthesized account from the directory's modification time, or NotFound
when the directory itself is absent; a sidecar that exists but fails to
decode is a hard error. -/
def Get (ps : Paths) (w : World) (name : String) : Except Err Account :=
  let accountPath := ps.AccountPath name
  let metaPath := accountPath ++ [".account.json"]
  match readFile w.fs metaPath with
  | .error .notExist =>
    match statFS w.fs accountPath with
    | none => .error (.notFound name)
    | some info =>
      .ok { name := name, email := none,
            createdAt := info.modTime, updatedAt := info.modTime }
  | .error .other => .error (.ioError metaPath)
  | .ok d =>
    match unmarshalAccount d with
    | none => .error .decodeError
    | some a => .ok a

/-- The names of the immediate subdirectories of the accounts root. -/
def childDirNames (fs : FS) (root : Path) : List String :=
  fs.filterMap (fun e =>
    match e.2 with
    | .dir _ =>
      match e.1.drop root.length with
      | [n] => if root.isPrefixOf e.1 then some n else none
      | _ => none
    | _ => none)

/-- List (named ListAccounts here; List is taken in Lean): EnsureDirs,
enumerate the accounts root, Get each subdirectory, silently skipping
entries whose Get fails. -/
def ListAccounts (ps : Paths) (w : World) : Except Err (List Account) × World :=
  match ps.EnsureDirs w with
  | (.error e, w') => (.error e, w')
  | (.ok _, w1) =>
    match lookupFS w1.fs ps.AccountsDir with
    | none => (.ok [], w1)
    | some _ =>
      (.ok ((childDirNames w1.fs ps.AccountsDir).filterMap
        (fun n => (Get ps w1 n).toOption)), w1)

/-- Save: require the live directory, EnsureDirs, drop any prior snapshot
(error ignored), copy the live directory into the snapshot, write fresh
metadata, and update the state record.  (The source's dead read of
auth.json, whose parsed result is never used, is omitted.) -/
def Save (ps : Paths) (w : World) (name : String) : Except Err Account × World :=
  if !(ps.CodexExists w) then (.error .codexMissing, w)
  else
    match ps.EnsureDirs w with
    | (.error e, w') => (.error e, w')
    | (.ok _, w1) =>
      let accountPath := ps.AccountPath name
      let w2 := removeAllQ w1 accountPath
      match copyDirStorage w2 ps.Home accountPath with
      | (.error e, w') => (.error (.wrapped "failed to save account" e), w')
      | (.ok _, w3) =>
        let acc : Account := { name := name, email := none,
                               createdAt := w3.now, updatedAt := w3.now }
        match writeFileW w3 (accountPath ++ [".account.json"]) (.accountJson acc) with
        | (.error e, w') => (.error e, w')
        | (.ok _, w4) =>
          match saveState ps name w4 with
          | (.error e, w') => (.error e, w')
          | (.ok _, w5) => (.ok acc, w5)

/-- Delete: NotFound when nothing is at the snapshot path, otherwise
RemoveAll the whole snapshot path. -/
def Delete (ps : Paths) (w : World) (name : String) : Except Err Unit × World :=
  let accountPath := ps.AccountPath name
  if (statFS w.fs accountPath).isNone then (.error (.notFound name), w)
  else removeAllW w accountPath

/-- Activate: NotFound when the snapshot is absent; save the current
profile first when a different one is active and the live directory
exists (abort on failure); remove the live directory; copy the snapshot
in; re-run sharing reconciliation with both its load failure and its
setup failure swallowed; finally update the state record. -/
def Activate (ps : Paths) (w : World) (name : String) : Except Err Unit × World :=
  let accountPath := ps.AccountPath name
  if (statFS w.fs accountPath).isNone then (.error (.notFound name), w)
  else
    let current := CurrentName ps w
    let saveStep : Except Err Unit × World :=
      if current ≠ "" ∧ current ≠ name then
        if ps.CodexExists w then
          match Save ps w current with
          | (.error e, w') => (.error (.wrapped "failed to save current account" e), w')
          | (.ok _, w') => (.ok (), w')
        else (.ok (), w)
      else (.ok (), w)
    match saveStep with
    | (.error e, w') => (.error e, w')
    | (.ok _, w1) =>
      match removeAllW w1 ps.Home with
      | (.error e, w') => (.error (.wrapped "failed to clear ~/.codex" e), w')
      | (.ok _, w2) =>
        match copyDirStorage w2 accountPath ps.Home with
        | (.error e, w') => (.error (.wrapped "failed to activate account" e), w')
        | (.ok _, w3) =>
          let w4 :=
            match LoadConfig ps w3 with
            | .error _ => w3
            | .ok cfg =>
              if IsEnabled cfg then (SetupSymlinks ps cfg w3).2 else w3
          match saveState ps name w4 with
          | (.error e, w') => (.error e, w')
          | (.ok _, w5) => (.ok (), w5)

/-! ## Basic lemmas about the filesystem map -/

theorem lookupFS_nil (p : Path) : lookupFS [] p = none := rfl

theorem lookupFS_cons (a : Path) (n : Node) (fs : FS) (p : Path) :
    lookupFS ((a, n) :: fs) p = if p = a then some n else lookupFS fs p := by
  by_cases h : p = a
  · subst h
    simp [lookupFS, List.lookup]
  · simp [lookupFS, List.lookup, beq_false_of_ne h, h]

theorem lookupFS_filterKey (fs : FS) (g : Path → Bool) (p : Path) :
    lookupFS (fs.filter (fun e => g e.1)) p = if g p then lookupFS fs p else none := by
  induction fs with
  | nil => simp [lookupFS_nil]
  | cons e fs ih =>
    obtain ⟨a, n⟩ := e
    by_cases hg : g a
    · rw [List.filter_cons_of_pos (by simpa using hg)]
      rw [lookupFS_cons, lookupFS_cons, ih]
      by_cases hp : p = a
      · subst hp; simp [hg]
      · simp [hp]
    · rw [List.filter_cons_of_neg (by simpa using hg)]
      rw [ih, lookupFS_cons]
      by_cases hp : p = a
      · subst hp; simp [hg]
      · simp [hp]

theorem lookupFS_erase (fs : FS) (p q : Path) :
    lookupFS (eraseFS fs p) q = if q = p then none else lookupFS fs q := by
  have h := lookupFS_filterKey fs (fun a => !(a == p)) q
  simp only [eraseFS]
  rw [h]
  by_cases hq : q = p
  · simp [hq]
  · simp [hq, beq_false_of_ne hq]

theorem lookupFS_insert_self (fs : FS) (p : Path) (n : Node) :
    lookupFS (insertFS fs p n) p = some n := by
  simp [insertFS, lookupFS_cons]

theorem lookupFS_insert_ne (fs : FS) (p : Path) (n : Node) (q : Path) (h : q ≠ p) :
    lookupFS (insertFS fs p n) q = lookupFS fs q := by
  simp [insertFS, lookupFS_cons, h, lookupFS_erase]

theorem lookupFS_dropTree_in (fs : FS) (p q : Path) (h : p.isPrefixOf q = true) :
    lookupFS (dropTree fs p) q = none := by
  have hk := lookupFS_filterKey fs (fun a => !(p.isPrefixOf a)) q
  simp only [dropTree]
  rw [hk]
  simp [h]

theorem lookupFS_dropTree_out (fs : FS) (p q : Path) (h : p.isPrefixOf q = false) :
    lookupFS (dropTree fs p) q = lookupFS fs q := by
  have hk := lookupFS_filterKey fs (fun a => !(p.isPrefixOf a)) q
  simp only [dropTree]
  rw [hk]
  simp [h]

theorem WFfs_nil : WFfs [] := by simp [WFfs]

theorem WFfs_filter (fs : FS) (g : Path × Node → Bool) (h : WFfs fs) :
    WFfs (fs.filter g) := by
  simp only [WFfs] at h ⊢
  exact List.Nodup.sublist ((List.filter_sublist fs).map Prod.fst) h

theorem WFfs_erase (fs : FS) (p : Path) (h : WFfs fs) : WFfs (eraseFS fs p) :=
  WFfs_filter fs _ h

theorem WFfs_dropTree (fs : FS) (p : Path) (h : WFfs fs) : WFfs (dropTree fs p) :=
  WFfs_filter fs _ h

theorem not_mem_keys_erase (fs : FS) (p : Path) :
    p ∉ (eraseFS fs p).map Prod.fst := by
  intro hmem
  obtain ⟨e, he, hfst⟩ := List.mem_map.mp hmem
  have := List.mem_filter.mp he
  simp [hfst] at this

theorem WFfs_insert (fs : FS) (p : Path) (n : Node) (h : WFfs fs) :
    WFfs (insertFS fs p n) := by
  simp only [WFfs, insertFS, List.map_cons, List.nodup_cons]
  exact ⟨not_mem_keys_erase fs p, WFfs_erase fs p h⟩

/-! ## Lemmas about path prefixes -/

theorem isPrefixOf_iff (a b : Path) : a.isPrefixOf b = true ↔ a <+: b :=
  List.isPrefixOf_iff_prefix

theorem isPrefixOf_append (a b : Path) : a.isPrefixOf (a ++ b) = true :=
  (isPrefixOf_iff _ _).mpr ⟨b, rfl⟩

theorem isPrefixOf_append_cancel (a b c : Path) :
    (a ++ b).isPrefixOf (a ++ c) = b.isPrefixOf c := by
  by_cases h : b.isPrefixOf c
  · rw [h, (isPrefixOf_iff _ _).mpr]
    exact (List.prefix_append_right_inj a).mpr ((isPrefixOf_iff _ _).mp h)
  · have : ¬ (a ++ b).isPrefixOf (a ++ c) = true := by
      intro hc
      exact h ((isPrefixOf_iff _ _).mpr
        ((List.prefix_append_right_inj a).mp ((isPrefixOf_iff _ _).mp hc)))
    simp only [Bool.not_eq_true] at this h
    rw [this, h]

theorem isPrefixOf_refl (a : Path) : a.isPrefixOf a = true :=
  (isPrefixOf_iff _ _).mpr (List.prefix_refl a)

theorem prefix_append_drop (root p : Path) (h : root.isPrefixOf p = true) :
    root ++ p.drop root.length = p := by
  obtain ⟨t, rfl⟩ := (isPrefixOf_iff _ _).mp h
  rw [List.drop_left]

theorem isPrefixOf_trans_append (root : Path) (rel q : Path)
    (h : (root ++ rel).isPrefixOf q = true) : root.isPrefixOf q = true := by
  obtain ⟨t, rfl⟩ := (isPrefixOf_iff _ _).mp h
  rw [List.append_assoc]
  exact isPrefixOf_append _ _

theorem prefix_comparable (p r q : Path) (hp : p.isPrefixOf q = true)
    (hr : r.isPrefixOf q = true) :
    p.isPrefixOf r = true ∨ r.isPrefixOf p = true := by
  rcases List.prefix_or_prefix_of_prefix ((isPrefixOf_iff _ _).mp hp)
      ((isPrefixOf_iff _ _).mp hr) with h | h
  · exact Or.inl ((isPrefixOf_iff _ _).mpr h)
  · exact Or.inr ((isPrefixOf_iff _ _).mpr h)

theorem isPrefixOf_cons_ne (x y : String) (xs ys : Path) (h : x ≠ y) :
    (x :: xs).isPrefixOf (y :: ys) = false := by
  show (x == y && xs.isPrefixOf ys) = false
  rw [beq_false_of_ne h, Bool.false_and]

theorem isPrefixOf_cons_cons (x : String) (xs ys : Path) :
    (x :: xs).isPrefixOf (x :: ys) = xs.isPrefixOf ys := by
  show (x == x && xs.isPrefixOf ys) = xs.isPrefixOf ys
  rw [beq_self_eq_true, Bool.true_and]

theorem cons_ne_head (x y : String) (xs ys : Path) (h : x ≠ y) :
    (x :: xs : Path) ≠ (y :: ys) := by
  intro hc
  injection hc with h1 _
  exact h h1

theorem cons_ne_tail (x : String) (xs ys : Path) (h : xs ≠ ys) :
    (x :: xs : Path) ≠ (x :: ys) := by
  intro hc
  injection hc with _ h2
  exact h h2

theorem home_append_ne (home : Path) (a b : Path) (h : a ≠ b) :
    home ++ a ≠ home ++ b :=
  fun hc => h (List.append_cancel_left hc)

/-! ## Lemmas about resolution and reading -/

theorem resolve_succ (fs : FS) (fuel : Nat) (p : Path) :
    resolve fs (fuel + 1) p =
      match lookupFS fs p with
      | some (.symlink t) => resolve fs fuel t
      | _ => some p := rfl

theorem resolve_nonlink (fs : FS) (fuel : Nat) (p : Path)
    (h : ∀ t, lookupFS fs p ≠ some (.symlink t)) :
    resolve fs (fuel + 1) p = some p := by
  rw [resolve_succ]
  cases hl : lookupFS fs p with
  | none => rfl
  | some n =>
    cases n with
    | file d m => rfl
    | dir m => rfl
    | symlink t => exact absurd hl (h t)

theorem statFS_direct (fs : FS) (p : Path) (n : Node)
    (hl : lookupFS fs p = some n) (hn : ∀ t, n ≠ .symlink t) :
    statFS fs p = some n := by
  have h : ∀ t, lookupFS fs p ≠ some (.symlink t) := by
    intro t hc
    rw [hl] at hc
    exact hn t (Option.some.inj hc)
  simp [statFS, resolve_nonlink fs fs.length p h, hl]

theorem statFS_none (fs : FS) (p : Path) (hl : lookupFS fs p = none) :
    statFS fs p = none := by
  have h : ∀ t, lookupFS fs p ≠ some (.symlink t) := by
    intro t hc
    rw [hl] at hc
    exact Option.noConfusion hc
  simp [statFS, resolve_nonlink fs fs.length p h, hl]

theorem readFile_of_file (fs : FS) (p : Path) (d : Data) (m : Nat)
    (hl : lookupFS fs p = some (.file d m)) : readFile fs p = .ok d := by
  have h : ∀ t, lookupFS fs p ≠ some (.symlink t) := by
    intro t hc
    rw [hl] at hc
    exact Node.noConfusion (Option.some.inj hc)
  simp [readFile, resolve_nonlink fs fs.length p h, hl]

theorem readFile_of_none (fs : FS) (p : Path) (hl : lookupFS fs p = none) :
    readFile fs p = .error .notExist := by
  have h : ∀ t, lookupFS fs p ≠ some (.symlink t) := by
    intro t hc
    rw [hl] at hc
    exact Option.noConfusion hc
  simp [readFile, resolve_nonlink fs fs.length p h, hl]

theorem readFile_of_dir (fs : FS) (p : Path) (m : Nat)
    (hl : lookupFS fs p = some (.dir m)) : readFile fs p = .error .other := by
  have h : ∀ t, lookupFS fs p ≠ some (.symlink t) := by
    intro t hc
    rw [hl] at hc
    exact Node.noConfusion (Option.some.inj hc)
  simp [readFile, resolve_nonlink fs fs.length p h, hl]

/-- A node option is not a symbolic link. -/
def notLink : Option Node → Prop
  | some (.symlink _) => False
  | _ => True

instance : DecidablePred notLink := fun o => by
  cases o with
  | none => exact .isTrue trivial
  | some n => cases n with
    | file d m => exact .isTrue trivial
    | dir m => exact .isTrue trivial
    | symlink t => exact .isFalse id

theorem notLink_iff (o : Option Node) :
    notLink o ↔ ∀ t, o ≠ some (.symlink t) := by
  cases o with
  | none => simp [notLink]
  | some n => cases n <;> simp [notLink]

/-- When the node at `p` is not a symlink, readFile is determined by the
lookup at `p` alone. -/
theorem readFile_eq_of_lookup_eq (fs fs' : FS) (p : Path)
    (hnl : notLink (lookupFS fs p)) (heq : lookupFS fs' p = lookupFS fs p) :
    readFile fs' p = readFile fs p := by
  have h := (notLink_iff _).mp hnl
  have h' : ∀ t, lookupFS fs' p ≠ some (.symlink t) := fun t => heq ▸ h t
  simp only [readFile, resolve_nonlink fs fs.length p h,
    resolve_nonlink fs' fs'.length p h', heq]

/-! ## Lemmas about walk entries -/

theorem entriesUnder_nil (root : Path) : entriesUnder [] root = [] := rfl

theorem entriesUnder_cons (a : Path) (n : Node) (fs : FS) (root : Path) :
    entriesUnder ((a, n) :: fs) root =
      if root.isPrefixOf a then (a.drop root.length, n) :: entriesUnder fs root
      else entriesUnder fs root := by
  by_cases h : root.isPrefixOf a
  · simp only [entriesUnder, List.filterMap_cons, if_pos h]
  · simp only [entriesUnder, List.filterMap_cons, if_neg h]

theorem lookup_entriesUnder (fs : FS) (root rel : Path) :
    List.lookup rel (entriesUnder fs root) = lookupFS fs (root ++ rel) := by
  induction fs with
  | nil => rfl
  | cons e fs ih =>
    obtain ⟨a, n⟩ := e
    rw [entriesUnder_cons]
    by_cases h : root.isPrefixOf a
    · rw [if_pos h]
      have had : root ++ a.drop root.length = a := prefix_append_drop root a h
      by_cases hrel : rel = a.drop root.length
      · subst hrel
        rw [lookupFS_cons, if_pos had]
        simp [List.lookup]
      · have hne : root ++ rel ≠ a := by
          intro hc
          apply hrel
          have := hc.trans had.symm
          exact List.append_cancel_left this
        rw [lookupFS_cons, if_neg hne]
        rw [show List.lookup rel ((a.drop root.length, n) :: entriesUnder fs root)
            = List.lookup rel (entriesUnder fs root) by
          simp [List.lookup, beq_false_of_ne hrel]]
        exact ih
    · rw [if_neg h]
      have hne : root ++ rel ≠ a := by
        intro hc
        exact h (hc ▸ isPrefixOf_append root rel)
      rw [lookupFS_cons, if_neg hne]
      exact ih

theorem mem_keys_entriesUnder (fs : FS) (root k : Path)
    (h : k ∈ (entriesUnder fs root).map Prod.fst) :
    root ++ k ∈ fs.map Prod.fst := by
  induction fs with
  | nil => simp [entriesUnder_nil] at h
  | cons e fs ih =>
    obtain ⟨a, n⟩ := e
    rw [entriesUnder_cons] at h
    by_cases hp : root.isPrefixOf a
    · rw [if_pos hp] at h
      simp only [List.map_cons, List.mem_cons] at h
      rcases h with h | h
      · subst h
        rw [prefix_append_drop root a hp]
        exact List.mem_cons_self a _
      · simp only [List.map_cons, List.mem_cons]
        exact Or.inr (ih h)
    · rw [if_neg hp] at h
      simp only [List.map_cons, List.mem_cons]
      exact Or.inr (ih h)

theorem entriesUnder_keys_nodup (fs : FS) (root : Path) (hwf : WFfs fs) :
    ((entriesUnder fs root).map Prod.fst).Nodup := by
  induction fs with
  | nil => simp [entriesUnder_nil]
  | cons e fs ih =>
    obtain ⟨a, n⟩ := e
    simp only [WFfs, List.map_cons, List.nodup_cons] at hwf
    rw [entriesUnder_cons]
    by_cases hp : root.isPrefixOf a
    · rw [if_pos hp]
      simp only [List.map_cons, List.nodup_cons]
      refine ⟨?_, ih hwf.2⟩
      intro hmem
      have := mem_keys_entriesUnder fs root _ hmem
      rw [prefix_append_drop root a hp] at this
      exact hwf.1 this
    · rw [if_neg hp]
      exact ih hwf.2

/-! ## Specification of the storage copy -/

/-- The node a storage copy writes for a source node: data and symlink
targets are preserved, creation times come from the clock. -/
def copyNode (now : Nat) : Node → Node
  | .file d _ => .file d now
  | .dir _ => .dir now
  | .symlink t => .symlink t

theorem lookupFS_none_of_not_mem (l : FS) (k : Path)
    (h : k ∉ l.map Prod.fst) : lookupFS l k = none := by
  induction l with
  | nil => rfl
  | cons e l ih =>
    rw [lookupFS_cons]
    simp only [List.map_cons, List.mem_cons] at h
    push_neg at h
    rw [if_neg h.1]
    exact ih h.2

theorem symlinkW_spec (w : World) (t p : Path) (r : Except Err Unit) (w' : World)
    (h : symlinkW w t p = (r, w')) :
    w'.bad = w.bad ∧ w'.now = w.now ∧ (WFfs w.fs → WFfs w'.fs) ∧
    (∀ q, q ≠ p → lookupFS w'.fs q = lookupFS w.fs q) ∧
    (r = .ok () → p ∉ w.bad ∧ lookupFS w.fs p = none ∧
      lookupFS w'.fs p = some (.symlink t)) ∧
    (∀ e0, r = .error e0 → w' = w) := by
  unfold symlinkW at h
  by_cases hb : p ∈ w.bad
  · rw [if_pos hb] at h
    injection h with h1 h2
    subst h1; subst h2
    exact ⟨rfl, rfl, id, fun q _ => rfl, fun hc => Except.noConfusion hc, fun _ _ => rfl⟩
  · rw [if_neg hb] at h
    cases hl : lookupFS w.fs p with
    | some n0 =>
      rw [hl] at h
      injection h with h1 h2
      subst h1; subst h2
      exact ⟨rfl, rfl, id, fun q _ => rfl, fun hc => Except.noConfusion hc, fun _ _ => rfl⟩
    | none =>
      rw [hl] at h
      injection h with h1 h2
      subst h1; subst h2
      exact ⟨rfl, rfl, fun hw => WFfs_insert _ _ _ hw,
        fun q hq => lookupFS_insert_ne _ _ _ _ hq,
        fun _ => ⟨hb, rfl, lookupFS_insert_self _ _ _⟩,
        fun e0 hc => Except.noConfusion hc⟩

theorem mkdirAllW_spec (w : World) (p : Path) (r : Except Err Unit) (w' : World)
    (h : mkdirAllW w p = (r, w')) :
    w'.bad = w.bad ∧ w'.now = w.now ∧ (WFfs w.fs → WFfs w'.fs) ∧
    (∀ q, q ≠ p → lookupFS w'.fs q = lookupFS w.fs q) ∧
    (r = .ok () → p ∉ w.bad ∧
      ((lookupFS w.fs p = none ∧ lookupFS w'.fs p = some (.dir w.now)) ∨
       (∃ m0, lookupFS w.fs p = some (.dir m0) ∧ w' = w))) ∧
    (∀ e0, r = .error e0 → w' = w) ∧
    (r = .ok () → ∀ n0, lookupFS w.fs p = some n0 →
      lookupFS w'.fs p = some n0 ∧ ∃ m0, n0 = .dir m0) := by
  unfold mkdirAllW at h
  by_cases hb : p ∈ w.bad
  · rw [if_pos hb] at h
    injection h with h1 h2
    subst h1; subst h2
    exact ⟨rfl, rfl, id, fun q _ => rfl, fun hc => Except.noConfusion hc, fun _ _ => rfl,
      fun hc => Except.noConfusion hc⟩
  · rw [if_neg hb] at h
    cases hl : lookupFS w.fs p with
    | some n0 =>
      cases n0 with
      | dir m0 =>
        rw [hl] at h
        injection h with h1 h2
        subst h1; subst h2
        exact ⟨rfl, rfl, id, fun q _ => rfl, fun _ => ⟨hb, Or.inr ⟨m0, rfl, rfl⟩⟩,
          fun e0 hc => Except.noConfusion hc,
          fun _ n0 hn0 => ⟨hl.trans hn0, m0, (Option.some.inj hn0).symm⟩⟩
      | file d0 m0 =>
        rw [hl] at h
        injection h with h1 h2
        subst h1; subst h2
        exact ⟨rfl, rfl, id, fun q _ => rfl, fun hc => Except.noConfusion hc, fun _ _ => rfl,
          fun hc => Except.noConfusion hc⟩
      | symlink t0 =>
        rw [hl] at h
        injection h with h1 h2
        subst h1; subst h2
        exact ⟨rfl, rfl, id, fun q _ => rfl, fun hc => Except.noConfusion hc, fun _ _ => rfl,
          fun hc => Except.noConfusion hc⟩
    | none =>
      rw [hl] at h
      injection h with h1 h2
      subst h1; subst h2
      exact ⟨rfl, rfl, fun hw => WFfs_insert _ _ _ hw,
        fun q hq => lookupFS_insert_ne _ _ _ _ hq,
        fun _ => ⟨hb, Or.inl ⟨rfl, lookupFS_insert_self _ _ _⟩⟩,
        fun e0 hc => Except.noConfusion hc,
        fun _ n0 hn0 => Option.noConfusion hn0⟩

theorem writeFileW_spec (w : World) (p : Path) (d : Data) (r : Except Err Unit)
    (w' : World) (h : writeFileW w p d = (r, w')) :
    w'.bad = w.bad ∧ w'.now = w.now ∧ (WFfs w.fs → WFfs w'.fs) ∧
    (∀ q, q ≠ p → lookupFS w'.fs q = lookupFS w.fs q) ∧
    (r = .ok () → p ∉ w.bad ∧ lookupFS w'.fs p = some (.file d w.now)) ∧
    (∀ e0, r = .error e0 → w' = w) := by
  unfold writeFileW at h
  by_cases hb : p ∈ w.bad
  · rw [if_pos hb] at h
    injection h with h1 h2
    subst h1; subst h2
    exact ⟨rfl, rfl, id, fun q _ => rfl, fun hc => Except.noConfusion hc, fun _ _ => rfl⟩
  · rw [if_neg hb] at h
    cases hl : lookupFS w.fs p with
    | some n0 =>
      cases n0 with
      | dir m0 =>
        rw [hl] at h
        injection h with h1 h2
        subst h1; subst h2
        exact ⟨rfl, rfl, id, fun q _ => rfl, fun hc => Except.noConfusion hc, fun _ _ => rfl⟩
      | file d0 m0 =>
        rw [hl] at h
        injection h with h1 h2
        subst h1; subst h2
        exact ⟨rfl, rfl, fun hw => WFfs_insert _ _ _ hw,
          fun q hq => lookupFS_insert_ne _ _ _ _ hq,
          fun _ => ⟨hb, lookupFS_insert_self _ _ _⟩,
          fun e0 hc => Except.noConfusion hc⟩
      | symlink t0 =>
        rw [hl] at h
        injection h with h1 h2
        subst h1; subst h2
        exact ⟨rfl, rfl, fun hw => WFfs_insert _ _ _ hw,
          fun q hq => lookupFS_insert_ne _ _ _ _ hq,
          fun _ => ⟨hb, lookupFS_insert_self _ _ _⟩,
          fun e0 hc => Except.noConfusion hc⟩
    | none =>
      rw [hl] at h
      injection h with h1 h2
      subst h1; subst h2
      exact ⟨rfl, rfl, fun hw => WFfs_insert _ _ _ hw,
        fun q hq => lookupFS_insert_ne _ _ _ _ hq,
        fun _ => ⟨hb, lookupFS_insert_self _ _ _⟩,
        fun e0 hc => Except.noConfusion hc⟩

theorem copyFileStorage_spec (w : World) (d : Data) (p : Path)
    (r : Except Err Unit) (w' : World) (h : copyFileStorage w d p = (r, w')) :
    w'.bad = w.bad ∧ w'.now = w.now ∧ (WFfs w.fs → WFfs w'.fs) ∧
    (∀ q, q ≠ p → lookupFS w'.fs q = lookupFS w.fs q) ∧
    (r = .ok () → p ∉ w.bad ∧ lookupFS w'.fs p = some (.file d w.now)) ∧
    (∀ e0, r = .error e0 → w' = w) := by
  unfold copyFileStorage at h
  by_cases hb : p ∈ w.bad
  · rw [if_pos hb] at h
    injection h with h1 h2
    subst h1; subst h2
    exact ⟨rfl, rfl, id, fun q _ => rfl, fun hc => Except.noConfusion hc, fun _ _ => rfl⟩
  · rw [if_neg hb] at h
    cases hl : lookupFS w.fs p with
    | some n0 =>
      cases n0 with
      | dir m0 =>
        rw [hl] at h
        injection h with h1 h2
        subst h1; subst h2
        exact ⟨rfl, rfl, id, fun q _ => rfl, fun hc => Except.noConfusion hc, fun _ _ => rfl⟩
      | file d0 m0 =>
        rw [hl] at h
        injection h with h1 h2
        subst h1; subst h2
        exact ⟨rfl, rfl, fun hw => WFfs_insert _ _ _ hw,
          fun q hq => lookupFS_insert_ne _ _ _ _ hq,
          fun _ => ⟨hb, lookupFS_insert_self _ _ _⟩,
          fun e0 hc => Except.noConfusion hc⟩
      | symlink t0 =>
        rw [hl] at h
        injection h with h1 h2
        subst h1; subst h2
        exact ⟨rfl, rfl, fun hw => WFfs_insert _ _ _ hw,
          fun q hq => lookupFS_insert_ne _ _ _ _ hq,
          fun _ => ⟨hb, lookupFS_insert_self _ _ _⟩,
          fun e0 hc => Except.noConfusion hc⟩
    | none =>
      rw [hl] at h
      injection h with h1 h2
      subst h1; subst h2
      exact ⟨rfl, rfl, fun hw => WFfs_insert _ _ _ hw,
        fun q hq => lookupFS_insert_ne _ _ _ _ hq,
        fun _ => ⟨hb, lookupFS_insert_self _ _ _⟩,
        fun e0 hc => Except.noConfusion hc⟩

theorem copyStepStorage_spec (dst : Path) (w : World) (e : Path × Node)
    (r : Except Err Unit) (w' : World) (h : copyStepStorage dst w e = (r, w')) :
    w'.bad = w.bad ∧ w'.now = w.now ∧ (WFfs w.fs → WFfs w'.fs) ∧
    (∀ q, q ≠ dst ++ e.1 → lookupFS w'.fs q = lookupFS w.fs q) ∧
    (r = .ok () → (dst ++ e.1) ∉ w.bad) ∧
    (r = .ok () → lookupFS w.fs (dst ++ e.1) = none →
      lookupFS w'.fs (dst ++ e.1) = some (copyNode w.now e.2)) := by
  obtain ⟨rel, n⟩ := e
  cases n with
  | symlink t =>
    have hs := symlinkW_spec w t (dst ++ rel) r w' h
    exact ⟨hs.1, hs.2.1, hs.2.2.1, hs.2.2.2.1,
      fun hr => ((hs.2.2.2.2.1) hr).1, fun hr _ => ((hs.2.2.2.2.1) hr).2.2⟩
  | dir m =>
    have hs := mkdirAllW_spec w (dst ++ rel) r w' h
    refine ⟨hs.1, hs.2.1, hs.2.2.1, hs.2.2.2.1,
      fun hr => ((hs.2.2.2.2.1) hr).1, fun hr hnone => ?_⟩
    rcases ((hs.2.2.2.2.1) hr).2 with ⟨_, h2⟩ | ⟨m0, hm, _⟩
    · exact h2
    · rw [hnone] at hm
      exact Option.noConfusion hm
  | file d m =>
    have hs := copyFileStorage_spec w d (dst ++ rel) r w' h
    exact ⟨hs.1, hs.2.1, hs.2.2.1, hs.2.2.2.1,
      fun hr => ((hs.2.2.2.2.1) hr).1, fun hr _ => ((hs.2.2.2.2.1) hr).2⟩

theorem copyGoStorage_frame (dst : Path) (entries : List (Path × Node)) :
    ∀ (w : World) (r : Except Err Unit) (w' : World),
    copyGoStorage dst w entries = (r, w') →
    w'.bad = w.bad ∧ w'.now = w.now ∧ (WFfs w.fs → WFfs w'.fs) ∧
    ∀ q, dst.isPrefixOf q = false → lookupFS w'.fs q = lookupFS w.fs q := by
  induction entries with
  | nil =>
    intro w r w' h
    injection h with h1 h2
    subst h2
    exact ⟨rfl, rfl, id, fun q _ => rfl⟩
  | cons e rest ih =>
    intro w r w' h
    unfold copyGoStorage at h
    cases hs : copyStepStorage dst w e with
    | mk r1 w1 =>
      rw [hs] at h
      have hstep := copyStepStorage_spec dst w e r1 w1 hs
      cases r1 with
      | error err =>
        injection h with h1 h2
        subst h1; subst h2
        refine ⟨hstep.1, hstep.2.1, hstep.2.2.1, fun q hq => ?_⟩
        exact hstep.2.2.2.1 q (by
          intro hc
          subst hc
          rw [isPrefixOf_append] at hq
          exact Bool.noConfusion hq)
      | ok u =>
        have hrest := ih w1 r w' h
        refine ⟨hrest.1.trans hstep.1, hrest.2.1.trans hstep.2.1,
          fun hw => hrest.2.2.1 (hstep.2.2.1 hw), fun q hq => ?_⟩
        rw [hrest.2.2.2 q hq]
        exact hstep.2.2.2.1 q (by
          intro hc
          subst hc
          rw [isPrefixOf_append] at hq
          exact Bool.noConfusion hq)

theorem copyGoStorage_effect (dst : Path) (entries : List (Path × Node)) :
    ∀ (w : World) (w' : World),
    copyGoStorage dst w entries = (.ok (), w') →
    ((entries.map Prod.fst).Nodup) →
    (∀ rel, lookupFS w.fs (dst ++ rel) ≠ none → lookupFS entries rel = none) →
    ∀ rel, lookupFS w'.fs (dst ++ rel) =
      match lookupFS entries rel with
      | some n => some (copyNode w.now n)
      | none => lookupFS w.fs (dst ++ rel) := by
  induction entries with
  | nil =>
    intro w w' h _ _ rel
    injection h with h1 h2
    subst h2
    rfl
  | cons e rest ih =>
    intro w w' h hnodup hreg
    unfold copyGoStorage at h
    cases hs : copyStepStorage dst w e with
    | mk r1 w1 =>
      rw [hs] at h
      have hstep := copyStepStorage_spec dst w e r1 w1 hs
      cases r1 with
      | error err =>
        injection h with h1
        exact absurd h1 (by simp)
      | ok u =>
        simp only [List.map_cons, List.nodup_cons] at hnodup
        have hhead : lookupFS w.fs (dst ++ e.1) = none := by
          by_contra hc
          have := hreg e.1 hc
          rw [show lookupFS (e :: rest) e.1 = some e.2 by
            obtain ⟨a, n⟩ := e
            simp [lookupFS_cons]] at this
          exact Option.noConfusion this
        have heff := hstep.2.2.2.2.2 rfl hhead
        have hreg1 : ∀ rel, lookupFS w1.fs (dst ++ rel) ≠ none →
            lookupFS rest rel = none := by
          intro rel hne
          by_cases hrel : rel = e.1
          · subst hrel
            exact lookupFS_none_of_not_mem rest e.1 hnodup.1
          · have hq : dst ++ rel ≠ dst ++ e.1 := by
              intro hc
              exact hrel (List.append_cancel_left hc)
            rw [hstep.2.2.2.1 (dst ++ rel) hq] at hne
            have := hreg rel hne
            rw [show lookupFS (e :: rest) rel = lookupFS rest rel by
              obtain ⟨a, n⟩ := e
              rw [lookupFS_cons, if_neg hrel]] at this
            exact this
        have hrest := ih w1 w' h hnodup.2 hreg1
        intro rel
        by_cases hrel : rel = e.1
        · subst hrel
          have h1 := hrest e.1
          rw [lookupFS_none_of_not_mem rest e.1 hnodup.1] at h1
          rw [h1, heff]
          rw [show lookupFS (e :: rest) e.1 = some e.2 by
            obtain ⟨a, n⟩ := e
            simp [lookupFS_cons]]
        · have h1 := hrest rel
          rw [show lookupFS (e :: rest) rel = lookupFS rest rel by
            obtain ⟨a, n⟩ := e
            rw [lookupFS_cons, if_neg hrel]]
          rw [h1, hstep.2.1]
          cases hlr : lookupFS rest rel with
          | some n => rfl
          | none =>
            have hq : dst ++ rel ≠ dst ++ e.1 := by
              intro hc
              exact hrel (List.append_cancel_left hc)
            rw [hstep.2.2.2.1 (dst ++ rel) hq]

theorem copyGoStorage_ok_not_bad (dst : Path) (entries : List (Path × Node)) :
    ∀ (w : World) (w' : World) (rel : Path) (n : Node),
    copyGoStorage dst w entries = (.ok (), w') →
    lookupFS entries rel = some n → (dst ++ rel) ∉ w.bad := by
  induction entries with
  | nil =>
    intro w w' rel n _ hm
    exact Option.noConfusion hm
  | cons e rest ih =>
    intro w w' rel n h hm
    unfold copyGoStorage at h
    cases hs : copyStepStorage dst w e with
    | mk r1 w1 =>
      rw [hs] at h
      have hstep := copyStepStorage_spec dst w e r1 w1 hs
      cases r1 with
      | error err =>
        injection h with h1
        exact absurd h1 (by simp)
      | ok u =>
        by_cases hrel : rel = e.1
        · subst hrel
          exact hstep.2.2.2.2.1 rfl
        · rw [show lookupFS (e :: rest) rel = lookupFS rest rel by
            obtain ⟨a, n0⟩ := e
            rw [lookupFS_cons, if_neg hrel]] at hm
          have := ih w1 w' rel n h hm
          rw [hstep.1] at this
          exact this

/-- The main specification of the storage copyDir on an empty destination
region: the destination subtree becomes the source subtree, with data and
symlink targets preserved and creation times from the clock; nothing
outside the destination region changes. -/
theorem copyDirStorage_spec (w : World) (src dst : Path) (w' : World)
    (hwf : WFfs w.fs)
    (h : copyDirStorage w src dst = (.ok (), w'))
    (hreg : ∀ rel, lookupFS w.fs (dst ++ rel) = none) :
    (∀ rel, lookupFS w'.fs (dst ++ rel) =
      (lookupFS w.fs (src ++ rel)).map (copyNode w.now)) ∧
    (∀ q, dst.isPrefixOf q = false → lookupFS w'.fs q = lookupFS w.fs q) ∧
    w'.bad = w.bad ∧ w'.now = w.now ∧ WFfs w'.fs := by
  unfold copyDirStorage at h
  cases hl : lookupFS w.fs src with
  | none =>
    rw [hl] at h
    injection h with h1
    exact absurd h1 (by simp)
  | some n0 =>
    rw [hl] at h
    have hframe := copyGoStorage_frame dst (entriesUnder w.fs src) w _ w' h
    have heff := copyGoStorage_effect dst (entriesUnder w.fs src) w w' h
      (entriesUnder_keys_nodup w.fs src hwf)
      (fun rel hne => absurd (hreg rel) hne)
    refine ⟨fun rel => ?_, hframe.2.2.2, hframe.1, hframe.2.1, hframe.2.2.1 hwf⟩
    have h1 := heff rel
    rw [show lookupFS (entriesUnder w.fs src) rel = lookupFS w.fs (src ++ rel) from
      lookup_entriesUnder w.fs src rel] at h1
    rw [h1]
    cases lookupFS w.fs (src ++ rel) with
    | some n => rfl
    | none => rw [hreg rel]; rfl

/-! ## Specification of the sharing copy -/

theorem copyFileSharing_spec (w : World) (s p : Path) (r : Except Err Unit)
    (w' : World) (h : copyFileSharing w s p = (r, w')) :
    w'.bad = w.bad ∧ w'.now = w.now ∧ (WFfs w.fs → WFfs w'.fs) ∧
    (∀ q, q ≠ p → lookupFS w'.fs q = lookupFS w.fs q) ∧
    (r = .ok () → p ∉ w.bad ∧ ∃ d, readFile w.fs s = .ok d ∧
      lookupFS w'.fs p = some (.file d w.now)) ∧
    (∀ e0, r = .error e0 → w' = w) := by
  unfold copyFileSharing at h
  cases hr : readFile w.fs s with
  | error e0 =>
    rw [hr] at h
    injection h with h1 h2
    subst h1; subst h2
    exact ⟨rfl, rfl, id, fun q _ => rfl, fun hc => Except.noConfusion hc, fun _ _ => rfl⟩
  | ok d =>
    rw [hr] at h
    have hs := writeFileW_spec w p d r w' h
    exact ⟨hs.1, hs.2.1, hs.2.2.1, hs.2.2.2.1,
      fun hrr => ⟨(hs.2.2.2.2.1 hrr).1, d, rfl, (hs.2.2.2.2.1 hrr).2⟩,
      hs.2.2.2.2.2⟩

theorem copyStepSharing_spec (src dst : Path) (w : World) (e : Path × Node)
    (r : Except Err Unit) (w' : World) (h : copyStepSharing src dst w e = (r, w')) :
    w'.bad = w.bad ∧ w'.now = w.now ∧ (WFfs w.fs → WFfs w'.fs) ∧
    (∀ q, q ≠ dst ++ e.1 → lookupFS w'.fs q = lookupFS w.fs q) ∧
    (∀ q t, lookupFS w'.fs q = some (.symlink t) →
      lookupFS w.fs q = some (.symlink t)) := by
  obtain ⟨rel, n⟩ := e
  have key : ∀ (hfr : ∀ q, q ≠ dst ++ rel → lookupFS w'.fs q = lookupFS w.fs q)
      (hself : lookupFS w'.fs (dst ++ rel) = lookupFS w.fs (dst ++ rel) ∨
        (∃ nn, lookupFS w'.fs (dst ++ rel) = some nn ∧ ∀ t, nn ≠ .symlink t)),
      ∀ q t, lookupFS w'.fs q = some (.symlink t) →
        lookupFS w.fs q = some (.symlink t) := by
    intro hfr hself q t hq
    by_cases hqe : q = dst ++ rel
    · subst hqe
      rcases hself with hc | ⟨nn, hnn, hns⟩
      · rw [hc] at hq
        exact hq
      · rw [hnn] at hq
        exact absurd (Option.some.inj hq) (hns t)
    · rw [hfr q hqe] at hq
      exact hq
  cases n with
  | dir m =>
    have hs := mkdirAllW_spec w (dst ++ rel) r w' h
    refine ⟨hs.1, hs.2.1, hs.2.2.1, hs.2.2.2.1, key hs.2.2.2.1 ?_⟩
    cases r with
    | ok u =>
      rcases (hs.2.2.2.2.1 rfl).2 with ⟨_, hins⟩ | ⟨m0, _, hww⟩
      · exact Or.inr ⟨_, hins, fun t hc => Node.noConfusion hc⟩
      · rw [hww]
        exact Or.inl rfl
    | error e0 =>
      rw [hs.2.2.2.2.2.1 e0 rfl]
      exact Or.inl rfl
  | file d m =>
    have hs := copyFileSharing_spec w (src ++ rel) (dst ++ rel) r w' h
    refine ⟨hs.1, hs.2.1, hs.2.2.1, hs.2.2.2.1, key hs.2.2.2.1 ?_⟩
    cases r with
    | ok u =>
      obtain ⟨_, d0, _, hins⟩ := hs.2.2.2.2.1 rfl
      exact Or.inr ⟨_, hins, fun t hc => Node.noConfusion hc⟩
    | error e0 =>
      rw [hs.2.2.2.2.2 e0 rfl]
      exact Or.inl rfl
  | symlink t0 =>
    have hs := copyFileSharing_spec w (src ++ rel) (dst ++ rel) r w' h
    refine ⟨hs.1, hs.2.1, hs.2.2.1, hs.2.2.2.1, key hs.2.2.2.1 ?_⟩
    cases r with
    | ok u =>
      obtain ⟨_, d0, _, hins⟩ := hs.2.2.2.2.1 rfl
      exact Or.inr ⟨_, hins, fun t hc => Node.noConfusion hc⟩
    | error e0 =>
      rw [hs.2.2.2.2.2 e0 rfl]
      exact Or.inl rfl

theorem mem_keys_of_lookup (l : FS) (k : Path) (n : Node)
    (h : lookupFS l k = some n) : k ∈ l.map Prod.fst := by
  by_contra hc
  rw [lookupFS_none_of_not_mem l k hc] at h
  exact Option.noConfusion h

theorem copyGoSharing_frame (src dst : Path) (entries : List (Path × Node)) :
    ∀ (w : World) (r : Except Err Unit) (w' : World),
    copyGoSharing src dst w entries = (r, w') →
    w'.bad = w.bad ∧ w'.now = w.now ∧ (WFfs w.fs → WFfs w'.fs) ∧
    (∀ q, dst.isPrefixOf q = false → lookupFS w'.fs q = lookupFS w.fs q) ∧
    (∀ q t, lookupFS w'.fs q = some (.symlink t) →
      lookupFS w.fs q = some (.symlink t)) := by
  induction entries with
  | nil =>
    intro w r w' h
    injection h with h1 h2
    subst h2
    exact ⟨rfl, rfl, id, fun q _ => rfl, fun q t hq => hq⟩
  | cons e rest ih =>
    intro w r w' h
    unfold copyGoSharing at h
    cases hs : copyStepSharing src dst w e with
    | mk r1 w1 =>
      rw [hs] at h
      have hstep := copyStepSharing_spec src dst w e r1 w1 hs
      cases r1 with
      | error err =>
        injection h with h1 h2
        subst h1; subst h2
        refine ⟨hstep.1, hstep.2.1, hstep.2.2.1, fun q hq => ?_, hstep.2.2.2.2⟩
        exact hstep.2.2.2.1 q (by
          intro hc
          subst hc
          rw [isPrefixOf_append] at hq
          exact Bool.noConfusion hq)
      | ok u =>
        have hrest := ih w1 r w' h
        refine ⟨hrest.1.trans hstep.1, hrest.2.1.trans hstep.2.1,
          fun hw => hrest.2.2.1 (hstep.2.2.1 hw), fun q hq => ?_,
          fun q t hq => hstep.2.2.2.2 q t (hrest.2.2.2.2 q t hq)⟩
        rw [hrest.2.2.2.1 q hq]
        exact hstep.2.2.2.1 q (by
          intro hc
          subst hc
          rw [isPrefixOf_append] at hq
          exact Bool.noConfusion hq)

theorem copyGoSharing_effect (src dst : Path) (entries : List (Path × Node)) :
    ∀ (w : World) (w' : World),
    copyGoSharing src dst w entries = (.ok (), w') →
    ((entries.map Prod.fst).Nodup) →
    (∀ rel, lookupFS w.fs (dst ++ rel) ≠ none → lookupFS entries rel = none) →
    (∀ rel n, lookupFS entries rel = some n → lookupFS w.fs (src ++ rel) = some n) →
    (∀ rel, dst.isPrefixOf (src ++ rel) = false) →
    ∀ rel, (match lookupFS entries rel with
      | some (.file d _) => lookupFS w'.fs (dst ++ rel) = some (.file d w.now)
      | some (.dir _) => lookupFS w'.fs (dst ++ rel) = some (.dir w.now)
      | some (.symlink _) => True
      | none => lookupFS w'.fs (dst ++ rel) = lookupFS w.fs (dst ++ rel)) := by
  induction entries with
  | nil =>
    intro w w' h _ _ _ _ rel
    injection h with h1 h2
    subst h2
    exact rfl
  | cons e rest ih =>
    intro w w' h hnodup hreg hsrc hdisj
    unfold copyGoSharing at h
    cases hs : copyStepSharing src dst w e with
    | mk r1 w1 =>
      rw [hs] at h
      have hstep := copyStepSharing_spec src dst w e r1 w1 hs
      cases r1 with
      | error err =>
        injection h with h1
        exact absurd h1 (by simp)
      | ok u =>
        simp only [List.map_cons, List.nodup_cons] at hnodup
        have hhead : lookupFS w.fs (dst ++ e.1) = none := by
          by_contra hc
          have := hreg e.1 hc
          rw [show lookupFS (e :: rest) e.1 = some e.2 by
            obtain ⟨a, n⟩ := e
            simp [lookupFS_cons]] at this
          exact Option.noConfusion this
        -- the head entry is established at dst ++ e.1 by the successful step
        have hmain : match e.2 with
            | .file d _ => lookupFS w1.fs (dst ++ e.1) = some (.file d w.now)
            | .dir _ => lookupFS w1.fs (dst ++ e.1) = some (.dir w.now)
            | .symlink _ => True := by
          obtain ⟨a, n⟩ := e
          cases n with
          | symlink t => exact trivial
          | dir m =>
            have hd := mkdirAllW_spec w (dst ++ a) (.ok ()) w1 hs
            rcases (hd.2.2.2.2.1 rfl).2 with ⟨_, hins⟩ | ⟨m0, hm, _⟩
            · exact hins
            · rw [hhead] at hm
              exact Option.noConfusion hm
          | file d m =>
            have hf := copyFileSharing_spec w (src ++ a) (dst ++ a) (.ok ()) w1 hs
            obtain ⟨_, d0, hrd, hins⟩ := hf.2.2.2.2.1 rfl
            have hl : lookupFS w.fs (src ++ a) = some (.file d m) :=
              hsrc a (.file d m) (by simp [lookupFS_cons])
            rw [readFile_of_file w.fs (src ++ a) d m hl] at hrd
            have : d0 = d := (Except.ok.inj hrd).symm
            subst this
            exact hins
        have hreg1 : ∀ rel, lookupFS w1.fs (dst ++ rel) ≠ none →
            lookupFS rest rel = none := by
          intro rel hne
          by_cases hrel : rel = e.1
          · subst hrel
            exact lookupFS_none_of_not_mem rest e.1 hnodup.1
          · have hq : dst ++ rel ≠ dst ++ e.1 := by
              intro hc
              exact hrel (List.append_cancel_left hc)
            rw [hstep.2.2.2.1 (dst ++ rel) hq] at hne
            have := hreg rel hne
            rw [show lookupFS (e :: rest) rel = lookupFS rest rel by
              obtain ⟨a, n⟩ := e
              rw [lookupFS_cons, if_neg hrel]] at this
            exact this
        have hsrc1 : ∀ rel n, lookupFS rest rel = some n →
            lookupFS w1.fs (src ++ rel) = some n := by
          intro rel n hn
          have hmem : lookupFS (e :: rest) rel = some n := by
            obtain ⟨a, n0⟩ := e
            rw [lookupFS_cons]
            by_cases hrel : rel = a
            · subst hrel
              exact absurd (mem_keys_of_lookup rest rel n hn) hnodup.1
            · rw [if_neg hrel]
              exact hn
          have hsq : dst.isPrefixOf (src ++ rel) = false := hdisj rel
          have hne : src ++ rel ≠ dst ++ e.1 := by
            intro hc
            rw [hc, isPrefixOf_append] at hsq
            exact Bool.noConfusion hsq
          rw [hstep.2.2.2.1 (src ++ rel) hne]
          exact hsrc rel n hmem
        have hrest := ih w1 w' h hnodup.2 hreg1 hsrc1 hdisj
        intro rel
        by_cases hrel : rel = e.1
        · subst hrel
          have h1 := hrest e.1
          rw [lookupFS_none_of_not_mem rest e.1 hnodup.1] at h1
          rw [show lookupFS (e :: rest) e.1 = some e.2 by
            obtain ⟨a, n⟩ := e
            simp [lookupFS_cons]]
          obtain ⟨a, n⟩ := e
          cases n with
          | symlink t => exact trivial
          | dir m =>
            show lookupFS w'.fs (dst ++ a) = some (.dir w.now)
            rw [h1]
            exact hmain
          | file d m =>
            show lookupFS w'.fs (dst ++ a) = some (.file d w.now)
            rw [h1]
            exact hmain
        · have h1 := hrest rel
          rw [show lookupFS (e :: rest) rel = lookupFS rest rel by
            obtain ⟨a, n⟩ := e
            rw [lookupFS_cons, if_neg hrel]]
          rw [hstep.2.1] at h1
          cases hlr : lookupFS rest rel with
          | some n =>
            rw [hlr] at h1
            cases n with
            | file d m => exact h1
            | dir m => exact h1
            | symlink t => exact trivial
          | none =>
            rw [hlr] at h1
            rw [h1]
            have hq : dst ++ rel ≠ dst ++ e.1 := by
              intro hc
              exact hrel (List.append_cancel_left hc)
            exact hstep.2.2.2.1 (dst ++ rel) hq

/-- The sharing copyDir on an empty destination region: file and directory
entries are re-created (files byte-for-byte); nothing outside the
destination changes; no symlink is ever created. -/
theorem copyDirSharing_spec (w : World) (src dst : Path) (w' : World)
    (hwf : WFfs w.fs)
    (h : copyDirSharing w src dst = (.ok (), w'))
    (hreg : ∀ rel, lookupFS w.fs (dst ++ rel) = none)
    (hdisj : ∀ rel, dst.isPrefixOf (src ++ rel) = false) :
    (∀ rel d m, lookupFS w.fs (src ++ rel) = some (.file d m) →
      lookupFS w'.fs (dst ++ rel) = some (.file d w.now)) ∧
    (∀ rel m, lookupFS w.fs (src ++ rel) = some (.dir m) →
      lookupFS w'.fs (dst ++ rel) = some (.dir w.now)) ∧
    (∀ q, dst.isPrefixOf q = false → lookupFS w'.fs q = lookupFS w.fs q) ∧
    (∀ q t, lookupFS w'.fs q = some (.symlink t) →
      lookupFS w.fs q = some (.symlink t)) ∧
    w'.bad = w.bad ∧ w'.now = w.now ∧ WFfs w'.fs := by
  unfold copyDirSharing at h
  cases hl : lookupFS w.fs src with
  | none =>
    rw [hl] at h
    injection h with h1
    exact absurd h1 (by simp)
  | some n0 =>
    rw [hl] at h
    have hframe := copyGoSharing_frame src dst (entriesUnder w.fs src) w _ w' h
    have heff := copyGoSharing_effect src dst (entriesUnder w.fs src) w w' h
      (entriesUnder_keys_nodup w.fs src hwf)
      (fun rel hne => absurd (hreg rel) hne)
      (fun rel n hn => by
        rw [show lookupFS (entriesUnder w.fs src) rel = lookupFS w.fs (src ++ rel)
          from lookup_entriesUnder w.fs src rel] at hn
        exact hn)
      hdisj
    refine ⟨fun rel d m hf => ?_, fun rel m hd => ?_, hframe.2.2.2.1,
      hframe.2.2.2.2, hframe.1, hframe.2.1, hframe.2.2.1 hwf⟩
    · have h1 := heff rel
      rw [show lookupFS (entriesUnder w.fs src) rel = lookupFS w.fs (src ++ rel)
        from lookup_entriesUnder w.fs src rel, hf] at h1
      exact h1
    · have h1 := heff rel
      rw [show lookupFS (entriesUnder w.fs src) rel = lookupFS w.fs (src ++ rel)
        from lookup_entriesUnder w.fs src rel, hd] at h1
      exact h1

/-- The sharing copyPath on an empty destination region, when the source
node is not a symlink and (for a regular-file source) nothing lies below
the source path. -/
theorem copyPath_spec (w : World) (src dst : Path) (w' : World)
    (hwf : WFfs w.fs)
    (h : copyPath w src dst = (.ok (), w'))
    (hn : notLink (lookupFS w.fs src))
    (hreg : ∀ rel, lookupFS w.fs (dst ++ rel) = none)
    (hdisj : ∀ rel, dst.isPrefixOf (src ++ rel) = false)
    (hleaf : ∀ d m, lookupFS w.fs src = some (.file d m) →
      ∀ rel, rel ≠ ([] : Path) → lookupFS w.fs (src ++ rel) = none) :
    (∀ rel d m, lookupFS w.fs (src ++ rel) = some (.file d m) →
      lookupFS w'.fs (dst ++ rel) = some (.file d w.now)) ∧
    (∀ q, dst.isPrefixOf q = false → lookupFS w'.fs q = lookupFS w.fs q) ∧
    (∀ q t, lookupFS w'.fs q = some (.symlink t) →
      lookupFS w.fs q = some (.symlink t)) ∧
    w'.bad = w.bad ∧ w'.now = w.now ∧ WFfs w'.fs := by
  unfold copyPath at h
  cases hl : lookupFS w.fs src with
  | none =>
    rw [statFS_none w.fs src hl] at h
    injection h with h1
    exact absurd h1 (by simp)
  | some n0 =>
    cases n0 with
    | symlink t =>
      rw [hl] at hn
      exact absurd hn id
    | dir m =>
      rw [statFS_direct w.fs src (.dir m) hl (fun t => Node.noConfusion)] at h
      have hs := copyDirSharing_spec w src dst w' hwf h hreg hdisj
      exact ⟨hs.1, hs.2.2.1, hs.2.2.2.1, hs.2.2.2.2.1, hs.2.2.2.2.2⟩
    | file d m =>
      rw [statFS_direct w.fs src (.file d m) hl (fun t => Node.noConfusion)] at h
      have hs := copyFileSharing_spec w src dst (.ok ()) w' h
      obtain ⟨_, d0, hrd, hins⟩ := hs.2.2.2.2.1 rfl
      rw [readFile_of_file w.fs src d m hl] at hrd
      have hd0 : d0 = d := (Except.ok.inj hrd).symm
      rw [hd0] at hins
      have hqframe : ∀ q, dst.isPrefixOf q = false →
          lookupFS w'.fs q = lookupFS w.fs q := by
        intro q hq
        refine hs.2.2.2.1 q ?_
        intro hc
        subst hc
        rw [isPrefixOf_refl] at hq
        exact Bool.noConfusion hq
      refine ⟨fun rel d1 m1 hf => ?_, hqframe, fun q t hq => ?_, hs.1, hs.2.1,
        hs.2.2.1 hwf⟩
      · cases rel with
        | nil =>
          rw [List.append_nil] at hf
          rw [hl] at hf
          obtain ⟨hd1, hm1⟩ := Node.file.inj (Option.some.inj hf)
          subst hd1
          rw [List.append_nil]
          exact hins
        | cons x xs =>
          rw [hleaf d m hl (x :: xs) (by simp)] at hf
          exact Option.noConfusion hf
      · by_cases hqe : q = dst
        · subst hqe
          rw [hins] at hq
          exact absurd (Option.some.inj hq) (fun hc => Node.noConfusion hc)
        · rw [hs.2.2.2.1 q hqe] at hq
          exact hq

/-! ## Normal forms for the fixed paths, and region disjointness -/

theorem Home_eq (ps : Paths) : ps.Home = ps.home ++ [".codex"] := rfl

theorem DataDir_eq (ps : Paths) : ps.DataDir = ps.home ++ ["codex-data"] := rfl

theorem StateDir_eq (ps : Paths) : ps.StateDir = ps.home ++ [".codex-switch"] := rfl

theorem SharedDir_eq (ps : Paths) :
    ps.SharedDir = ps.home ++ ["codex-data", "shared"] := rfl

theorem GroupsDir_eq (ps : Paths) :
    ps.GroupsDir = ps.home ++ ["codex-data", "groups"] := rfl

theorem AccountsDir_eq (ps : Paths) :
    ps.AccountsDir = ps.home ++ ["codex-data", "accounts"] := by
  unfold Paths.AccountsDir Paths.DataDir
  rw [List.append_assoc]
  rfl

theorem StateFile_eq (ps : Paths) :
    ps.StateFile = ps.home ++ [".codex-switch", "state.json"] := by
  unfold Paths.StateFile Paths.StateDir
  rw [List.append_assoc]
  rfl

theorem SharingConfigFile_eq (ps : Paths) :
    ps.SharingConfigFile = ps.home ++ [".codex-switch", "sharing.json"] := by
  unfold Paths.SharingConfigFile Paths.StateDir
  rw [List.append_assoc]
  rfl

theorem AccountPath_eq_of_ne (ps : Paths) (n : String) (h : n ≠ "") :
    ps.AccountPath n = ps.home ++ ["codex-data", "accounts", n] := by
  unfold Paths.AccountPath joinName
  rw [if_neg h, AccountsDir_eq, List.append_assoc]
  rfl

theorem AccountPath_empty (ps : Paths) : ps.AccountPath "" = ps.AccountsDir := by
  unfold Paths.AccountPath joinName
  rw [if_pos rfl]

theorem AccountPath_suffix (ps : Paths) (n : String) : ∃ sfx : Path,
    ps.AccountPath n = ps.home ++ ("codex-data" :: "accounts" :: sfx) := by
  by_cases h : n = ""
  · subst h
    exact ⟨[], by rw [AccountPath_empty, AccountsDir_eq]⟩
  · exact ⟨[n], by rw [AccountPath_eq_of_ne ps n h]⟩

theorem AP_not_prefix_Home_rel (ps : Paths) (n : String) (rel : Path) :
    (ps.AccountPath n).isPrefixOf (ps.Home ++ rel) = false := by
  obtain ⟨sfx, hs⟩ := AccountPath_suffix ps n
  rw [hs, Home_eq, List.append_assoc, isPrefixOf_append_cancel]
  exact isPrefixOf_cons_ne _ _ _ _ (by decide)

theorem Home_not_prefix_AP_rel (ps : Paths) (n : String) (rel : Path) :
    ps.Home.isPrefixOf (ps.AccountPath n ++ rel) = false := by
  obtain ⟨sfx, hs⟩ := AccountPath_suffix ps n
  rw [hs, Home_eq, List.append_assoc, isPrefixOf_append_cancel]
  exact isPrefixOf_cons_ne _ _ _ _ (by decide)

theorem Home_rel_ne_DataDir (ps : Paths) (rel : Path) :
    ps.Home ++ rel ≠ ps.DataDir := by
  rw [Home_eq, DataDir_eq, List.append_assoc]
  exact home_append_ne _ _ _ (cons_ne_head _ _ _ _ (by decide))

theorem Home_rel_ne_StateDir (ps : Paths) (rel : Path) :
    ps.Home ++ rel ≠ ps.StateDir := by
  rw [Home_eq, StateDir_eq, List.append_assoc]
  exact home_append_ne _ _ _ (cons_ne_head _ _ _ _ (by decide))

theorem Home_rel_ne_AccountsDir (ps : Paths) (rel : Path) :
    ps.Home ++ rel ≠ ps.AccountsDir := by
  rw [Home_eq, AccountsDir_eq, List.append_assoc]
  exact home_append_ne _ _ _ (cons_ne_head _ _ _ _ (by decide))

theorem Home_rel_ne_StateFile (ps : Paths) (rel : Path) :
    ps.Home ++ rel ≠ ps.StateFile := by
  rw [Home_eq, StateFile_eq, List.append_assoc]
  exact home_append_ne _ _ _ (cons_ne_head _ _ _ _ (by decide))

theorem Home_rel_ne_SharingConfigFile (ps : Paths) (rel : Path) :
    ps.Home ++ rel ≠ ps.SharingConfigFile := by
  rw [Home_eq, SharingConfigFile_eq, List.append_assoc]
  exact home_append_ne _ _ _ (cons_ne_head _ _ _ _ (by decide))

theorem AP_rel_ne_DataDir (ps : Paths) (n : String) (rel : Path) :
    ps.AccountPath n ++ rel ≠ ps.DataDir := by
  obtain ⟨sfx, hs⟩ := AccountPath_suffix ps n
  rw [hs, DataDir_eq, List.append_assoc]
  exact home_append_ne _ _ _ (cons_ne_tail _ _ _ (by
    intro hc
    exact List.noConfusion hc))

theorem AP_rel_ne_StateDir (ps : Paths) (n : String) (rel : Path) :
    ps.AccountPath n ++ rel ≠ ps.StateDir := by
  obtain ⟨sfx, hs⟩ := AccountPath_suffix ps n
  rw [hs, StateDir_eq, List.append_assoc]
  exact home_append_ne _ _ _ (cons_ne_head _ _ _ _ (by decide))

theorem AP_rel_ne_StateFile (ps : Paths) (n : String) (rel : Path) :
    ps.AccountPath n ++ rel ≠ ps.StateFile := by
  obtain ⟨sfx, hs⟩ := AccountPath_suffix ps n
  rw [hs, StateFile_eq, List.append_assoc]
  exact home_append_ne _ _ _ (cons_ne_head _ _ _ _ (by decide))

theorem AP_rel_ne_SharingConfigFile (ps : Paths) (n : String) (rel : Path) :
    ps.AccountPath n ++ rel ≠ ps.SharingConfigFile := by
  obtain ⟨sfx, hs⟩ := AccountPath_suffix ps n
  rw [hs, SharingConfigFile_eq, List.append_assoc]
  exact home_append_ne _ _ _ (cons_ne_head _ _ _ _ (by decide))

theorem AP_not_prefix_StateFile (ps : Paths) (n : String) :
    (ps.AccountPath n).isPrefixOf ps.StateFile = false := by
  obtain ⟨sfx, hs⟩ := AccountPath_suffix ps n
  rw [hs, StateFile_eq, isPrefixOf_append_cancel]
  exact isPrefixOf_cons_ne _ _ _ _ (by decide)

theorem AP_not_prefix_SharingConfigFile (ps : Paths) (n : String) :
    (ps.AccountPath n).isPrefixOf ps.SharingConfigFile = false := by
  obtain ⟨sfx, hs⟩ := AccountPath_suffix ps n
  rw [hs, SharingConfigFile_eq, isPrefixOf_append_cancel]
  exact isPrefixOf_cons_ne _ _ _ _ (by decide)

theorem StateFile_ne_DataDir (ps : Paths) : ps.StateFile ≠ ps.DataDir := by
  rw [StateFile_eq, DataDir_eq]
  exact home_append_ne _ _ _ (by decide)

theorem StateFile_ne_StateDir (ps : Paths) : ps.StateFile ≠ ps.StateDir := by
  rw [StateFile_eq, StateDir_eq]
  exact home_append_ne _ _ _ (by decide)

theorem StateFile_ne_AccountsDir (ps : Paths) : ps.StateFile ≠ ps.AccountsDir := by
  rw [StateFile_eq, AccountsDir_eq]
  exact home_append_ne _ _ _ (by decide)

theorem SharingConfigFile_ne_DataDir (ps : Paths) :
    ps.SharingConfigFile ≠ ps.DataDir := by
  rw [SharingConfigFile_eq, DataDir_eq]
  exact home_append_ne _ _ _ (by decide)

theorem SharingConfigFile_ne_StateDir (ps : Paths) :
    ps.SharingConfigFile ≠ ps.StateDir := by
  rw [SharingConfigFile_eq, StateDir_eq]
  exact home_append_ne _ _ _ (by decide)

theorem SharingConfigFile_ne_AccountsDir (ps : Paths) :
    ps.SharingConfigFile ≠ ps.AccountsDir := by
  rw [SharingConfigFile_eq, AccountsDir_eq]
  exact home_append_ne _ _ _ (by decide)

theorem SharingConfigFile_ne_StateFile (ps : Paths) :
    ps.SharingConfigFile ≠ ps.StateFile := by
  rw [SharingConfigFile_eq, StateFile_eq]
  exact home_append_ne _ _ _ (by decide)

theorem Home_not_prefix_StateFile (ps : Paths) :
    ps.Home.isPrefixOf ps.StateFile = false := by
  rw [Home_eq, StateFile_eq, isPrefixOf_append_cancel]
  exact isPrefixOf_cons_ne _ _ _ _ (by decide)

theorem Home_not_prefix_SharingConfigFile (ps : Paths) :
    ps.Home.isPrefixOf ps.SharingConfigFile = false := by
  rw [Home_eq, SharingConfigFile_eq, isPrefixOf_append_cancel]
  exact isPrefixOf_cons_ne _ _ _ _ (by decide)

theorem SharedDir_not_prefix_StateFile (ps : Paths) :
    ps.SharedDir.isPrefixOf ps.StateFile = false := by
  rw [SharedDir_eq, StateFile_eq, isPrefixOf_append_cancel]
  exact isPrefixOf_cons_ne _ _ _ _ (by decide)

theorem GroupsDir_not_prefix_StateFile (ps : Paths) :
    ps.GroupsDir.isPrefixOf ps.StateFile = false := by
  rw [GroupsDir_eq, StateFile_eq, isPrefixOf_append_cancel]
  exact isPrefixOf_cons_ne _ _ _ _ (by decide)

theorem SharedDir_not_prefix_SharingConfigFile (ps : Paths) :
    ps.SharedDir.isPrefixOf ps.SharingConfigFile = false := by
  rw [SharedDir_eq, SharingConfigFile_eq, isPrefixOf_append_cancel]
  exact isPrefixOf_cons_ne _ _ _ _ (by decide)

theorem GroupsDir_not_prefix_SharingConfigFile (ps : Paths) :
    ps.GroupsDir.isPrefixOf ps.SharingConfigFile = false := by
  rw [GroupsDir_eq, SharingConfigFile_eq, isPrefixOf_append_cancel]
  exact isPrefixOf_cons_ne _ _ _ _ (by decide)

theorem AP_not_prefix_AP (ps : Paths) (a b : String) (rel : Path)
    (hab : a ≠ b) (ha : a ≠ "") (hb : b ≠ "") :
    (ps.AccountPath a).isPrefixOf (ps.AccountPath b ++ rel) = false := by
  rw [AccountPath_eq_of_ne ps a ha, AccountPath_eq_of_ne ps b hb,
    List.append_assoc, isPrefixOf_append_cancel]
  rw [show (["codex-data", "accounts", b] : Path) ++ rel
    = "codex-data" :: "accounts" :: b :: rel from rfl]
  rw [isPrefixOf_cons_cons, isPrefixOf_cons_cons]
  exact isPrefixOf_cons_ne _ _ _ _ hab

theorem AP_rel_ne_AccountsDir (ps : Paths) (n : String) (rel : Path)
    (hn : n ≠ "") : ps.AccountPath n ++ rel ≠ ps.AccountsDir := by
  rw [AccountPath_eq_of_ne ps n hn, AccountsDir_eq, List.append_assoc]
  refine home_append_ne _ _ _ (cons_ne_tail _ _ _ (cons_ne_tail _ _ _ ?_))
  intro hc
  exact List.noConfusion hc

/-! ## Specifications of the small operations -/

theorem EnsureDirs_spec (ps : Paths) (w : World) (r : Except Err Unit) (w' : World)
    (h : ps.EnsureDirs w = (r, w')) :
    w'.bad = w.bad ∧ w'.now = w.now ∧ (WFfs w.fs → WFfs w'.fs) ∧
    (∀ q, q ≠ ps.DataDir → q ≠ ps.StateDir → q ≠ ps.AccountsDir →
      lookupFS w'.fs q = lookupFS w.fs q) ∧
    (r = .ok () → ∃ m, lookupFS w'.fs ps.AccountsDir = some (.dir m)) ∧
    (r = .ok () → ∀ n0, lookupFS w.fs ps.AccountsDir = some n0 →
      lookupFS w'.fs ps.AccountsDir = some n0 ∧ ∃ m0, n0 = .dir m0) := by
  unfold Paths.EnsureDirs at h
  cases h1 : mkdirAllW w ps.DataDir with
  | mk r1 w1 =>
    rw [h1] at h
    have hs1 := mkdirAllW_spec w ps.DataDir r1 w1 h1
    cases r1 with
    | error e1 =>
      injection h with ha hb
      subst ha; subst hb
      exact ⟨hs1.1, hs1.2.1, hs1.2.2.1,
        fun q hq _ _ => hs1.2.2.2.1 q hq, fun hc => Except.noConfusion hc,
        fun hc => Except.noConfusion hc⟩
    | ok u1 =>
      change (match mkdirAllW w1 ps.StateDir with
        | (.error e, w'') => ((Except.error e : Except Err Unit), w'')
        | (.ok _, w2) => mkdirAllW w2 ps.AccountsDir) = (r, w') at h
      cases h2 : mkdirAllW w1 ps.StateDir with
      | mk r2 w2 =>
        rw [h2] at h
        have hs2 := mkdirAllW_spec w1 ps.StateDir r2 w2 h2
        cases r2 with
        | error e2 =>
          injection h with ha hb
          subst ha; subst hb
          refine ⟨hs2.1.trans hs1.1, hs2.2.1.trans hs1.2.1,
            fun hw => hs2.2.2.1 (hs1.2.2.1 hw),
            fun q hq1 hq2 _ => ?_, fun hc => Except.noConfusion hc,
            fun hc => Except.noConfusion hc⟩
          rw [hs2.2.2.2.1 q hq2]
          exact hs1.2.2.2.1 q hq1
        | ok u2 =>
          change mkdirAllW w2 ps.AccountsDir = (r, w') at h
          have hs3 := mkdirAllW_spec w2 ps.AccountsDir r w' h
          have hADDD : ps.AccountsDir ≠ ps.DataDir := by
            rw [AccountsDir_eq, DataDir_eq]
            exact home_append_ne _ _ _ (by decide)
          have hADSD : ps.AccountsDir ≠ ps.StateDir := by
            rw [AccountsDir_eq, StateDir_eq]
            exact home_append_ne _ _ _ (by decide)
          have hADeq : lookupFS w2.fs ps.AccountsDir = lookupFS w.fs ps.AccountsDir := by
            rw [hs2.2.2.2.1 ps.AccountsDir hADSD]
            exact hs1.2.2.2.1 ps.AccountsDir hADDD
          refine ⟨hs3.1.trans (hs2.1.trans hs1.1),
            hs3.2.1.trans (hs2.2.1.trans hs1.2.1),
            fun hw => hs3.2.2.1 (hs2.2.2.1 (hs1.2.2.1 hw)),
            fun q hq1 hq2 hq3 => ?_, fun hr => ?_, fun hr n0 hn0 => ?_⟩
          · rw [hs3.2.2.2.1 q hq3, hs2.2.2.2.1 q hq2]
            exact hs1.2.2.2.1 q hq1
          · rcases (hs3.2.2.2.2.1 hr).2 with ⟨_, hins⟩ | ⟨m0, hm, hww⟩
            · exact ⟨w2.now, hins⟩
            · rw [hww]
              exact ⟨m0, hm⟩
          · exact hs3.2.2.2.2.2.2 hr n0 (hADeq.trans hn0)

theorem loadState_file (ps : Paths) (w : World) (d : Data) (m : Nat)
    (h : lookupFS w.fs ps.StateFile = some (.file d m)) :
    loadState ps w = match unmarshalState d with
      | some st => st
      | none => { current := "", previous := "" } := by
  unfold loadState
  rw [readFile_of_file w.fs ps.StateFile d m h]
  change (match unmarshalState d with
    | none => ({ current := "", previous := "" } : StateRec)
    | some st => st) = _
  cases unmarshalState d
  · rfl
  · rfl

theorem loadState_none (ps : Paths) (w : World)
    (h : lookupFS w.fs ps.StateFile = none) :
    loadState ps w = { current := "", previous := "" } := by
  unfold loadState
  rw [readFile_of_none w.fs ps.StateFile h]

theorem loadState_congr (ps : Paths) (w w' : World)
    (hnl : notLink (lookupFS w.fs ps.StateFile))
    (heq : lookupFS w'.fs ps.StateFile = lookupFS w.fs ps.StateFile) :
    loadState ps w' = loadState ps w := by
  unfold loadState
  rw [readFile_eq_of_lookup_eq w.fs w'.fs ps.StateFile hnl heq]

theorem saveState_spec (ps : Paths) (current : String) (w : World)
    (r : Except Err Unit) (w' : World) (h : saveState ps current w = (r, w')) :
    w'.bad = w.bad ∧ w'.now = w.now ∧ (WFfs w.fs → WFfs w'.fs) ∧
    (∀ q, q ≠ ps.DataDir → q ≠ ps.StateDir → q ≠ ps.AccountsDir →
      q ≠ ps.StateFile → lookupFS w'.fs q = lookupFS w.fs q) ∧
    (r = .ok () → lookupFS w'.fs ps.StateFile = some (.file
      (.stateJson { current := current, previous := (loadState ps w).current })
      w.now)) ∧
    (r = .ok () → ∀ n0, lookupFS w.fs ps.AccountsDir = some n0 →
      lookupFS w'.fs ps.AccountsDir = some n0 ∧ ∃ m0, n0 = .dir m0) := by
  unfold saveState at h
  cases h1 : ps.EnsureDirs w with
  | mk r1 w1 =>
    rw [h1] at h
    have hs1 := EnsureDirs_spec ps w r1 w1 h1
    cases r1 with
    | error e1 =>
      injection h with ha hb
      subst ha; subst hb
      exact ⟨hs1.1, hs1.2.1, hs1.2.2.1,
        fun q hq1 hq2 hq3 _ => hs1.2.2.2.1 q hq1 hq2 hq3,
        fun hc => Except.noConfusion hc, fun hc => Except.noConfusion hc⟩
    | ok u1 =>
      change writeFileW w1 ps.StateFile
        (.stateJson { current := current, previous := (loadState ps w).current })
        = (r, w') at h
      have hs2 := writeFileW_spec w1 ps.StateFile _ r w' h
      refine ⟨hs2.1.trans hs1.1, hs2.2.1.trans hs1.2.1,
        fun hw => hs2.2.2.1 (hs1.2.2.1 hw), fun q hq1 hq2 hq3 hq4 => ?_,
        fun hr => ?_, fun hr n0 hn0 => ?_⟩
      · rw [hs2.2.2.2.1 q hq4]
        exact hs1.2.2.2.1 q hq1 hq2 hq3
      · have := (hs2.2.2.2.2.1 hr).2
        rw [hs1.2.1] at this
        exact this
      · have had := hs1.2.2.2.2.2 rfl n0 hn0
        refine ⟨?_, had.2⟩
        rw [hs2.2.2.2.1 ps.AccountsDir (fun hc => (StateFile_ne_AccountsDir ps) hc.symm)]
        exact had.1

theorem removeAllQ_spec (w : World) (p : Path) :
    (removeAllQ w p).bad = w.bad ∧ (removeAllQ w p).now = w.now ∧
    (WFfs w.fs → WFfs (removeAllQ w p).fs) ∧
    (∀ q, p.isPrefixOf q = false →
      lookupFS (removeAllQ w p).fs q = lookupFS w.fs q) ∧
    (p ∉ w.bad → ∀ q, p.isPrefixOf q = true →
      lookupFS (removeAllQ w p).fs q = none) := by
  unfold removeAllQ
  by_cases hb : p ∈ w.bad
  · rw [if_pos hb]
    exact ⟨rfl, rfl, id, fun q _ => rfl, fun hc => absurd hb hc⟩
  · rw [if_neg hb]
    exact ⟨rfl, rfl, fun hw => WFfs_dropTree w.fs p hw,
      fun q hq => lookupFS_dropTree_out w.fs p q hq,
      fun _ q hq => lookupFS_dropTree_in w.fs p q hq⟩

theorem removeAllW_spec (w : World) (p : Path) (r : Except Err Unit) (w' : World)
    (h : removeAllW w p = (r, w')) :
    w'.bad = w.bad ∧ w'.now = w.now ∧ (WFfs w.fs → WFfs w'.fs) ∧
    (∀ q, p.isPrefixOf q = false → lookupFS w'.fs q = lookupFS w.fs q) ∧
    (r = .ok () → ∀ q, p.isPrefixOf q = true → lookupFS w'.fs q = none) := by
  unfold removeAllW at h
  split at h
  · injection h with h1 h2
    subst h1; subst h2
    exact ⟨rfl, rfl, id, fun q _ => rfl, fun hc => Except.noConfusion hc⟩
  · injection h with h1 h2
    subst h1; subst h2
    exact ⟨rfl, rfl, fun hw => WFfs_dropTree w.fs p hw,
      fun q hq => lookupFS_dropTree_out w.fs p q hq,
      fun _ q hq => lookupFS_dropTree_in w.fs p q hq⟩

theorem LoadConfig_none (ps : Paths) (w : World)
    (h : lookupFS w.fs ps.SharingConfigFile = none) :
    LoadConfig ps w = .ok (Config.mk .disabled false []) := by
  unfold LoadConfig
  rw [readFile_of_none _ _ h]

theorem codexExists_lookup (ps : Paths) (w : World)
    (h : ps.CodexExists w = true) : lookupFS w.fs ps.Home ≠ none := by
  intro hc
  unfold Paths.CodexExists at h
  rw [statFS_none w.fs _ hc] at h
  exact Bool.noConfusion h

theorem copyDirStorage_root_not_bad (w : World) (src dst : Path) (w' : World)
    (h : copyDirStorage w src dst = (.ok (), w')) : dst ∉ w.bad := by
  unfold copyDirStorage at h
  cases hl : lookupFS w.fs src with
  | none =>
    rw [hl] at h
    injection h with h1
    exact absurd h1 (by simp)
  | some n0 =>
    rw [hl] at h
    have hm : lookupFS (entriesUnder w.fs src) [] = some n0 := by
      rw [show lookupFS (entriesUnder w.fs src) [] = lookupFS w.fs (src ++ [])
        from lookup_entriesUnder w.fs src []]
      rw [List.append_nil]
      exact hl
    have := copyGoStorage_ok_not_bad dst (entriesUnder w.fs src) w w' [] n0 h hm
    rw [List.append_nil] at this
    exact this

/-- The main specification of a successful Save: fresh metadata is written
with both timestamps at the clock, the snapshot region becomes a copy of
the live directory except for the metadata sidecar, the state record is
updated to name the saved profile with the old current as previous, and
nothing else changes. -/
theorem Save_spec (ps : Paths) (w : World) (name : String) (acc : Account)
    (w' : World) (hwf : WFfs w.fs) (h : Save ps w name = (.ok acc, w')) :
    acc = Account.mk name none w.now w.now ∧
    w'.bad = w.bad ∧ w'.now = w.now ∧ WFfs w'.fs ∧
    (∀ rel, rel ≠ [".account.json"] →
      lookupFS w'.fs (ps.AccountPath name ++ rel) =
        (lookupFS w.fs (ps.Home ++ rel)).map (copyNode w.now)) ∧
    lookupFS w'.fs (ps.AccountPath name ++ [".account.json"]) =
      some (.file (.accountJson (Account.mk name none w.now w.now)) w.now) ∧
    (∀ q, (ps.AccountPath name).isPrefixOf q = false → q ≠ ps.DataDir →
      q ≠ ps.StateDir → q ≠ ps.AccountsDir → q ≠ ps.StateFile →
      lookupFS w'.fs q = lookupFS w.fs q) ∧
    (notLink (lookupFS w.fs ps.StateFile) →
      lookupFS w'.fs ps.StateFile = some (.file
        (.stateJson (StateRec.mk name (loadState ps w).current)) w.now)) := by
  unfold Save at h
  split at h
  · exact absurd h (by simp)
  · rename_i hcx0
    have hcx : ps.CodexExists w = true := by
      revert hcx0
      cases ps.CodexExists w <;> simp
    try dsimp only at h
    split at h
    · exact absurd h (by simp)
    · rename_i u1 w1 heq1
      have hE := EnsureDirs_spec ps w (.ok u1) w1 heq1
      try dsimp only at h
      split at h
      · exact absurd h (by simp)
      · rename_i u3 w3 heq3
        have hE2 := hE
        -- notation for the snapshot path
        set AP := ps.AccountPath name with hAPdef
        -- live directory lookups are unchanged between w and the copy's world
        have hHMkeep : ∀ rel, lookupFS (removeAllQ w1 AP).fs (ps.Home ++ rel) =
            lookupFS w.fs (ps.Home ++ rel) := by
          intro rel
          rw [(removeAllQ_spec w1 AP).2.2.2.1 (ps.Home ++ rel)
            (AP_not_prefix_Home_rel ps name rel)]
          exact hE.2.2.2.1 (ps.Home ++ rel) (Home_rel_ne_DataDir ps rel)
            (Home_rel_ne_StateDir ps rel) (Home_rel_ne_AccountsDir ps rel)
        have hwf1 : WFfs w1.fs := hE.2.2.1 hwf
        have hwf2 : WFfs (removeAllQ w1 AP).fs := (removeAllQ_spec w1 AP).2.2.1 hwf1
        have hok3 : copyDirStorage (removeAllQ w1 AP) ps.Home AP = (.ok (), w3) := by
          cases u3
          exact heq3
        have hAPnotbad : AP ∉ (removeAllQ w1 AP).bad :=
          copyDirStorage_root_not_bad _ _ _ _ hok3
        have hAPnotbad1 : AP ∉ w1.bad := by
          rw [(removeAllQ_spec w1 AP).1] at hAPnotbad
          exact hAPnotbad
        have hreg : ∀ rel, lookupFS (removeAllQ w1 AP).fs (AP ++ rel) = none :=
          fun rel => (removeAllQ_spec w1 AP).2.2.2.2 hAPnotbad1 (AP ++ rel)
            (isPrefixOf_append AP rel)
        have hC := copyDirStorage_spec (removeAllQ w1 AP) ps.Home AP w3 hwf2
          hok3 hreg
        have hnow2 : (removeAllQ w1 AP).now = w.now :=
          (removeAllQ_spec w1 AP).2.1.trans hE.2.1
        have hbad2 : (removeAllQ w1 AP).bad = w.bad :=
          (removeAllQ_spec w1 AP).1.trans hE.1
        -- the copied region in w3
        have hC1 : ∀ rel, lookupFS w3.fs (AP ++ rel) =
            (lookupFS w.fs (ps.Home ++ rel)).map (copyNode w.now) := by
          intro rel
          rw [hC.1 rel, hHMkeep rel, hnow2]
        try dsimp only at h
        split at h
        · exact absurd h (by simp)
        · rename_i u4 w4 heq4
          have hW := writeFileW_spec w3 (AP ++ [".account.json"]) _ (.ok u4) w4 heq4
          try dsimp only at h
          split at h
          · exact absurd h (by simp)
          · rename_i u5 w5 heq5
            have hS := saveState_spec ps name w4 (.ok u5) w5 heq5
            injection h with ha hb
            have hacc : acc = Account.mk name none w3.now w3.now :=
              (Except.ok.inj ha).symm
            have hnow3 : w3.now = w.now := hC.2.2.2.1.trans hnow2
            subst hb
            have hnow4 : w4.now = w.now := hW.2.1.trans hnow3
            have hnow5 : w5.now = w.now := hS.2.1.trans hnow4
            have hbad5 : w5.bad = w.bad :=
              (hS.1.trans hW.1).trans (hC.2.2.1.trans hbad2)
            have hwf5 : WFfs w5.fs := hS.2.2.1 (hW.2.2.1 (hC.2.2.2.2))
            -- stepping the snapshot region from w3 to the final world
            have hkeepAP : ∀ rel,
                lookupFS w5.fs (AP ++ rel) = lookupFS w4.fs (AP ++ rel) ∨
                (rel = [] ∧ name = "") := by
              intro rel
              by_cases hempty : rel = ([] : Path) ∧ name = ""
              · exact Or.inr hempty
              · refine Or.inl ?_
                have hne : AP ++ rel ≠ ps.AccountsDir := by
                  rcases not_and_or.mp hempty with hrel | hname
                  · by_cases hname : name = ""
                    · rw [hAPdef, hname, AccountPath_empty]
                      intro hc
                      have : rel = ([] : Path) := by
                        have := List.append_cancel_left
                          (hc.trans (List.append_nil ps.AccountsDir).symm)
                        exact this
                      exact hrel this
                    · rw [hAPdef, AccountPath_eq_of_ne ps name hname,
                        AccountsDir_eq, List.append_assoc]
                      exact home_append_ne _ _ _ (cons_ne_tail _ _ _
                        (cons_ne_tail _ _ _ (by
                          intro hc
                          exact List.noConfusion hc)))
                  · rw [hAPdef, AccountPath_eq_of_ne ps name hname,
                      AccountsDir_eq, List.append_assoc]
                    exact home_append_ne _ _ _ (cons_ne_tail _ _ _
                      (cons_ne_tail _ _ _ (by
                        intro hc
                        exact List.noConfusion hc)))
                exact hS.2.2.2.1 (AP ++ rel) (AP_rel_ne_DataDir ps name rel)
                  (AP_rel_ne_StateDir ps name rel) hne
                  (AP_rel_ne_StateFile ps name rel)
            have hmetaAP : (AP).isPrefixOf (AP ++ [".account.json"]) = true :=
              isPrefixOf_append AP [".account.json"]
            refine ⟨hacc.trans (by rw [hnow3]), hbad5, hnow5, hwf5,
              fun rel hrel => ?_, ?_, fun q hq1 hq2 hq3 hq4 hq5 => ?_, fun hnl => ?_⟩
            · -- the copied region, excluding the sidecar
              have hmetane : AP ++ rel ≠ AP ++ [".account.json"] := by
                intro hc
                exact hrel (List.append_cancel_left hc)
              have h4 : lookupFS w4.fs (AP ++ rel) = lookupFS w3.fs (AP ++ rel) :=
                hW.2.2.2.1 (AP ++ rel) hmetane
              rcases hkeepAP rel with h5 | ⟨hrel0, hname0⟩
              · rw [h5, h4, hC1 rel]
              · -- the snapshot root when the profile name is empty:
                -- saveState re-creates the accounts root, which the copy
                -- has just established as a directory
                subst hrel0
                have hroot : lookupFS w4.fs (AP ++ ([] : Path)) =
                    (lookupFS w.fs (ps.Home ++ ([] : Path))).map (copyNode w.now) := by
                  rw [hW.2.2.2.1 (AP ++ ([] : Path)) (by
                    intro hc
                    have := List.append_cancel_left hc
                    exact List.noConfusion this), hC1 ([] : Path)]
                cases hHM : lookupFS w.fs (ps.Home ++ ([] : Path)) with
                | none =>
                  exact absurd (by
                    rw [List.append_nil] at hHM
                    exact hHM) (codexExists_lookup ps w hcx)
                | some nHM =>
                  have hw4AD : lookupFS w4.fs ps.AccountsDir =
                      some (copyNode w.now nHM) := by
                    have := hroot
                    rw [hHM] at this
                    rw [List.append_nil] at this
                    rw [hAPdef, hname0, AccountPath_empty] at this
                    exact this
                  have hADpres := hS.2.2.2.2.2 rfl (copyNode w.now nHM) hw4AD
                  rw [List.append_nil, hAPdef, hname0, AccountPath_empty]
                  exact hADpres.1
            · -- the metadata sidecar holds the fresh record
              have h5 : lookupFS w5.fs (AP ++ [".account.json"]) =
                  lookupFS w4.fs (AP ++ [".account.json"]) := by
                have hne : AP ++ [".account.json"] ≠ ps.AccountsDir := by
                  obtain ⟨sfx, hsfx⟩ := AccountPath_suffix ps name
                  rw [hAPdef, hsfx, AccountsDir_eq, List.append_assoc]
                  refine home_append_ne _ _ _ (cons_ne_tail _ _ _
                    (cons_ne_tail _ _ _ ?_))
                  intro hc
                  cases sfx with
                  | nil => exact List.noConfusion hc
                  | cons x xs => exact List.noConfusion hc
                exact hS.2.2.2.1 _ (AP_rel_ne_DataDir ps name _)
                  (AP_rel_ne_StateDir ps name _) hne (AP_rel_ne_StateFile ps name _)
              rw [h5]
              have := (hW.2.2.2.2.1 rfl).2
              rw [hnow3] at this
              exact this
            · -- the frame
              have h5 : lookupFS w5.fs q = lookupFS w4.fs q :=
                hS.2.2.2.1 q hq2 hq3 hq4 hq5
              have h4 : lookupFS w4.fs q = lookupFS w3.fs q := by
                refine hW.2.2.2.1 q ?_
                intro hc
                rw [hc] at hq1
                rw [hmetaAP] at hq1
                exact Bool.noConfusion hq1
              have h3 : lookupFS w3.fs q = lookupFS (removeAllQ w1 AP).fs q :=
                hC.2.1 q hq1
              have h2 : lookupFS (removeAllQ w1 AP).fs q = lookupFS w1.fs q := by
                refine (removeAllQ_spec w1 AP).2.2.2.1 q ?_
                by_cases hpq : AP.isPrefixOf q
                · rw [hpq] at hq1
                  exact Bool.noConfusion hq1
                · simp only [Bool.not_eq_true] at hpq
                  exact hpq
              have h1 : lookupFS w1.fs q = lookupFS w.fs q :=
                hE.2.2.2.1 q hq2 hq3 hq4
              rw [h5, h4, h3, h2, h1]
            · -- the state record
              have hSF4 : lookupFS w4.fs ps.StateFile = lookupFS w.fs ps.StateFile := by
                have h4 : lookupFS w4.fs ps.StateFile = lookupFS w3.fs ps.StateFile :=
                  hW.2.2.2.1 ps.StateFile (fun hc =>
                    (AP_rel_ne_StateFile ps name [".account.json"]) hc.symm)
                have h3 : lookupFS w3.fs ps.StateFile =
                    lookupFS (removeAllQ w1 AP).fs ps.StateFile :=
                  hC.2.1 ps.StateFile (AP_not_prefix_StateFile ps name)
                have h2 : lookupFS (removeAllQ w1 AP).fs ps.StateFile =
                    lookupFS w1.fs ps.StateFile :=
                  (removeAllQ_spec w1 AP).2.2.2.1 ps.StateFile
                    (AP_not_prefix_StateFile ps name)
                have h1 : lookupFS w1.fs ps.StateFile = lookupFS w.fs ps.StateFile :=
                  hE.2.2.2.1 ps.StateFile (StateFile_ne_DataDir ps)
                    (StateFile_ne_StateDir ps) (StateFile_ne_AccountsDir ps)
                rw [h4, h3, h2, h1]
              have hls : loadState ps w4 = loadState ps w :=
                loadState_congr ps w w4 hnl hSF4
              have := hS.2.2.2.2.1 rfl
              rw [hls, hnow4] at this
              exact this

theorem copyDirStorage_frame (w : World) (src dst : Path) (r : Except Err Unit)
    (w' : World) (h : copyDirStorage w src dst = (r, w')) :
    w'.bad = w.bad ∧ w'.now = w.now ∧ (WFfs w.fs → WFfs w'.fs) ∧
    (∀ q, dst.isPrefixOf q = false → lookupFS w'.fs q = lookupFS w.fs q) := by
  unfold copyDirStorage at h
  cases hl : lookupFS w.fs src with
  | none =>
    rw [hl] at h
    injection h with h1 h2
    subst h2
    exact ⟨rfl, rfl, id, fun q _ => rfl⟩
  | some n0 =>
    rw [hl] at h
    exact copyGoStorage_frame dst (entriesUnder w.fs src) w r w' h

/-- Any run of Save, successful or not, only ever touches the snapshot
region, the three ensured directories and the state file. -/
theorem Save_frame_any (ps : Paths) (w : World) (name : String)
    (r : Except Err Account) (w' : World) (h : Save ps w name = (r, w')) :
    w'.bad = w.bad ∧ w'.now = w.now ∧ (WFfs w.fs → WFfs w'.fs) ∧
    (∀ q, (ps.AccountPath name).isPrefixOf q = false → q ≠ ps.DataDir →
      q ≠ ps.StateDir → q ≠ ps.AccountsDir → q ≠ ps.StateFile →
      lookupFS w'.fs q = lookupFS w.fs q) := by
  unfold Save at h
  split at h
  · injection h with h1 h2
    subst h2
    exact ⟨rfl, rfl, id, fun q _ _ _ _ _ => rfl⟩
  · try dsimp only at h
    split at h
    · rename_i e1 wE heq1
      injection h with h1 h2
      subst h2
      have hE := EnsureDirs_spec ps w (.error e1) wE heq1
      exact ⟨hE.1, hE.2.1, hE.2.2.1,
        fun q _ hq2 hq3 hq4 _ => hE.2.2.2.1 q hq2 hq3 hq4⟩
    · rename_i u1 w1 heq1
      have hE := EnsureDirs_spec ps w (.ok u1) w1 heq1
      have hQ := removeAllQ_spec w1 (ps.AccountPath name)
      try dsimp only at h
      split at h
      · rename_i e3 wC heq3
        injection h with h1 h2
        subst h2
        have hC := copyDirStorage_frame _ _ _ _ _ heq3
        refine ⟨hC.1.trans (hQ.1.trans hE.1), hC.2.1.trans (hQ.2.1.trans hE.2.1),
          fun hw => hC.2.2.1 (hQ.2.2.1 (hE.2.2.1 hw)),
          fun q hq1 hq2 hq3 hq4 _ => ?_⟩
        rw [hC.2.2.2 q hq1, hQ.2.2.2.1 q hq1]
        exact hE.2.2.2.1 q hq2 hq3 hq4
      · rename_i u3 w3 heq3
        have hC := copyDirStorage_frame _ _ _ _ _ heq3
        try dsimp only at h
        split at h
        · rename_i e4 wW heq4
          injection h with h1 h2
          subst h2
          have hW := writeFileW_spec w3 _ _ (.error e4) wW heq4
          refine ⟨hW.1.trans (hC.1.trans (hQ.1.trans hE.1)),
            hW.2.1.trans (hC.2.1.trans (hQ.2.1.trans hE.2.1)),
            fun hw => hW.2.2.1 (hC.2.2.1 (hQ.2.2.1 (hE.2.2.1 hw))),
            fun q hq1 hq2 hq3 hq4 _ => ?_⟩
          have hqmeta : q ≠ ps.AccountPath name ++ [".account.json"] := by
            intro hc
            rw [hc, isPrefixOf_append] at hq1
            exact Bool.noConfusion hq1
          rw [hW.2.2.2.1 q hqmeta, hC.2.2.2 q hq1, hQ.2.2.2.1 q hq1]
          exact hE.2.2.2.1 q hq2 hq3 hq4
        · rename_i u4 w4 heq4
          have hW := writeFileW_spec w3 _ _ (.ok u4) w4 heq4
          try dsimp only at h
          split at h
          · rename_i e5 wS heq5
            injection h with h1 h2
            subst h2
            have hS := saveState_spec ps name w4 (.error e5) wS heq5
            refine ⟨hS.1.trans (hW.1.trans (hC.1.trans (hQ.1.trans hE.1))),
              hS.2.1.trans (hW.2.1.trans (hC.2.1.trans (hQ.2.1.trans hE.2.1))),
              fun hw => hS.2.2.1 (hW.2.2.1 (hC.2.2.1 (hQ.2.2.1 (hE.2.2.1 hw)))),
              fun q hq1 hq2 hq3 hq4 hq5 => ?_⟩
            have hqmeta : q ≠ ps.AccountPath name ++ [".account.json"] := by
              intro hc
              rw [hc, isPrefixOf_append] at hq1
              exact Bool.noConfusion hq1
            rw [hS.2.2.2.1 q hq2 hq3 hq4 hq5, hW.2.2.2.1 q hqmeta,
              hC.2.2.2 q hq1, hQ.2.2.2.1 q hq1]
            exact hE.2.2.2.1 q hq2 hq3 hq4
          · rename_i u5 w5 heq5
            have hS := saveState_spec ps name w4 (.ok u5) w5 heq5
            injection h with h1 h2
            subst h2
            refine ⟨hS.1.trans (hW.1.trans (hC.1.trans (hQ.1.trans hE.1))),
              hS.2.1.trans (hW.2.1.trans (hC.2.1.trans (hQ.2.1.trans hE.2.1))),
              fun hw => hS.2.2.1 (hW.2.2.1 (hC.2.2.1 (hQ.2.2.1 (hE.2.2.1 hw)))),
              fun q hq1 hq2 hq3 hq4 hq5 => ?_⟩
            have hqmeta : q ≠ ps.AccountPath name ++ [".account.json"] := by
              intro hc
              rw [hc, isPrefixOf_append] at hq1
              exact Bool.noConfusion hq1
            rw [hS.2.2.2.1 q hq2 hq3 hq4 hq5, hW.2.2.2.1 q hqmeta,
              hC.2.2.2 q hq1, hQ.2.2.2.1 q hq1]
            exact hE.2.2.2.1 q hq2 hq3 hq4

theorem lookupFS_append (l1 l2 : FS) (q : Path) :
    lookupFS (l1 ++ l2) q =
      match lookupFS l1 q with
      | some n => some n
      | none => lookupFS l2 q := by
  induction l1 with
  | nil => rfl
  | cons e l1 ih =>
    obtain ⟨a, n⟩ := e
    rw [List.cons_append, lookupFS_cons, lookupFS_cons]
    by_cases hq : q = a
    · rw [if_pos hq, if_pos hq]
    · rw [if_neg hq, if_neg hq, ih]

theorem lookupFS_reroot (l : List (Path × Node)) (dst rel : Path) :
    lookupFS (l.map (fun e => (dst ++ e.1, e.2))) (dst ++ rel) =
      lookupFS l rel := by
  induction l with
  | nil => rfl
  | cons e l ih =>
    obtain ⟨a, n⟩ := e
    rw [List.map_cons, lookupFS_cons, lookupFS_cons]
    by_cases hq : rel = a
    · rw [if_pos (by rw [hq]), if_pos hq]
    · rw [if_neg (fun hc => hq (List.append_cancel_left hc)), if_neg hq, ih]

theorem lookupFS_reroot_out (l : List (Path × Node)) (dst q : Path)
    (hq : dst.isPrefixOf q = false) :
    lookupFS (l.map (fun e => (dst ++ e.1, e.2))) q = none := by
  apply lookupFS_none_of_not_mem
  intro hmem
  obtain ⟨e2, hm2, hf2⟩ := List.mem_map.mp hmem
  obtain ⟨e3, hm3, hf3⟩ := List.mem_map.mp hm2
  rw [← hf2, ← hf3] at hq
  rw [isPrefixOf_append] at hq
  exact Bool.noConfusion hq

theorem renameW_spec (w : World) (src dst : Path) (r : Except Err Unit)
    (w' : World) (h : renameW w src dst = (r, w')) :
    w'.bad = w.bad ∧ w'.now = w.now ∧
    (∀ q, src.isPrefixOf q = false → dst.isPrefixOf q = false →
      lookupFS w'.fs q = lookupFS w.fs q) ∧
    (r = .ok () →
      (∀ rel nn, lookupFS w.fs (src ++ rel) = some nn →
        lookupFS w'.fs (dst ++ rel) = some nn) ∧
      (∀ q, src.isPrefixOf q = true → dst.isPrefixOf q = false →
        lookupFS w'.fs q = none)) ∧
    (∀ e0, r = .error e0 → w' = w) := by
  unfold renameW at h
  split at h
  · injection h with h1 h2
    subst h1; subst h2
    exact ⟨rfl, rfl, fun q _ _ => rfl, fun hc => Except.noConfusion hc,
      fun _ _ => rfl⟩
  · cases hl : lookupFS w.fs src with
    | none =>
      rw [hl] at h
      injection h with h1 h2
      subst h1; subst h2
      exact ⟨rfl, rfl, fun q _ _ => rfl, fun hc => Except.noConfusion hc,
        fun _ _ => rfl⟩
    | some n0 =>
      rw [hl] at h
      cases hd : lookupFS w.fs dst with
      | some nd =>
        cases nd with
        | dir md =>
          rw [hd] at h
          injection h with h1 h2
          subst h1; subst h2
          exact ⟨rfl, rfl, fun q _ _ => rfl, fun hc => Except.noConfusion hc,
            fun _ _ => rfl⟩
        | file dd md =>
          rw [hd] at h
          injection h with h1 h2
          subst h1; subst h2
          refine ⟨rfl, rfl, fun q hq1 hq2 => ?_, fun _ => ⟨?_, ?_⟩,
            fun e0 hc => Except.noConfusion hc⟩
          · show lookupFS (_ ++ _) q = _
            rw [lookupFS_append, lookupFS_reroot_out _ dst q hq2]
            rw [lookupFS_dropTree_out _ src q hq1, lookupFS_erase]
            rw [if_neg (by
              intro hc
              rw [hc, isPrefixOf_refl] at hq2
              exact Bool.noConfusion hq2)]
          · intro rel nn hnn
            show lookupFS (_ ++ _) (dst ++ rel) = _
            rw [lookupFS_append, lookupFS_reroot]
            rw [show lookupFS (entriesUnder w.fs src) rel =
              lookupFS w.fs (src ++ rel) from lookup_entriesUnder w.fs src rel, hnn]
          · intro q hq1 hq2
            show lookupFS (_ ++ _) q = _
            rw [lookupFS_append, lookupFS_reroot_out _ dst q hq2]
            rw [lookupFS_dropTree_in _ src q hq1]
        | symlink td =>
          rw [hd] at h
          injection h with h1 h2
          subst h1; subst h2
          refine ⟨rfl, rfl, fun q hq1 hq2 => ?_, fun _ => ⟨?_, ?_⟩,
            fun e0 hc => Except.noConfusion hc⟩
          · show lookupFS (_ ++ _) q = _
            rw [lookupFS_append, lookupFS_reroot_out _ dst q hq2]
            rw [lookupFS_dropTree_out _ src q hq1, lookupFS_erase]
            rw [if_neg (by
              intro hc
              rw [hc, isPrefixOf_refl] at hq2
              exact Bool.noConfusion hq2)]
          · intro rel nn hnn
            show lookupFS (_ ++ _) (dst ++ rel) = _
            rw [lookupFS_append, lookupFS_reroot]
            rw [show lookupFS (entriesUnder w.fs src) rel =
              lookupFS w.fs (src ++ rel) from lookup_entriesUnder w.fs src rel, hnn]
          · intro q hq1 hq2
            show lookupFS (_ ++ _) q = _
            rw [lookupFS_append, lookupFS_reroot_out _ dst q hq2]
            rw [lookupFS_dropTree_in _ src q hq1]
      | none =>
        rw [hd] at h
        injection h with h1 h2
        subst h1; subst h2
        refine ⟨rfl, rfl, fun q hq1 hq2 => ?_, fun _ => ⟨?_, ?_⟩,
          fun e0 hc => Except.noConfusion hc⟩
        · show lookupFS (_ ++ _) q = _
          rw [lookupFS_append, lookupFS_reroot_out _ dst q hq2]
          rw [lookupFS_dropTree_out _ src q hq1, lookupFS_erase]
          rw [if_neg (by
            intro hc
            rw [hc, isPrefixOf_refl] at hq2
            exact Bool.noConfusion hq2)]
        · intro rel nn hnn
          show lookupFS (_ ++ _) (dst ++ rel) = _
          rw [lookupFS_append, lookupFS_reroot]
          rw [show lookupFS (entriesUnder w.fs src) rel =
            lookupFS w.fs (src ++ rel) from lookup_entriesUnder w.fs src rel, hnn]
        · intro q hq1 hq2
          show lookupFS (_ ++ _) q = _
          rw [lookupFS_append, lookupFS_reroot_out _ dst q hq2]
          rw [lookupFS_dropTree_in _ src q hq1]

theorem removeQ_spec (w : World) (p : Path) :
    (removeQ w p).bad = w.bad ∧ (removeQ w p).now = w.now ∧
    (WFfs w.fs → WFfs (removeQ w p).fs) ∧
    (∀ q, q ≠ p → lookupFS (removeQ w p).fs q = lookupFS w.fs q) ∧
    (∀ t, lookupFS w.fs p = some (.symlink t) →
      lookupFS (removeQ w p).fs p = none) := by
  unfold removeQ
  cases hl : lookupFS w.fs p with
  | none => exact ⟨rfl, rfl, id, fun q _ => rfl, fun t hc => Option.noConfusion hc⟩
  | some n0 =>
    cases n0 with
    | dir m0 =>
      by_cases hch : hasChild w.fs p
      · rw [if_pos hch]
        exact ⟨rfl, rfl, id, fun q _ => rfl, fun t hc =>
          Node.noConfusion (Option.some.inj hc)⟩
      · rw [if_neg hch]
        exact ⟨rfl, rfl, fun hw => WFfs_erase w.fs p hw,
          fun q hq => by rw [lookupFS_erase, if_neg hq],
          fun t hc => Node.noConfusion (Option.some.inj hc)⟩
    | file d0 m0 =>
      exact ⟨rfl, rfl, fun hw => WFfs_erase w.fs p hw,
        fun q hq => by rw [lookupFS_erase, if_neg hq],
        fun t _ => by rw [lookupFS_erase, if_pos rfl]⟩
    | symlink t0 =>
      exact ⟨rfl, rfl, fun hw => WFfs_erase w.fs p hw,
        fun q hq => by rw [lookupFS_erase, if_neg hq],
        fun t _ => by rw [lookupFS_erase, if_pos rfl]⟩

/-! ## Frames for the symlink setup -/

theorem setupSymlinkTail_frame (ps : Paths) (item : String) (targetDir : Path)
    (w : World) (r : Except Err Unit) (w' : World)
    (h : setupSymlinkTail ps item targetDir w = (r, w')) :
    w'.bad = w.bad ∧ w'.now = w.now ∧
    (∀ q, ps.Home.isPrefixOf q = false → targetDir.isPrefixOf q = false →
      lookupFS w'.fs q = lookupFS w.fs q) := by
  have hsrcq : ∀ q : Path, ps.Home.isPrefixOf q = false →
      q ≠ ps.Home ++ [item] := by
    intro q hq hc
    rw [hc, isPrefixOf_append] at hq
    exact Bool.noConfusion hq
  have hsrcp : ∀ q : Path, ps.Home.isPrefixOf q = false →
      (ps.Home ++ [item]).isPrefixOf q = false := by
    intro q hq
    by_cases hp : (ps.Home ++ [item]).isPrefixOf q
    · rw [isPrefixOf_trans_append ps.Home [item] q hp] at hq
      exact Bool.noConfusion hq
    · simp only [Bool.not_eq_true] at hp
      exact hp
  have hdstq : ∀ q : Path, targetDir.isPrefixOf q = false →
      q ≠ targetDir ++ [item] := by
    intro q hq hc
    rw [hc, isPrefixOf_append] at hq
    exact Bool.noConfusion hq
  have hdstp : ∀ q : Path, targetDir.isPrefixOf q = false →
      (targetDir ++ [item]).isPrefixOf q = false := by
    intro q hq
    by_cases hp : (targetDir ++ [item]).isPrefixOf q
    · rw [isPrefixOf_trans_append targetDir [item] q hp] at hq
      exact Bool.noConfusion hq
    · simp only [Bool.not_eq_true] at hp
      exact hp
  unfold setupSymlinkTail at h
  try dsimp only at h
  split at h
  · rename_i e1 w1 heq1
    injection h with h1 h2
    subst h1; subst h2
    -- step1 failed: only the rename can fail here
    split at heq1
    · injection heq1 with ha hb
      subst hb
      exact ⟨rfl, rfl, fun q _ _ => rfl⟩
    · injection heq1 with ha hb
      subst hb
      exact ⟨rfl, rfl, fun q _ _ => rfl⟩
    · rename_i hreal
      split at heq1
      · have hR := renameW_spec w _ _ _ _ heq1
        exact ⟨hR.1, hR.2.1, fun q hq1 hq2 =>
          hR.2.2.1 q (hsrcp q hq1) (hdstp q hq2)⟩
      · injection heq1 with ha hb
        subst hb
        exact ⟨(removeAllQ_spec w _).1, (removeAllQ_spec w _).2.1,
          fun q hq1 _ => (removeAllQ_spec w _).2.2.2.1 q (hsrcp q hq1)⟩
  · rename_i u1 w1 heq1
    -- step1 landed in w1
    have hstep1 : w1.bad = w.bad ∧ w1.now = w.now ∧
        (∀ q, ps.Home.isPrefixOf q = false → targetDir.isPrefixOf q = false →
          lookupFS w1.fs q = lookupFS w.fs q) := by
      split at heq1
      · injection heq1 with ha hb
        subst hb
        exact ⟨rfl, rfl, fun q _ _ => rfl⟩
      · injection heq1 with ha hb
        subst hb
        exact ⟨rfl, rfl, fun q _ _ => rfl⟩
      · split at heq1
        · have hR := renameW_spec w _ _ _ _ heq1
          exact ⟨hR.1, hR.2.1, fun q hq1 hq2 =>
            hR.2.2.1 q (hsrcp q hq1) (hdstp q hq2)⟩
        · injection heq1 with ha hb
          subst hb
          exact ⟨(removeAllQ_spec w _).1, (removeAllQ_spec w _).2.1,
            fun q hq1 _ => (removeAllQ_spec w _).2.2.2.1 q (hsrcp q hq1)⟩
    try dsimp only at h
    split at h
    · rename_i e2 w2 heq2
      injection h with h1 h2
      subst h1; subst h2
      have hstep2 : w2.bad = w1.bad ∧ w2.now = w1.now ∧
          (∀ q, targetDir.isPrefixOf q = false →
            lookupFS w2.fs q = lookupFS w1.fs q) := by
        split at heq2
        · split at heq2
          · have hV := writeFileW_spec w1 _ _ _ _ heq2
            exact ⟨hV.1, hV.2.1, fun q hq2 => hV.2.2.2.1 q (hdstq q hq2)⟩
          · have hV := mkdirAllW_spec w1 _ _ _ heq2
            exact ⟨hV.1, hV.2.1, fun q hq2 => hV.2.2.2.1 q (hdstq q hq2)⟩
        · injection heq2 with ha hb
          subst hb
          exact ⟨rfl, rfl, fun q _ => rfl⟩
      exact ⟨hstep2.1.trans hstep1.1, hstep2.2.1.trans hstep1.2.1,
        fun q hq1 hq2 => (hstep2.2.2 q hq2).trans (hstep1.2.2 q hq1 hq2)⟩
    · rename_i u2 w2 heq2
      have hstep2 : w2.bad = w1.bad ∧ w2.now = w1.now ∧
          (∀ q, targetDir.isPrefixOf q = false →
            lookupFS w2.fs q = lookupFS w1.fs q) := by
        split at heq2
        · split at heq2
          · have hV := writeFileW_spec w1 _ _ _ _ heq2
            exact ⟨hV.1, hV.2.1, fun q hq2 => hV.2.2.2.1 q (hdstq q hq2)⟩
          · have hV := mkdirAllW_spec w1 _ _ _ heq2
            exact ⟨hV.1, hV.2.1, fun q hq2 => hV.2.2.2.1 q (hdstq q hq2)⟩
        · injection heq2 with ha hb
          subst hb
          exact ⟨rfl, rfl, fun q _ => rfl⟩
      have hV := symlinkW_spec w2 _ _ _ _ h
      refine ⟨hV.1.trans (hstep2.1.trans hstep1.1),
        hV.2.1.trans (hstep2.2.1.trans hstep1.2.1), fun q hq1 hq2 => ?_⟩
      rw [hV.2.2.2.1 q (hsrcq q hq1), hstep2.2.2 q hq2, hstep1.2.2 q hq1 hq2]

theorem setupSymlink_frame (ps : Paths) (item : String) (targetDir : Path)
    (w : World) (r : Except Err Unit) (w' : World)
    (h : setupSymlink ps item targetDir w = (r, w')) :
    w'.bad = w.bad ∧ w'.now = w.now ∧
    (∀ q, ps.Home.isPrefixOf q = false → targetDir.isPrefixOf q = false →
      lookupFS w'.fs q = lookupFS w.fs q) := by
  unfold setupSymlink at h
  try dsimp only at h
  split at h
  · rename_i link hlink
    split at h
    · injection h with h1 h2
      subst h2
      exact ⟨rfl, rfl, fun q _ _ => rfl⟩
    · have hT := setupSymlinkTail_frame ps item targetDir _ r w' h
      have hQ := removeQ_spec w (ps.Home ++ [item])
      refine ⟨hT.1.trans hQ.1, hT.2.1.trans hQ.2.1, fun q hq1 hq2 => ?_⟩
      rw [hT.2.2 q hq1 hq2]
      exact hQ.2.2.2.1 q (by
        intro hc
        rw [hc, isPrefixOf_append] at hq1
        exact Bool.noConfusion hq1)
  · exact setupSymlinkTail_frame ps item targetDir w r w' h

theorem setupItems_frame (ps : Paths) (targetDir : Path)
    (items : List String) : ∀ (w : World) (r : Except Err Unit) (w' : World),
    setupItems ps targetDir w items = (r, w') →
    w'.bad = w.bad ∧ w'.now = w.now ∧
    (∀ q, ps.Home.isPrefixOf q = false → targetDir.isPrefixOf q = false →
      lookupFS w'.fs q = lookupFS w.fs q) := by
  induction items with
  | nil =>
    intro w r w' h
    injection h with h1 h2
    subst h2
    exact ⟨rfl, rfl, fun q _ _ => rfl⟩
  | cons item rest ih =>
    intro w r w' h
    unfold setupItems at h
    split at h
    · rename_i e1 w1 heq1
      injection h with h1 h2
      subst h2
      exact setupSymlink_frame ps item targetDir w _ w1 heq1
    · rename_i u1 w1 heq1
      have hs := setupSymlink_frame ps item targetDir w _ w1 heq1
      have hr := ih w1 r w' h
      exact ⟨hr.1.trans hs.1, hr.2.1.trans hs.2.1, fun q hq1 hq2 =>
        (hr.2.2 q hq1 hq2).trans (hs.2.2 q hq1 hq2)⟩

theorem SetupSymlinks_frame (ps : Paths) (cfg : Config) (w : World)
    (r : Except Err Unit) (w' : World) (h : SetupSymlinks ps cfg w = (r, w')) :
    w'.bad = w.bad ∧ w'.now = w.now ∧
    (∀ q, ps.Home.isPrefixOf q = false → ps.SharedDir.isPrefixOf q = false →
      ps.GroupsDir.isPrefixOf q = false → lookupFS w'.fs q = lookupFS w.fs q) := by
  unfold SetupSymlinks at h
  split at h
  · injection h with h1 h2
    subst h2
    exact ⟨rfl, rfl, fun q _ _ _ => rfl⟩
  · -- a share target is resolved for the mode
    have htd : ∀ (targetDir : Path), getShareTarget ps cfg "" = some targetDir →
        ∀ q : Path, ps.SharedDir.isPrefixOf q = false →
          ps.GroupsDir.isPrefixOf q = false → targetDir.isPrefixOf q = false := by
      intro targetDir hg q hq1 hq2
      unfold getShareTarget at hg
      cases hm : cfg.mode with
      | global =>
        rw [hm] at hg
        rw [← Option.some.inj hg]
        exact hq1
      | group =>
        rw [hm] at hg
        cases hgg : cfg.groups.lookup "" with
        | none =>
          rw [hgg] at hg
          exact Option.noConfusion hg
        | some g =>
          rw [hgg] at hg
          rw [← Option.some.inj hg]
          by_cases hp : (ps.GroupsDir ++ [g]).isPrefixOf q
          · rw [isPrefixOf_trans_append ps.GroupsDir [g] q hp] at hq2
            exact Bool.noConfusion hq2
          · simp only [Bool.not_eq_true] at hp
            exact hp
      | disabled =>
        rw [hm] at hg
        exact Option.noConfusion hg
    split at h
    · injection h with h1 h2
      subst h2
      exact ⟨rfl, rfl, fun q _ _ _ => rfl⟩
    · rename_i targetDir hg
      split at h
      · rename_i e1 w1 heq1
        injection h with h1 h2
        subst h2
        have hM := mkdirAllW_spec w targetDir _ _ heq1
        refine ⟨hM.1, hM.2.1, fun q hq1 hq2 hq3 => ?_⟩
        refine hM.2.2.2.1 q ?_
        intro hc
        have hx := htd targetDir hg q hq2 hq3
        rw [hc, isPrefixOf_refl] at hx
        exact Bool.noConfusion hx
      · rename_i u1 w1 heq1
        have hM := mkdirAllW_spec w targetDir _ _ heq1
        have hMf : ∀ q : Path, ps.SharedDir.isPrefixOf q = false →
            ps.GroupsDir.isPrefixOf q = false →
            lookupFS w1.fs q = lookupFS w.fs q := by
          intro q hq2 hq3
          refine hM.2.2.2.1 q ?_
          intro hc
          have hx := htd targetDir hg q hq2 hq3
          rw [hc, isPrefixOf_refl] at hx
          exact Bool.noConfusion hx
        split at h
        · rename_i e2 w2 heq2
          injection h with h1 h2
          subst h2
          have hI := setupItems_frame ps targetDir ShareableItems w1 _ w2 heq2
          refine ⟨hI.1.trans hM.1, hI.2.1.trans hM.2.1, fun q hq1 hq2 hq3 => ?_⟩
          rw [hI.2.2 q hq1 (htd targetDir hg q hq2 hq3)]
          exact hMf q hq2 hq3
        · rename_i u2 w2 heq2
          have hI := setupItems_frame ps targetDir ShareableItems w1 _ w2 heq2
          split at h
          · have hI2 := setupItems_frame ps targetDir OptionalShareableItems w2
              r w' h
            refine ⟨(hI2.1.trans hI.1).trans hM.1,
              (hI2.2.1.trans hI.2.1).trans hM.2.1, fun q hq1 hq2 hq3 => ?_⟩
            rw [hI2.2.2 q hq1 (htd targetDir hg q hq2 hq3),
              hI.2.2 q hq1 (htd targetDir hg q hq2 hq3)]
            exact hMf q hq2 hq3
          · injection h with h1 h2
            subst h2
            refine ⟨hI.1.trans hM.1, hI.2.1.trans hM.2.1, fun q hq1 hq2 hq3 => ?_⟩
            rw [hI.2.2 q hq1 (htd targetDir hg q hq2 hq3)]
            exact hMf q hq2 hq3

/-! ## Specification of Activate -/

/-- A successful Activate(name) with a different profile `current` active,
the live directory present, and the sharing configuration absent: the
previous live content is saved under `current` (minus the metadata
sidecar), the live directory becomes a copy of name's snapshot, the state
record is updated, and nothing else changes. -/
theorem Activate_spec_save (ps : Paths) (w : World) (name current : String)
    (w' : World) (hwf : WFfs w.fs)
    (h : Activate ps w name = (.ok (), w'))
    (hshare : lookupFS w.fs ps.SharingConfigFile = none)
    (hsf : notLink (lookupFS w.fs ps.StateFile))
    (hcur : CurrentName ps w = current)
    (hc1 : current ≠ "") (hc2 : current ≠ name) (hname : name ≠ "")
    (hcx : ps.CodexExists w = true) :
    (∀ rel, lookupFS w'.fs (ps.Home ++ rel) =
      (lookupFS w.fs (ps.AccountPath name ++ rel)).map (copyNode w.now)) ∧
    (∀ rel, rel ≠ [".account.json"] →
      lookupFS w'.fs (ps.AccountPath current ++ rel) =
        (lookupFS w.fs (ps.Home ++ rel)).map (copyNode w.now)) ∧
    lookupFS w'.fs ps.StateFile =
      some (.file (.stateJson (StateRec.mk name current)) w.now) ∧
    (∀ q, ps.Home.isPrefixOf q = false →
      (ps.AccountPath current).isPrefixOf q = false → q ≠ ps.DataDir →
      q ≠ ps.StateDir → q ≠ ps.AccountsDir → q ≠ ps.StateFile →
      lookupFS w'.fs q = lookupFS w.fs q) ∧
    w'.bad = w.bad ∧ w'.now = w.now ∧ WFfs w'.fs := by
  unfold Activate at h
  try dsimp only at h
  cases hstat : (statFS w.fs (ps.AccountPath name)).isNone with
  | true =>
    rw [hstat, if_pos rfl] at h
    exact absurd h (by simp)
  | false =>
    rw [hstat, if_neg (by simp)] at h
    rw [hcur, if_pos ⟨hc1, hc2⟩, hcx, if_pos rfl] at h
    split at h
    · exact absurd h (by simp)
    · rename_i u1 w1 heqS
      split at heqS
      · exact absurd heqS (by simp)
      · rename_i accS wS heqSave
        injection heqS with hS1 hS2
        rw [hS2] at heqSave
        have hSave := Save_spec ps w current accS w1 hwf heqSave
        try dsimp only at h
        split at h
        · exact absurd h (by simp)
        · rename_i u2 w2 heq2
          have hRM := removeAllW_spec w1 ps.Home (.ok u2) w2 heq2
          try dsimp only at h
          split at h
          · exact absurd h (by simp)
          · rename_i u3 w3 heq3
            have hwf2 : WFfs w2.fs := hRM.2.2.1 hSave.2.2.2.1
            have hok3 : copyDirStorage w2 (ps.AccountPath name) ps.Home
                = (.ok (), w3) := by
              cases u3
              exact heq3
            have hreg : ∀ rel, lookupFS w2.fs (ps.Home ++ rel) = none := by
              intro rel
              refine hRM.2.2.2.2 (by cases u2; rfl) (ps.Home ++ rel) ?_
              exact isPrefixOf_append ps.Home rel
            have hC := copyDirStorage_spec w2 (ps.AccountPath name) ps.Home w3
              hwf2 hok3 hreg
            -- snapshot of name's profile looked up back in the start world
            have hAPkeep : ∀ rel, lookupFS w2.fs (ps.AccountPath name ++ rel) =
                lookupFS w.fs (ps.AccountPath name ++ rel) := by
              intro rel
              rw [hRM.2.2.2.1 (ps.AccountPath name ++ rel)
                (Home_not_prefix_AP_rel ps name rel)]
              exact hSave.2.2.2.2.2.2.1 (ps.AccountPath name ++ rel)
                (AP_not_prefix_AP ps current name rel hc2 hc1 hname)
                (AP_rel_ne_DataDir ps name rel) (AP_rel_ne_StateDir ps name rel)
                (AP_rel_ne_AccountsDir ps name rel hname)
                (AP_rel_ne_StateFile ps name rel)
            have hnow2 : w2.now = w.now := hRM.2.1.trans hSave.2.2.1
            have hbad2 : w2.bad = w.bad := hRM.1.trans hSave.2.1
            -- the state file at the copy's result world
            have hSF3 : lookupFS w3.fs ps.StateFile = some (.file
                (.stateJson (StateRec.mk current (loadState ps w).current))
                w.now) := by
              rw [hC.2.1 ps.StateFile (Home_not_prefix_StateFile ps),
                hRM.2.2.2.1 ps.StateFile (Home_not_prefix_StateFile ps)]
              exact hSave.2.2.2.2.2.2.2 hsf
            -- the sharing config is still absent, so the sharing step is inert
            have hSCF3 : lookupFS w3.fs ps.SharingConfigFile = none := by
              rw [hC.2.1 ps.SharingConfigFile (Home_not_prefix_SharingConfigFile ps),
                hRM.2.2.2.1 ps.SharingConfigFile
                  (Home_not_prefix_SharingConfigFile ps)]
              rw [hSave.2.2.2.2.2.2.1 ps.SharingConfigFile
                (AP_not_prefix_SharingConfigFile ps current)
                (SharingConfigFile_ne_DataDir ps) (SharingConfigFile_ne_StateDir ps)
                (SharingConfigFile_ne_AccountsDir ps)
                (SharingConfigFile_ne_StateFile ps)]
              exact hshare
            rw [show (match LoadConfig ps w3 with
              | .error _ => w3
              | .ok cfg => if IsEnabled cfg then (SetupSymlinks ps cfg w3).2 else w3)
              = w3 by
                rw [LoadConfig_none ps w3 hSCF3]
                rfl] at h
            split at h
            · exact absurd h (by simp)
            · rename_i u5 w5 heq5
              have hS := saveState_spec ps name w3 (.ok u5) w5 heq5
              injection h with h1 h2
              subst h2
              have hnow3 : w3.now = w.now := hC.2.2.2.1.trans hnow2
              have hnow5 : w5.now = w.now := hS.2.1.trans hnow3
              have hbad5 : w5.bad = w.bad :=
                (hS.1.trans hC.2.2.1).trans hbad2
              have hwf5 : WFfs w5.fs := hS.2.2.1 hC.2.2.2.2
              have hls3 : loadState ps w3 =
                  StateRec.mk current (loadState ps w).current :=
                loadState_file ps w3 _ w.now hSF3
              refine ⟨fun rel => ?_, fun rel hrel => ?_, ?_,
                fun q hq1 hq2 hq3 hq4 hq5 hq6 => ?_, hbad5, hnow5, hwf5⟩
              · -- the live directory is a copy of name's snapshot
                rw [hS.2.2.2.1 (ps.Home ++ rel) (Home_rel_ne_DataDir ps rel)
                  (Home_rel_ne_StateDir ps rel) (Home_rel_ne_AccountsDir ps rel)
                  (Home_rel_ne_StateFile ps rel)]
                rw [hC.1 rel, hAPkeep rel, hnow2]
              · -- the previous live content is saved under `current`
                have hq : lookupFS w5.fs (ps.AccountPath current ++ rel) =
                    lookupFS w3.fs (ps.AccountPath current ++ rel) :=
                  hS.2.2.2.1 _ (AP_rel_ne_DataDir ps current rel)
                    (AP_rel_ne_StateDir ps current rel)
                    (AP_rel_ne_AccountsDir ps current rel hc1)
                    (AP_rel_ne_StateFile ps current rel)
                rw [hq, hC.2.1 _ (Home_not_prefix_AP_rel ps current rel),
                  hRM.2.2.2.1 _ (Home_not_prefix_AP_rel ps current rel)]
                exact hSave.2.2.2.2.1 rel hrel
              · -- the state record
                have := hS.2.2.2.2.1 (by cases u5; rfl)
                rw [hls3, hnow3] at this
                exact this
              · -- the frame
                rw [hS.2.2.2.1 q hq3 hq4 hq5 hq6,
                  hC.2.1 q hq1, hRM.2.2.2.1 q hq1]
                exact hSave.2.2.2.2.2.2.1 q hq2 hq3 hq4 hq5 hq6

/-- The tail of Activate after the save step: whatever the sharing
configuration does, the final state record names the activated profile,
with the previous field taken from the state as of the save step. -/
theorem Activate_tail_state (ps : Paths) (name : String) (prev : String)
    (w1 : World) (w' : World)
    (hcur : (loadState ps w1).current = prev)
    (hnl : notLink (lookupFS w1.fs ps.StateFile))
    (h : (match removeAllW w1 ps.Home with
      | (.error e, wx) =>
        ((.error (.wrapped "failed to clear ~/.codex" e) : Except Err Unit), wx)
      | (.ok _, w2) =>
        match copyDirStorage w2 (ps.AccountPath name) ps.Home with
        | (.error e, wx) => (.error (.wrapped "failed to activate account" e), wx)
        | (.ok _, w3) =>
          let w4 := match LoadConfig ps w3 with
            | .error _ => w3
            | .ok cfg => if IsEnabled cfg then (SetupSymlinks ps cfg w3).2 else w3
          match saveState ps name w4 with
          | (.error e, wx) => (.error e, wx)
          | (.ok _, w5) => (.ok (), w5)) = (.ok (), w')) :
    loadState ps w' = StateRec.mk name prev := by
  split at h
  · exact absurd h (by simp)
  · rename_i u2 w2 heq2
    have hRM := removeAllW_spec w1 ps.Home (.ok u2) w2 heq2
    try dsimp only at h
    split at h
    · exact absurd h (by simp)
    · rename_i u3 w3 heq3
      have hC := copyDirStorage_frame w2 (ps.AccountPath name) ps.Home
        (.ok u3) w3 heq3
      have hSF3 : lookupFS w3.fs ps.StateFile = lookupFS w1.fs ps.StateFile := by
        rw [hC.2.2.2 ps.StateFile (Home_not_prefix_StateFile ps)]
        exact hRM.2.2.2.1 ps.StateFile (Home_not_prefix_StateFile ps)
      -- the sharing step, whatever it does, leaves the state file alone
      have hW4 : ∀ w4, (match LoadConfig ps w3 with
          | .error _ => w3
          | .ok cfg => if IsEnabled cfg then (SetupSymlinks ps cfg w3).2 else w3)
            = w4 →
          lookupFS w4.fs ps.StateFile = lookupFS w3.fs ps.StateFile := by
        intro w4 hw4
        cases hlc : LoadConfig ps w3 with
        | error e =>
          rw [hlc] at hw4
          have hw4e : w3 = w4 := hw4
          rw [← hw4e]
        | ok cfg =>
          rw [hlc] at hw4
          have hw4o : (if IsEnabled cfg then (SetupSymlinks ps cfg w3).2 else w3)
              = w4 := hw4
          cases hen : IsEnabled cfg with
          | true =>
            rw [hen, if_pos rfl] at hw4o
            cases hss : SetupSymlinks ps cfg w3 with
            | mk rs ws =>
              rw [hss] at hw4o
              have hF := SetupSymlinks_frame ps cfg w3 rs ws hss
              rw [← hw4o]
              exact hF.2.2 ps.StateFile (Home_not_prefix_StateFile ps)
                (SharedDir_not_prefix_StateFile ps)
                (GroupsDir_not_prefix_StateFile ps)
          | false =>
            rw [hen, if_neg (by simp)] at hw4o
            rw [← hw4o]
      try dsimp only at h
      split at h
      · exact absurd h (by simp)
      · rename_i u5 w5 heq5
        injection h with h1 h2
        subst h2
        have hS := saveState_spec ps name _ (.ok u5) w5 heq5
        have hSF4 := hW4 _ rfl
        have hls4 : loadState ps (match LoadConfig ps w3 with
            | .error _ => w3
            | .ok cfg => if IsEnabled cfg then (SetupSymlinks ps cfg w3).2 else w3)
            = loadState ps w1 := by
          apply loadState_congr ps w1 _ hnl
          rw [hSF4, hSF3]
        have hw5 := hS.2.2.2.2.1 (by cases u5; rfl)
        rw [hls4, hcur] at hw5
        rw [loadState_file ps w5 _ _ hw5]
        rfl

/-- A successful Activate(name), in every branch: the resulting state
record is exactly current = name, previous = the old current. -/
theorem Activate_state (ps : Paths) (w : World) (name : String) (w' : World)
    (hwf : WFfs w.fs)
    (hsf : notLink (lookupFS w.fs ps.StateFile))
    (h : Activate ps w name = (.ok (), w')) :
    loadState ps w' = StateRec.mk name (CurrentName ps w) := by
  unfold Activate at h
  try dsimp only at h
  cases hstat : (statFS w.fs (ps.AccountPath name)).isNone with
  | true =>
    rw [hstat, if_pos rfl] at h
    exact absurd h (by simp)
  | false =>
    rw [hstat, if_neg (by simp)] at h
    by_cases hcond : CurrentName ps w ≠ "" ∧ CurrentName ps w ≠ name
    · rw [if_pos hcond] at h
      cases hcx : ps.CodexExists w with
      | true =>
        rw [hcx, if_pos rfl] at h
        split at h
        · exact absurd h (by simp)
        · rename_i u1 w1 heqS
          split at heqS
          · exact absurd heqS (by simp)
          · rename_i accS wS heqSave
            injection heqS with hS1 hS2
            rw [hS2] at heqSave
            have hSave := Save_spec ps w (CurrentName ps w) accS w1 hwf heqSave
            have hSF1 := hSave.2.2.2.2.2.2.2 hsf
            refine Activate_tail_state ps name (CurrentName ps w) w1 w' ?_ ?_ h
            · rw [loadState_file ps w1 _ _ hSF1]
              rfl
            · rw [hSF1]
              exact trivial
      | false =>
        rw [hcx, if_neg (by simp)] at h
        exact Activate_tail_state ps name (CurrentName ps w) w w' rfl hsf h
    · rw [if_neg hcond] at h
      exact Activate_tail_state ps name (CurrentName ps w) w w' rfl hsf h

/-! ## RemoveSymlinks and Disable -/

theorem singleton_isPrefixOf_ne (a b : String) (h : a ≠ b) :
    ([a] : Path).isPrefixOf [b] = false :=
  isPrefixOf_cons_ne a b [] [] h

theorem homeItem_not_prefix_ne (ps : Paths) (a b : String) (h : a ≠ b) :
    (ps.Home ++ [a]).isPrefixOf (ps.Home ++ [b]) = false := by
  rw [isPrefixOf_append_cancel]
  exact singleton_isPrefixOf_ne a b h

theorem homeItem_not_prefix_of_out (ps : Paths) (a : String) (q : Path)
    (h : ps.Home.isPrefixOf q = false) :
    (ps.Home ++ [a]).isPrefixOf q = false := by
  cases hv : (ps.Home ++ [a]).isPrefixOf q with
  | false => rfl
  | true =>
    rw [isPrefixOf_trans_append ps.Home [a] q hv] at h
    exact Bool.noConfusion h

theorem copyFileSharing_noNS (w : World) (s p : Path) (r : Except Err Unit)
    (w' : World) (h : copyFileSharing w s p = (r, w')) :
    ∀ q t, lookupFS w'.fs q = some (.symlink t) →
      lookupFS w.fs q = some (.symlink t) := by
  intro q t hq
  have hs := copyFileSharing_spec w s p r w' h
  by_cases hqe : q = p
  · subst hqe
    cases r with
    | ok u =>
      obtain ⟨_, d0, _, hins⟩ := hs.2.2.2.2.1 (by cases u; rfl)
      rw [hins] at hq
      exact absurd (Option.some.inj hq) (fun hc => Node.noConfusion hc)
    | error e0 =>
      rw [hs.2.2.2.2.2 e0 rfl] at hq
      exact hq
  · rw [hs.2.2.2.1 q hqe] at hq
    exact hq

/-- copyPath, for any result: state bookkeeping, a frame outside the
destination subtree, and the guarantee that it never creates a symlink
anywhere. -/
theorem copyPath_frame (w : World) (src dst : Path) (r : Except Err Unit)
    (w' : World) (h : copyPath w src dst = (r, w')) :
    w'.bad = w.bad ∧ w'.now = w.now ∧ (WFfs w.fs → WFfs w'.fs) ∧
    (∀ q, dst.isPrefixOf q = false → lookupFS w'.fs q = lookupFS w.fs q) ∧
    (∀ q t, lookupFS w'.fs q = some (.symlink t) →
      lookupFS w.fs q = some (.symlink t)) := by
  unfold copyPath at h
  cases hst : statFS w.fs src with
  | none =>
    rw [hst] at h
    injection h with h1 h2
    subst h2
    exact ⟨rfl, rfl, id, fun q _ => rfl, fun q t hq => hq⟩
  | some n0 =>
    rw [hst] at h
    have hne : ∀ q : Path, dst.isPrefixOf q = false → q ≠ dst := by
      intro q hq hc
      rw [hc, isPrefixOf_refl] at hq
      exact Bool.noConfusion hq
    cases n0 with
    | dir m =>
      replace h : copyDirSharing w src dst = (r, w') := h
      unfold copyDirSharing at h
      cases hl : lookupFS w.fs src with
      | none =>
        rw [hl] at h
        injection h with h1 h2
        subst h2
        exact ⟨rfl, rfl, id, fun q _ => rfl, fun q t hq => hq⟩
      | some n1 =>
        rw [hl] at h
        have hf := copyGoSharing_frame src dst (entriesUnder w.fs src) w r w' h
        exact ⟨hf.1, hf.2.1, hf.2.2.1, hf.2.2.2.1, hf.2.2.2.2⟩
    | file d m =>
      replace h : copyFileSharing w src dst = (r, w') := h
      have hs := copyFileSharing_spec w src dst r w' h
      exact ⟨hs.1, hs.2.1, hs.2.2.1, fun q hq => hs.2.2.2.1 q (hne q hq),
        copyFileSharing_noNS w src dst r w' h⟩
    | symlink t0 =>
      replace h : copyFileSharing w src dst = (r, w') := h
      have hs := copyFileSharing_spec w src dst r w' h
      exact ⟨hs.1, hs.2.1, hs.2.2.1, fun q hq => hs.2.2.2.1 q (hne q hq),
        copyFileSharing_noNS w src dst r w' h⟩

/-- One item of RemoveSymlinks: bookkeeping, a frame outside the item's
live path, a non-symlink live path is a strict no-op, a symlink live path
never remains a symlink, and a symlink to a plain file outside ~/.codex is
replaced by a copy of that file's bytes on success. -/
theorem removeSymlinkItem_spec (ps : Paths) (w : World) (item : String)
    (r : Except Err Unit) (w' : World)
    (h : removeSymlinkItem ps w item = (r, w')) :
    w'.bad = w.bad ∧ w'.now = w.now ∧ (WFfs w.fs → WFfs w'.fs) ∧
    (∀ q, (ps.Home ++ [item]).isPrefixOf q = false →
      lookupFS w'.fs q = lookupFS w.fs q) ∧
    (notLink (lookupFS w.fs (ps.Home ++ [item])) → w' = w) ∧
    (∀ link, lookupFS w.fs (ps.Home ++ [item]) = some (.symlink link) →
      ∀ t, lookupFS w'.fs (ps.Home ++ [item]) ≠ some (.symlink t)) ∧
    (r = .ok () → ∀ link d m,
      lookupFS w.fs (ps.Home ++ [item]) = some (.symlink link) →
      ps.Home.isPrefixOf link = false →
      lookupFS w.fs link = some (.file d m) →
      lookupFS w'.fs (ps.Home ++ [item]) = some (.file d w.now)) := by
  unfold removeSymlinkItem at h
  try dsimp only at h
  have hqne : ∀ q : Path, (ps.Home ++ [item]).isPrefixOf q = false →
      q ≠ ps.Home ++ [item] := by
    intro q hq hc
    rw [hc, isPrefixOf_refl] at hq
    exact Bool.noConfusion hq
  cases hl : lookupFS w.fs (ps.Home ++ [item]) with
  | none =>
    rw [hl] at h
    injection h with h1 h2
    subst h2
    exact ⟨rfl, rfl, id, fun q _ => rfl, fun _ => rfl,
      fun link hc => Option.noConfusion hc,
      fun _ link d m hc => Option.noConfusion hc⟩
  | some n0 =>
    rw [hl] at h
    cases n0 with
    | file d0 m0 =>
      injection h with h1 h2
      subst h2
      exact ⟨rfl, rfl, id, fun q _ => rfl, fun _ => rfl,
        fun link hc => Node.noConfusion (Option.some.inj hc),
        fun _ link d m hc => Node.noConfusion (Option.some.inj hc)⟩
    | dir m0 =>
      injection h with h1 h2
      subst h2
      exact ⟨rfl, rfl, id, fun q _ => rfl, fun _ => rfl,
        fun link hc => Node.noConfusion (Option.some.inj hc),
        fun _ link d m hc => Node.noConfusion (Option.some.inj hc)⟩
    | symlink link0 =>
      try dsimp only at h
      have hrq := removeQ_spec w (ps.Home ++ [item])
      have h1none : lookupFS (removeQ w (ps.Home ++ [item])).fs
          (ps.Home ++ [item]) = none := hrq.2.2.2.2 link0 hl
      cases hst : (statFS (removeQ w (ps.Home ++ [item])).fs link0).isSome with
      | false =>
        rw [hst, if_neg (by simp)] at h
        injection h with h1 h2
        subst h2
        refine ⟨hrq.1, hrq.2.1, hrq.2.2.1,
          fun q hq => hrq.2.2.2.1 q (hqne q hq),
          fun hc => absurd hc id,
          fun link hlk t hc => ?_, fun hr link d m hlk hout hfile => ?_⟩
        · rw [h1none] at hc
          exact Option.noConfusion hc
        · -- the target was a plain file, so Stat could not have missed it
          have hlinkne : link ≠ ps.Home ++ [item] := by
            intro hc
            rw [hc, isPrefixOf_append] at hout
            exact Bool.noConfusion hout
          have hlk0 : link0 = link :=
            Node.symlink.inj (Option.some.inj hlk)
          subst hlk0
          have hl1 : lookupFS (removeQ w (ps.Home ++ [item])).fs link0 =
              some (.file d m) := by
            rw [hrq.2.2.2.1 link0 hlinkne]
            exact hfile
          rw [statFS_direct _ link0 (.file d m) hl1
            (fun t => Node.noConfusion)] at hst
          exact absurd hst (by simp)
      | true =>
        rw [hst, if_pos rfl] at h
        have hcp := copyPath_frame (removeQ w (ps.Home ++ [item])) link0
          (ps.Home ++ [item]) r w' h
        refine ⟨hcp.1.trans hrq.1, hcp.2.1.trans hrq.2.1,
          fun hw => hcp.2.2.1 (hrq.2.2.1 hw), fun q hq => ?_,
          fun hc => absurd hc id,
          fun link hlk t hc => ?_, fun hr link d m hlk hout hfile => ?_⟩
        · rw [hcp.2.2.2.1 q hq]
          exact hrq.2.2.2.1 q (hqne q hq)
        · rw [hcp.2.2.2.2 (ps.Home ++ [item]) t hc] at h1none
          exact Option.noConfusion h1none
        · have hlinkne : link ≠ ps.Home ++ [item] := by
            intro hc
            rw [hc, isPrefixOf_append] at hout
            exact Bool.noConfusion hout
          have hlk0 : link0 = link :=
            Node.symlink.inj (Option.some.inj hlk)
          subst hlk0
          have hl1 : lookupFS (removeQ w (ps.Home ++ [item])).fs link0 =
              some (.file d m) := by
            rw [hrq.2.2.2.1 link0 hlinkne]
            exact hfile
          have hstf : statFS (removeQ w (ps.Home ++ [item])).fs link0 =
              some (.file d m) :=
            statFS_direct _ link0 (.file d m) hl1 (fun t => Node.noConfusion)
          replace h : copyFileSharing (removeQ w (ps.Home ++ [item])) link0
              (ps.Home ++ [item]) = (r, w') := by
            unfold copyPath at h
            rw [hstf] at h
            exact h
          have hcf := copyFileSharing_spec _ link0 (ps.Home ++ [item]) r w' h
          obtain ⟨_, d1, hrd, hins⟩ := hcf.2.2.2.2.1 hr
          rw [readFile_of_file _ link0 d m hl1] at hrd
          have hd1 : d1 = d := (Except.ok.inj hrd).symm
          subst hd1
          rw [hrq.2.1] at hins
          exact hins

/-- The fold of removeSymlinkItem over a duplicate-free item list:
bookkeeping, a frame outside all the items' live paths, non-symlink items
untouched, no item's live path remains a symlink on success, and a
symlink to a plain file outside ~/.codex is replaced by that file's bytes
on success. -/
theorem removeItems_go (ps : Paths) (items : List String) :
    ∀ (w : World) (r : Except Err Unit) (w' : World),
    removeItems ps w items = (r, w') → items.Nodup →
    (w'.bad = w.bad ∧ w'.now = w.now ∧ (WFfs w.fs → WFfs w'.fs)) ∧
    (∀ q, (∀ item ∈ items, (ps.Home ++ [item]).isPrefixOf q = false) →
      lookupFS w'.fs q = lookupFS w.fs q) ∧
    (∀ item ∈ items, notLink (lookupFS w.fs (ps.Home ++ [item])) →
      lookupFS w'.fs (ps.Home ++ [item]) = lookupFS w.fs (ps.Home ++ [item])) ∧
    (r = .ok () → ∀ item ∈ items, ∀ t,
      lookupFS w'.fs (ps.Home ++ [item]) ≠ some (.symlink t)) ∧
    (r = .ok () → ∀ item ∈ items, ∀ link d m,
      lookupFS w.fs (ps.Home ++ [item]) = some (.symlink link) →
      ps.Home.isPrefixOf link = false →
      lookupFS w.fs link = some (.file d m) →
      lookupFS w'.fs (ps.Home ++ [item]) = some (.file d w.now)) := by
  induction items with
  | nil =>
    intro w r w' h _
    injection h with h1 h2
    subst h2
    exact ⟨⟨rfl, rfl, id⟩, fun q _ => rfl, fun item hm => absurd hm (by simp),
      fun _ item hm => absurd hm (by simp), fun _ item hm => absurd hm (by simp)⟩
  | cons item0 rest ih =>
    intro w r w' h hnd
    have hnd0 : item0 ∉ rest := (List.nodup_cons.mp hnd).1
    have hndr : rest.Nodup := (List.nodup_cons.mp hnd).2
    unfold removeItems at h
    cases hs : removeSymlinkItem ps w item0 with
    | mk r1 w1 =>
      rw [hs] at h
      have hstep := removeSymlinkItem_spec ps w item0 r1 w1 hs
      cases r1 with
      | error e1 =>
        injection h with h1 h2
        subst h1; subst h2
        refine ⟨⟨hstep.1, hstep.2.1, hstep.2.2.1⟩, fun q hq => ?_,
          fun item hm hnl => ?_, fun hc => Except.noConfusion hc,
          fun hc => Except.noConfusion hc⟩
        · exact hstep.2.2.2.1 q (hq item0 (by simp))
        · rcases List.mem_cons.mp hm with hi0 | hir
          · subst hi0
            rw [hstep.2.2.2.2.1 hnl]
          · exact hstep.2.2.2.1 (ps.Home ++ [item])
              (homeItem_not_prefix_ne ps item0 item
                (fun hc => hnd0 (hc ▸ hir)))
      | ok u1 =>
        have hrest := ih w1 r w' h hndr
        -- lookups at the items of the tail are unchanged by the head step
        have hkeep : ∀ item ∈ rest, lookupFS w1.fs (ps.Home ++ [item]) =
            lookupFS w.fs (ps.Home ++ [item]) := by
          intro item hir
          exact hstep.2.2.2.1 (ps.Home ++ [item])
            (homeItem_not_prefix_ne ps item0 item (fun hc => hnd0 (hc ▸ hir)))
        -- and the head item's live path is unchanged by the tail steps
        have hkeep0 : lookupFS w'.fs (ps.Home ++ [item0]) =
            lookupFS w1.fs (ps.Home ++ [item0]) := by
          refine hrest.2.1 (ps.Home ++ [item0]) ?_
          intro item hir
          exact homeItem_not_prefix_ne ps item item0 (fun hc => hnd0 (hc ▸ hir))
        refine ⟨⟨hrest.1.1.trans hstep.1, hrest.1.2.1.trans hstep.2.1,
          fun hw => hrest.1.2.2 (hstep.2.2.1 hw)⟩, fun q hq => ?_,
          fun item hm hnl => ?_, fun hr item hm t => ?_,
          fun hr item hm link d m hlk hout hfile => ?_⟩
        · rw [hrest.2.1 q (fun item hir => hq item (List.mem_cons_of_mem _ hir))]
          exact hstep.2.2.2.1 q (hq item0 (by simp))
        · rcases List.mem_cons.mp hm with hi0 | hir
          · subst hi0
            rw [hkeep0, hstep.2.2.2.2.1 hnl]
          · rw [hrest.2.2.1 item hir (by rw [hkeep item hir]; exact hnl),
              hkeep item hir]
        · rcases List.mem_cons.mp hm with hi0 | hir
          · subst hi0
            rw [hkeep0]
            cases hl0 : lookupFS w.fs (ps.Home ++ [item]) with
            | none =>
              rw [hstep.2.2.2.2.1 (by rw [hl0]; exact trivial), hl0]
              exact fun hc => Option.noConfusion hc
            | some n0 =>
              cases n0 with
              | file d0 m0 =>
                rw [hstep.2.2.2.2.1 (by rw [hl0]; exact trivial), hl0]
                exact fun hc => Node.noConfusion (Option.some.inj hc)
              | dir m0 =>
                rw [hstep.2.2.2.2.1 (by rw [hl0]; exact trivial), hl0]
                exact fun hc => Node.noConfusion (Option.some.inj hc)
              | symlink link0 =>
                exact hstep.2.2.2.2.2.1 link0 hl0 t
          · exact hrest.2.2.2.1 hr item hir t
        · rcases List.mem_cons.mp hm with hi0 | hir
          · subst hi0
            -- the head's own step already performed the copy-back
            have hr1 : (Except.ok u1 : Except Err Unit) = .ok () := by
              cases u1; rfl
            rw [hkeep0]
            exact hstep.2.2.2.2.2.2 hr1 link d m hlk hout hfile
          · have hw1 : lookupFS w1.fs (ps.Home ++ [item]) =
                some (.symlink link) := by
              rw [hkeep item hir]
              exact hlk
            have hlnk1 : lookupFS w1.fs link = some (.file d m) := by
              rw [hstep.2.2.2.1 link (homeItem_not_prefix_of_out ps item0 link hout)]
              exact hfile
            have := hrest.2.2.2.2 hr item hir link d m hw1 hout hlnk1
            rw [hstep.2.1] at this
            exact this

/-- SaveConfig: bookkeeping and a frame away from the managed directories
and the sharing-config file. -/
theorem SaveConfig_frame (ps : Paths) (cfg : Config) (w : World)
    (r : Except Err Unit) (w' : World) (h : SaveConfig ps cfg w = (r, w')) :
    w'.bad = w.bad ∧ w'.now = w.now ∧ (WFfs w.fs → WFfs w'.fs) ∧
    (∀ q, q ≠ ps.DataDir → q ≠ ps.StateDir → q ≠ ps.AccountsDir →
      q ≠ ps.SharingConfigFile → lookupFS w'.fs q = lookupFS w.fs q) := by
  unfold SaveConfig at h
  cases h1 : ps.EnsureDirs w with
  | mk r1 w1 =>
    rw [h1] at h
    have hs1 := EnsureDirs_spec ps w r1 w1 h1
    cases r1 with
    | error e1 =>
      injection h with ha hb
      subst ha; subst hb
      exact ⟨hs1.1, hs1.2.1, hs1.2.2.1,
        fun q hq1 hq2 hq3 _ => hs1.2.2.2.1 q hq1 hq2 hq3⟩
    | ok u1 =>
      replace h : writeFileW w1 ps.SharingConfigFile (.configJson cfg)
          = (r, w') := h
      have hs2 := writeFileW_spec w1 ps.SharingConfigFile _ r w' h
      refine ⟨hs2.1.trans hs1.1, hs2.2.1.trans hs1.2.1,
        fun hw => hs2.2.2.1 (hs1.2.2.1 hw), fun q hq1 hq2 hq3 hq4 => ?_⟩
      rw [hs2.2.2.2.1 q hq4]
      exact hs1.2.2.2.1 q hq1 hq2 hq3

theorem append_ne_self (p rel : Path) (h : rel ≠ []) : p ++ rel ≠ p := by
  intro hc
  have hlen := congrArg List.length hc
  rw [List.length_append] at hlen
  have : rel.length = 0 := by omega
  exact h (List.length_eq_zero.mp this)

/-- C6: setupSymlink on an item whose live path holds a real
(non-symlink) node: on success the live path ends up a symlink to the
shared target; when nothing was at the shared target the local data was
moved there node-for-node by the rename (preserving the only copy); when
a real node was already there, the shared data is untouched and the local
subtree is gone (the shared copy wins). -/
theorem setup_symlink_migrate_or_shared_wins (ps : Paths) (item : String) (targetDir : Path)
    (w : World) (w' : World) (n0 : Node)
    (hsrc : lookupFS w.fs (ps.Home ++ [item]) = some n0)
    (hn0 : ∀ t, n0 ≠ .symlink t)
    (h : setupSymlink ps item targetDir w = (.ok (), w'))
    (hdisj : ∀ rel, (ps.Home ++ [item]).isPrefixOf (targetDir ++ [item] ++ rel)
      = false) :
    lookupFS w'.fs (ps.Home ++ [item]) =
      some (.symlink (targetDir ++ [item])) ∧
    ((statFS w.fs (targetDir ++ [item])).isNone = true →
      ∀ rel nn, lookupFS w.fs (ps.Home ++ [item] ++ rel) = some nn →
        lookupFS w'.fs (targetDir ++ [item] ++ rel) = some nn) ∧
    (∀ n1, lookupFS w.fs (targetDir ++ [item]) = some n1 →
      (∀ t, n1 ≠ .symlink t) →
      (∀ rel, lookupFS w'.fs (targetDir ++ [item] ++ rel) =
        lookupFS w.fs (targetDir ++ [item] ++ rel)) ∧
      (∀ rel, rel ≠ ([] : Path) →
        lookupFS w'.fs (ps.Home ++ [item] ++ rel) = none)) := by
  have hsrc_ne_destrel : ∀ rel : Path,
      targetDir ++ [item] ++ rel ≠ ps.Home ++ [item] := by
    intro rel hc
    have := hdisj rel
    rw [hc] at this
    rw [isPrefixOf_refl] at this
    exact Bool.noConfusion this
  unfold setupSymlink at h
  try dsimp only at h
  rw [hsrc] at h
  have htail : setupSymlinkTail ps item targetDir w = (.ok (), w') := by
    cases n0 with
    | file d m => exact h
    | dir m => exact h
    | symlink t => exact absurd rfl (hn0 t)
  clear h
  unfold setupSymlinkTail at htail
  try dsimp only at htail
  rw [hsrc] at htail
  have hstep1 : (match some n0 with
      | some (.symlink _) => ((.ok (), w) : Except Err Unit × World)
      | none => (.ok (), w)
      | some _ =>
        if (statFS w.fs (targetDir ++ [item])).isNone
        then renameW w (ps.Home ++ [item]) (targetDir ++ [item])
        else (.ok (), removeAllQ w (ps.Home ++ [item]))) =
      (if (statFS w.fs (targetDir ++ [item])).isNone
        then renameW w (ps.Home ++ [item]) (targetDir ++ [item])
        else (.ok (), removeAllQ w (ps.Home ++ [item]))) := by
    cases n0 with
    | file d m => rfl
    | dir m => rfl
    | symlink t => exact absurd rfl (hn0 t)
  rw [hstep1] at htail
  cases hst0 : (statFS w.fs (targetDir ++ [item])).isNone with
  | true =>
    rw [hst0, if_pos rfl] at htail
    split at htail
    · exact absurd htail (by simp)
    · rename_i u1 w1 heqR
      have hR := renameW_spec w (ps.Home ++ [item]) (targetDir ++ [item])
        (.ok u1) w1 heqR
      have hRok := hR.2.2.2.1 (by cases u1; rfl)
      have hmoved : ∀ rel nn,
          lookupFS w.fs (ps.Home ++ [item] ++ rel) = some nn →
          lookupFS w1.fs (targetDir ++ [item] ++ rel) = some nn := hRok.1
      have hd1 : lookupFS w1.fs (targetDir ++ [item]) = some n0 := by
        have := hmoved [] n0 (by rw [List.append_nil]; exact hsrc)
        rw [List.append_nil] at this
        exact this
      have hstat1 : statFS w1.fs (targetDir ++ [item]) = some n0 :=
        statFS_direct _ _ _ hd1 hn0
      rw [hstat1] at htail
      rw [if_neg (by simp)] at htail
      replace htail : symlinkW w1 (targetDir ++ [item]) (ps.Home ++ [item])
          = (.ok (), w') := htail
      have hS := symlinkW_spec w1 (targetDir ++ [item]) (ps.Home ++ [item])
        (.ok ()) w' htail
      have hSok := hS.2.2.2.2.1 rfl
      refine ⟨hSok.2.2, fun _ rel nn hnn => ?_, fun n1 hn1 hn1l => ?_⟩
      · rw [hS.2.2.2.1 (targetDir ++ [item] ++ rel) (hsrc_ne_destrel rel)]
        exact hmoved rel nn hnn
      · -- something real at the target contradicts the Stat miss
        rw [statFS_direct w.fs (targetDir ++ [item]) n1 hn1 hn1l] at hst0
        exact absurd hst0 (by simp)
  | false =>
    rw [hst0, if_neg (by simp)] at htail
    try dsimp only at htail
    have hrq := removeAllQ_spec w (ps.Home ++ [item])
    cases hst1 : (statFS (removeAllQ w (ps.Home ++ [item])).fs
        (targetDir ++ [item])).isNone with
    | true =>
      -- the shared target is still missing after dropping the local copy:
      -- an empty file or directory is created there, then the symlink
      rw [hst1, if_pos rfl] at htail
      have done : ∀ w2 : World,
          symlinkW w2 (targetDir ++ [item]) (ps.Home ++ [item]) = (.ok (), w') →
          lookupFS w'.fs (ps.Home ++ [item]) =
            some (.symlink (targetDir ++ [item])) := by
        intro w2 hw2
        exact ((symlinkW_spec w2 _ _ (.ok ()) w' hw2).2.2.2.2.1 rfl).2.2
      have hclause1 : lookupFS w'.fs (ps.Home ++ [item]) =
          some (.symlink (targetDir ++ [item])) := by
        cases hext : hasExt item with
        | true =>
          rw [hext, if_pos rfl] at htail
          split at htail
          · exact absurd htail (by simp)
          · rename_i u2 w2 heq2
            exact done w2 htail
        | false =>
          rw [hext, if_neg (by simp)] at htail
          split at htail
          · exact absurd htail (by simp)
          · rename_i u2 w2 heq2
            exact done w2 htail
      refine ⟨hclause1, fun hiso => absurd hiso (by simp),
        fun n1 hn1 hn1l => ?_⟩
      have hd1 : lookupFS (removeAllQ w (ps.Home ++ [item])).fs
          (targetDir ++ [item]) = some n1 := by
        rw [hrq.2.2.2.1 (targetDir ++ [item]) (by
          have := hdisj []
          rw [List.append_nil] at this
          exact this)]
        exact hn1
      rw [statFS_direct _ _ _ hd1 hn1l] at hst1
      exact absurd hst1 (by simp)
    | false =>
      rw [hst1, if_neg (by simp)] at htail
      replace htail : symlinkW (removeAllQ w (ps.Home ++ [item]))
          (targetDir ++ [item]) (ps.Home ++ [item]) = (.ok (), w') := htail
      have hS := symlinkW_spec (removeAllQ w (ps.Home ++ [item]))
        (targetDir ++ [item]) (ps.Home ++ [item]) (.ok ()) w' htail
      have hSok := hS.2.2.2.2.1 rfl
      have hnb : ps.Home ++ [item] ∉ w.bad := by
        intro hb
        have hrw : removeAllQ w (ps.Home ++ [item]) = w := by
          unfold removeAllQ
          rw [if_pos hb]
        rw [hrw, hsrc] at hSok
        exact Option.noConfusion hSok.2.1
      refine ⟨hSok.2.2, fun hiso => absurd hiso (by simp),
        fun n1 hn1 hn1l => ⟨fun rel => ?_, fun rel hrel => ?_⟩⟩
      · rw [hS.2.2.2.1 (targetDir ++ [item] ++ rel) (hsrc_ne_destrel rel)]
        exact hrq.2.2.2.1 (targetDir ++ [item] ++ rel) (hdisj rel)
      · rw [hS.2.2.2.1 (ps.Home ++ [item] ++ rel)
          (append_ne_self (ps.Home ++ [item]) rel hrel)]
        exact hrq.2.2.2.2 hnb (ps.Home ++ [item] ++ rel)
          (isPrefixOf_append _ _)

/-! ## The claims -/

/-- The regular-file content visible at a lookup result. -/
def dataOf : Option Node → Option Data
  | some (.file d _) => some d
  | _ => none

theorem dataOf_map_copyNode (o : Option Node) (now : Nat) :
    dataOf (o.map (copyNode now)) = dataOf o := by
  cases o with
  | none => rfl
  | some n => cases n <;> rfl

/-- A small running installation used to instantiate the claims: a live
directory, two stored profiles, a state record naming a third. -/
def psEx : Paths := { home := ["u"] }

def wEx : World :=
  { fs := [ (psEx.Home, .dir 0),
            (psEx.Home ++ ["auth.json"], .file (.bytes "A") 0),
            (psEx.AccountsDir, .dir 0),
            (psEx.AccountPath "alice", .dir 0),
            (psEx.AccountPath "alice" ++ ["auth.json"], .file (.bytes "AA") 0),
            (psEx.AccountPath "bob", .dir 0),
            (psEx.AccountPath "eve" ++ [".account.json"], .file (.bytes "junk") 0),
            (psEx.StateFile, .file (.stateJson (StateRec.mk "carol" "")) 0) ],
    bad := [], now := 5 }

/-- C3: for the state and sharing singletons, an absent file reads as the
default without error; corrupt JSON reads as the default for the state
record, but is an error (not the default) for the sharing config — the
last conjunct is the corrected part. -/
theorem singleton_defaults (ps : Paths) (w : World) :
    (lookupFS w.fs ps.StateFile = none →
      loadState ps w = StateRec.mk "" "" ∧ CurrentName ps w = "") ∧
    (∀ d m, lookupFS w.fs ps.StateFile = some (.file d m) →
      unmarshalState d = none → loadState ps w = StateRec.mk "" "") ∧
    (lookupFS w.fs ps.SharingConfigFile = none →
      LoadConfig ps w = .ok (Config.mk .disabled false [])) ∧
    (∀ d m, lookupFS w.fs ps.SharingConfigFile = some (.file d m) →
      unmarshalConfig d = none → LoadConfig ps w = .error .decodeError) := by
  refine ⟨fun h => ?_, fun d m h hu => ?_, fun h => LoadConfig_none ps w h,
    fun d m h hu => ?_⟩
  · have h1 := loadState_none ps w h
    exact ⟨h1, by show (loadState ps w).current = ""; rw [h1]⟩
  · rw [loadState_file ps w d m h, hu]
  · unfold LoadConfig
    rw [readFile_of_file w.fs ps.SharingConfigFile d m h]
    show (match unmarshalConfig d with
      | none => (.error .decodeError : Except Err Config)
      | some c => .ok c) = .error .decodeError
    rw [hu]

def wNoState : World := { fs := [], bad := [], now := 0 }

def wCorrupt : World :=
  { fs := [ (psEx.SharingConfigFile, .file (.bytes "not json") 0) ],
    bad := [], now := 0 }

theorem singleton_defaults_witness :
    loadState psEx wNoState = StateRec.mk "" "" ∧
    LoadConfig psEx wCorrupt = .error .decodeError :=
  ⟨((singleton_defaults psEx wNoState).1 rfl).1,
   (singleton_defaults psEx wCorrupt).2.2.2 (.bytes "not json") 0 rfl rfl⟩

theorem loadconfig_corrupt_errors_cex :
    lookupFS wCorrupt.fs psEx.SharingConfigFile =
      some (.file (.bytes "not json") 0) ∧
    unmarshalConfig (.bytes "not json") = none ∧
    LoadConfig psEx wCorrupt = .error .decodeError :=
  ⟨rfl, rfl, rfl⟩

/-- C5: Get falls back to a synthesized account (directory mtime for both
timestamps) only when the metadata file is wholly absent; a missing
directory is NotFound; corrupt metadata is a hard decode error; and every
account List returns comes from a successful Get, so a failing Get is
skipped rather than aborting the listing. -/
theorem get_fallback_notfound_corrupt_list_skip (ps : Paths) (w : World)
    (name : String) :
    (∀ m, lookupFS w.fs (ps.AccountPath name ++ [".account.json"]) = none →
      lookupFS w.fs (ps.AccountPath name) = some (.dir m) →
      Get ps w name = .ok (Account.mk name none m m)) ∧
    (lookupFS w.fs (ps.AccountPath name ++ [".account.json"]) = none →
      lookupFS w.fs (ps.AccountPath name) = none →
      Get ps w name = .error (.notFound name)) ∧
    (∀ d m, lookupFS w.fs (ps.AccountPath name ++ [".account.json"]) =
        some (.file d m) →
      unmarshalAccount d = none → Get ps w name = .error .decodeError) ∧
    (∀ l w1, ListAccounts ps w = (.ok l, w1) →
      ∀ acc ∈ l, ∃ n, Get ps w1 n = .ok acc) := by
  refine ⟨fun m hmeta hdir => ?_, fun hmeta hdir => ?_,
    fun d m hmeta hu => ?_, fun l w1 h acc hacc => ?_⟩
  · unfold Get
    try dsimp only
    rw [readFile_of_none w.fs _ hmeta]
    show (match statFS w.fs (ps.AccountPath name) with
      | none => (.error (.notFound name) : Except Err Account)
      | some info => .ok (Account.mk name none info.modTime info.modTime)) = _
    rw [statFS_direct w.fs (ps.AccountPath name) (.dir m) hdir
      (fun t => Node.noConfusion)]
    rfl
  · unfold Get
    try dsimp only
    rw [readFile_of_none w.fs _ hmeta]
    show (match statFS w.fs (ps.AccountPath name) with
      | none => (.error (.notFound name) : Except Err Account)
      | some info => .ok (Account.mk name none info.modTime info.modTime)) = _
    rw [statFS_none w.fs (ps.AccountPath name) hdir]
  · unfold Get
    try dsimp only
    rw [readFile_of_file w.fs _ d m hmeta]
    show (match unmarshalAccount d with
      | none => (.error .decodeError : Except Err Account)
      | some a => .ok a) = _
    rw [hu]
  · unfold ListAccounts at h
    split at h
    · exact absurd (Prod.mk.inj h).1 (by simp)
    · rename_i u1 wE heqE
      split at h
      · injection h with h1 h2
        rw [← (Except.ok.inj h1)] at hacc
        exact absurd hacc (by simp)
      · rename_i n1 hn1
        injection h with h1 h2
        subst h2
        rw [← (Except.ok.inj h1)] at hacc
        obtain ⟨n, hn, hopt⟩ := List.mem_filterMap.mp hacc
        refine ⟨n, ?_⟩
        cases hg : Get ps wE n with
        | ok a0 =>
          rw [hg] at hopt
          have ha : a0 = acc := Option.some.inj hopt
          rw [ha]
        | error e0 =>
          rw [hg] at hopt
          exact Option.noConfusion hopt

theorem get_fallback_witness :
    Get psEx wEx "bob" = .ok (Account.mk "bob" none 0 0) ∧
    Get psEx wEx "zed" = .error (.notFound "zed") ∧
    Get psEx wEx "eve" = .error .decodeError ∧
    (∃ l w1, ListAccounts psEx wEx = (.ok l, w1) ∧
      ∃ n, Get psEx w1 n = .ok (Account.mk "alice" none 0 0)) := by
  refine ⟨(get_fallback_notfound_corrupt_list_skip psEx wEx "bob").1 0 rfl rfl,
    (get_fallback_notfound_corrupt_list_skip psEx wEx "zed").2.1 rfl rfl,
    (get_fallback_notfound_corrupt_list_skip psEx wEx "eve").2.2.1
      (.bytes "junk") 0 rfl rfl, ⟨_, _, rfl, ?_⟩⟩
  exact (get_fallback_notfound_corrupt_list_skip psEx wEx "x").2.2.2 _ _ rfl
    (Account.mk "alice" none 0 0) (by decide)

/-- C9: names are not validated; the empty name's snapshot path is the
accounts root itself, so when that root exists Delete "" does not fail
with NotFound but removes the root and with it every stored snapshot. -/
theorem delete_empty_name_removes_accounts_root (ps : Paths) (w : World)
    (m : Nat) (hroot : lookupFS w.fs ps.AccountsDir = some (.dir m))
    (hnb : ps.AccountsDir ∉ w.bad) :
    ps.AccountPath "" = ps.AccountsDir ∧
    ∃ w', Delete ps w "" = (.ok (), w') ∧
      (∀ q, ps.AccountsDir.isPrefixOf q = true → lookupFS w'.fs q = none) ∧
      (∀ name rel, lookupFS w'.fs (ps.AccountPath name ++ rel) = none) := by
  have hAP : ps.AccountPath "" = ps.AccountsDir := AccountPath_empty ps
  have hst : statFS w.fs (ps.AccountPath "") = some (.dir m) := by
    rw [hAP]
    exact statFS_direct w.fs ps.AccountsDir (.dir m) hroot
      (fun t => Node.noConfusion)
  refine ⟨hAP, { w with fs := dropTree w.fs ps.AccountsDir }, ?_, ?_, ?_⟩
  · unfold Delete
    try dsimp only
    rw [hst]
    rw [if_neg (by simp)]
    unfold removeAllW
    rw [hAP, if_neg hnb]
  · intro q hq
    exact lookupFS_dropTree_in w.fs ps.AccountsDir q hq
  · intro name rel
    obtain ⟨sfx, hs⟩ := AccountPath_suffix ps name
    refine lookupFS_dropTree_in w.fs ps.AccountsDir _ ?_
    rw [hs, AccountsDir_eq]
    rw [show ps.home ++ ("codex-data" :: "accounts" :: sfx) ++ rel
      = (ps.home ++ ["codex-data", "accounts"]) ++ (sfx ++ rel) by
        simp [List.append_assoc]]
    exact isPrefixOf_append _ _

theorem delete_empty_name_witness :
    psEx.AccountPath "" = psEx.AccountsDir ∧
    ∃ w', Delete psEx wEx "" = (.ok (), w') ∧
      (∀ q, psEx.AccountsDir.isPrefixOf q = true → lookupFS w'.fs q = none) ∧
      (∀ name rel, lookupFS w'.fs (psEx.AccountPath name ++ rel) = none) :=
  delete_empty_name_removes_accounts_root psEx wEx 0 rfl (by simp [wEx])

/-- C10: failures of the sharing reconciliation inside Activate are
swallowed: whether LoadConfig fails or sharing is enabled and
SetupSymlinks fails, Activate still writes the state record and returns
success. -/
theorem activate_swallows_sharing_failures (ps : Paths) (w : World)
    (name : String) (w2 w3 : World)
    (hstat : (statFS w.fs (ps.AccountPath name)).isNone = false)
    (hnosave : CurrentName ps w = "" ∨ CurrentName ps w = name)
    (hrm : removeAllW w ps.Home = (.ok (), w2))
    (hcp : copyDirStorage w2 (ps.AccountPath name) ps.Home = (.ok (), w3)) :
    (∀ e, LoadConfig ps w3 = .error e →
      ∀ w5, saveState ps name w3 = (.ok (), w5) →
        Activate ps w name = (.ok (), w5) ∧ CurrentName ps w5 = name) ∧
    (∀ cfg e' wS, LoadConfig ps w3 = .ok cfg → IsEnabled cfg = true →
      SetupSymlinks ps cfg w3 = (.error e', wS) →
      ∀ w5, saveState ps name wS = (.ok (), w5) →
        Activate ps w name = (.ok (), w5) ∧ CurrentName ps w5 = name) := by
  have hbase : Activate ps w name =
      (match saveState ps name (match LoadConfig ps w3 with
        | .error _ => w3
        | .ok cfg => if IsEnabled cfg then (SetupSymlinks ps cfg w3).2 else w3)
      with
      | (.error e, wx) => ((.error e : Except Err Unit), wx)
      | (.ok _, w5) => (.ok (), w5)) := by
    unfold Activate
    try dsimp only
    rw [hstat]
    rw [if_neg (by simp)]
    rw [if_neg (by
      rcases hnosave with h0 | h0 <;> rw [h0] <;> simp)]
    show (match removeAllW w ps.Home with
      | (.error e, wx) =>
        ((.error (.wrapped "failed to clear ~/.codex" e) : Except Err Unit), wx)
      | (.ok _, w2) =>
        match copyDirStorage w2 (ps.AccountPath name) ps.Home with
        | (.error e, wx) => (.error (.wrapped "failed to activate account" e), wx)
        | (.ok _, w3) =>
          let w4 := match LoadConfig ps w3 with
            | .error _ => w3
            | .ok cfg => if IsEnabled cfg then (SetupSymlinks ps cfg w3).2 else w3
          match saveState ps name w4 with
          | (.error e, wx) => (.error e, wx)
          | (.ok _, w5) => (.ok (), w5)) = _
    rw [hrm]
    show (match copyDirStorage w2 (ps.AccountPath name) ps.Home with
      | (.error e, wx) =>
        ((.error (.wrapped "failed to activate account" e) : Except Err Unit), wx)
      | (.ok _, w3) =>
        let w4 := match LoadConfig ps w3 with
          | .error _ => w3
          | .ok cfg => if IsEnabled cfg then (SetupSymlinks ps cfg w3).2 else w3
        match saveState ps name w4 with
        | (.error e, wx) => (.error e, wx)
        | (.ok _, w5) => (.ok (), w5)) = _
    rw [hcp]
  have hcurOf : ∀ w4 w5, saveState ps name w4 = (.ok (), w5) →
      CurrentName ps w5 = name := by
    intro w4 w5 hsv
    have hS := saveState_spec ps name w4 (.ok ()) w5 hsv
    have hw5 := hS.2.2.2.2.1 rfl
    show (loadState ps w5).current = name
    rw [loadState_file ps w5 _ _ hw5]
    rfl
  refine ⟨fun e hlc w5 hsv => ?_, fun cfg e' wS hlc hen hss w5 hsv => ?_⟩
  · have hw4 : (match LoadConfig ps w3 with
        | .error _ => w3
        | .ok cfg => if IsEnabled cfg then (SetupSymlinks ps cfg w3).2 else w3)
        = w3 := by
      rw [hlc]
    rw [hw4] at hbase
    rw [hsv] at hbase
    exact ⟨hbase, hcurOf w3 w5 hsv⟩
  · have hw4 : (match LoadConfig ps w3 with
        | .error _ => w3
        | .ok cfg => if IsEnabled cfg then (SetupSymlinks ps cfg w3).2 else w3)
        = wS := by
      rw [hlc]
      show (if IsEnabled cfg = true then (SetupSymlinks ps cfg w3).2 else w3) = wS
      rw [hen, if_pos rfl, hss]
    rw [hw4] at hbase
    rw [hsv] at hbase
    exact ⟨hbase, hcurOf wS w5 hsv⟩

/-- Activate at a world whose sharing config is corrupt: LoadConfig fails
but the switch still succeeds. -/
def wC10 : World :=
  { fs := [ (psEx.Home, .dir 0),
            (psEx.Home ++ ["auth.json"], .file (.bytes "A") 0),
            (psEx.AccountPath "alice", .dir 0),
            (psEx.SharingConfigFile, .file (.bytes "junk") 0) ],
    bad := [], now := 7 }

theorem activate_swallows_sharing_failures_witness :
    ∃ w2 w3, removeAllW wC10 psEx.Home = (.ok (), w2) ∧
      copyDirStorage w2 (psEx.AccountPath "alice") psEx.Home = (.ok (), w3) ∧
      LoadConfig psEx w3 = .error .decodeError ∧
      ∃ w5, saveState psEx "alice" w3 = (.ok (), w5) ∧
        Activate psEx wC10 "alice" = (.ok (), w5) ∧
        CurrentName psEx w5 = "alice" := by
  refine ⟨_, _, rfl, rfl, rfl, _, rfl, ?_⟩
  exact (activate_swallows_sharing_failures psEx wC10 "alice" _ _ rfl
    (Or.inl rfl) rfl rfl).1 .decodeError rfl _ rfl

/-- C2: a successful Save(n) (and a successful Activate(n)) shifts the
state record exactly by previous := old current, current := n; Current
then reports n, and a subsequent Save(m) reports m with previous = n. -/
theorem state_record_update_save_activate (ps : Paths) (w : World)
    (hwf : WFfs w.fs) (hsf : notLink (lookupFS w.fs ps.StateFile)) :
    (∀ n acc w1, Save ps w n = (.ok acc, w1) →
      loadState ps w1 = StateRec.mk n (CurrentName ps w) ∧
      CurrentName ps w1 = n ∧
      (∀ m acc2 w2, m ≠ n → Save ps w1 m = (.ok acc2, w2) →
        CurrentName ps w2 = m ∧ (loadState ps w2).previous = n)) ∧
    (∀ n w1, Activate ps w n = (.ok (), w1) →
      loadState ps w1 = StateRec.mk n (CurrentName ps w)) := by
  have hstate : ∀ (w0 : World), WFfs w0.fs →
      notLink (lookupFS w0.fs ps.StateFile) →
      ∀ n acc w1, Save ps w0 n = (.ok acc, w1) →
      loadState ps w1 = StateRec.mk n (CurrentName ps w0) := by
    intro w0 hwf0 hsf0 n acc w1 h
    have hS := Save_spec ps w0 n acc w1 hwf0 h
    have hSF := hS.2.2.2.2.2.2.2 hsf0
    rw [loadState_file ps w1 _ _ hSF]
    rfl
  refine ⟨fun n acc w1 h => ?_, fun n w1 h => Activate_state ps w n w1 hwf hsf h⟩
  have hS := Save_spec ps w n acc w1 hwf h
  have h1 := hstate w hwf hsf n acc w1 h
  have hcur1 : CurrentName ps w1 = n := by
    show (loadState ps w1).current = n
    rw [h1]
  have hsf1 : notLink (lookupFS w1.fs ps.StateFile) := by
    rw [hS.2.2.2.2.2.2.2 hsf]
    exact trivial
  refine ⟨h1, hcur1, fun m acc2 w2 hmn h2 => ?_⟩
  have h3 := hstate w1 hS.2.2.2.1 hsf1 m acc2 w2 h2
  constructor
  · show (loadState ps w2).current = m
    rw [h3]
  · rw [h3]
    exact hcur1

theorem state_record_update_witness :
    ∃ acc w1, Save psEx wEx "dora" = (.ok acc, w1) ∧
      loadState psEx w1 = StateRec.mk "dora" "carol" := by
  refine ⟨_, _, rfl, ?_⟩
  exact ((state_record_update_save_activate psEx wEx (by decide)
    (by decide)).1 "dora" _ _ rfl).1

/-- C1: when a different profile c is active and the live directory
exists, Activate(name) runs Save(c) first: if that save fails, Activate
aborts with the wrapped error and the live directory is untouched; if
Activate succeeds, c's snapshot holds a copy of the whole starting live
directory — except its `.account.json` entry, which Save overwrites with
fresh metadata (the corrected part: the live content is preserved only
away from that sidecar name). -/
theorem activate_saves_current_before_clear (ps : Paths) (w : World)
    (name current : String) (hwf : WFfs w.fs)
    (hstat : (statFS w.fs (ps.AccountPath name)).isNone = false)
    (hshare : lookupFS w.fs ps.SharingConfigFile = none)
    (hsf : notLink (lookupFS w.fs ps.StateFile))
    (hcur : CurrentName ps w = current)
    (hc1 : current ≠ "") (hc2 : current ≠ name) (hname : name ≠ "")
    (hcx : ps.CodexExists w = true) :
    (∀ e wE, Save ps w current = (.error e, wE) →
      Activate ps w name =
        (.error (.wrapped "failed to save current account" e), wE) ∧
      ∀ rel, lookupFS wE.fs (ps.Home ++ rel) = lookupFS w.fs (ps.Home ++ rel)) ∧
    (∀ w', Activate ps w name = (.ok (), w') →
      ∀ rel, rel ≠ [".account.json"] →
        lookupFS w'.fs (ps.AccountPath current ++ rel) =
          (lookupFS w.fs (ps.Home ++ rel)).map (copyNode w.now)) := by
  constructor
  · intro e wE hSaveErr
    constructor
    · unfold Activate
      try dsimp only
      rw [hstat]
      rw [if_neg (by simp)]
      rw [hcur]
      rw [if_pos ⟨hc1, hc2⟩, hcx, if_pos rfl, hSaveErr]
    · intro rel
      have hF := Save_frame_any ps w current (.error e) wE hSaveErr
      exact hF.2.2.2 (ps.Home ++ rel) (AP_not_prefix_Home_rel ps current rel)
        (Home_rel_ne_DataDir ps rel) (Home_rel_ne_StateDir ps rel)
        (Home_rel_ne_AccountsDir ps rel) (Home_rel_ne_StateFile ps rel)
  · intro w' h
    exact (Activate_spec_save ps w name current w' hwf h hshare hsf hcur
      hc1 hc2 hname hcx).2.1

theorem activate_saves_current_witness :
    ∃ w', Activate psEx wEx "alice" = (.ok (), w') ∧
      lookupFS w'.fs (psEx.AccountPath "carol" ++ ["auth.json"]) =
        (lookupFS wEx.fs (psEx.Home ++ ["auth.json"])).map (copyNode wEx.now) := by
  refine ⟨_, rfl, ?_⟩
  exact (activate_saves_current_before_clear psEx wEx "alice" "carol"
    (by decide) rfl rfl (by decide) rfl (by decide) (by decide) (by decide)
    rfl).2 _ rfl ["auth.json"] (by decide)

/-- A live directory that itself contains a top-level `.account.json`:
after a successful switch, the snapshot's sidecar holds fresh metadata,
not those bytes. -/
def wC1 : World :=
  { fs := wEx.fs ++ [ (psEx.Home ++ [".account.json"], .file (.bytes "X") 0) ],
    bad := [], now := 5 }

theorem activate_sidecar_overwritten_cex :
    (Activate psEx wC1 "alice").1 = .ok () ∧
    lookupFS wC1.fs (psEx.Home ++ [".account.json"]) =
      some (.file (.bytes "X") 0) ∧
    lookupFS (Activate psEx wC1 "alice").2.fs
      (psEx.AccountPath "carol" ++ [".account.json"]) =
      some (.file (.accountJson (Account.mk "carol" none 5 5)) 5) :=
  ⟨rfl, rfl, rfl⟩

/-- C4: only the Profile Store's copyDir recreates symlinks as symlinks
with the same target; the Sharing Engine's copyDir never writes a symlink
at all (its walk has no symlink case, so link entries are dereferenced
through ReadFile) — the second conjunct is the corrected part. -/
theorem copydir_symlink_preservation (w : World) (src dst : Path)
    (hwf : WFfs w.fs) :
    (∀ w', copyDirStorage w src dst = (.ok (), w') →
      (∀ rel, lookupFS w.fs (dst ++ rel) = none) →
      ∀ rel t, lookupFS w.fs (src ++ rel) = some (.symlink t) →
        lookupFS w'.fs (dst ++ rel) = some (.symlink t)) ∧
    (∀ r w', copyDirSharing w src dst = (r, w') →
      ∀ q t, lookupFS w'.fs q = some (.symlink t) →
        lookupFS w.fs q = some (.symlink t)) := by
  constructor
  · intro w' h hreg rel t hlk
    have hC := copyDirStorage_spec w src dst w' hwf h hreg
    rw [hC.1 rel, hlk]
    rfl
  · intro r w' h q t hq
    unfold copyDirSharing at h
    cases hl : lookupFS w.fs src with
    | none =>
      rw [hl] at h
      injection h with h1 h2
      subst h2
      exact hq
    | some n0 =>
      rw [hl] at h
      exact (copyGoSharing_frame src dst (entriesUnder w.fs src) w r w'
        h).2.2.2.2 q t hq

/-- A source tree holding a regular file and a symlink to it. -/
def wC4 : World :=
  { fs := [ ((["s"] : Path), .dir 0),
            ((["s", "f"] : Path), .file (.bytes "TT") 0),
            ((["s", "ln"] : Path), .symlink ["s", "f"]) ],
    bad := [], now := 0 }

theorem copydir_symlink_preservation_witness :
    ∃ w', copyDirStorage wC4 ["s"] ["d"] = (.ok (), w') ∧
      lookupFS w'.fs (["d", "ln"] : Path) = some (.symlink ["s", "f"]) := by
  refine ⟨_, rfl, ?_⟩
  exact (copydir_symlink_preservation wC4 ["s"] ["d"] (by decide)).1 _ rfl
    (fun rel => rfl) ["ln"] ["s", "f"] rfl

theorem sharing_copydir_dereferences_cex :
    lookupFS wC4.fs (["s", "ln"] : Path) = some (.symlink ["s", "f"]) ∧
    (copyDirSharing wC4 ["s"] ["d"]).1 = .ok () ∧
    lookupFS (copyDirSharing wC4 ["s"] ["d"]).2.fs (["d", "ln"] : Path) =
      some (.file (.bytes "TT") 0) :=
  ⟨rfl, rfl, rfl⟩

/-- C7: after a successful Disable, the returned config is not enabled
and no shareable item's live path remains a symlink: a symlink item is
replaced (for a plain-file target outside ~/.codex, by a copy of the
target's bytes), while a non-symlink item is untouched. -/
theorem disable_removes_symlinks (ps : Paths) (cfg : Config) (w : World)
    (cfg' : Config) (w' : World)
    (h : Disable ps cfg w = (.ok cfg', w')) :
    IsEnabled cfg' = false ∧
    ∀ item ∈ ShareableItems ++ OptionalShareableItems,
      (∀ t, lookupFS w'.fs (ps.Home ++ [item]) ≠ some (.symlink t)) ∧
      (notLink (lookupFS w.fs (ps.Home ++ [item])) →
        lookupFS w'.fs (ps.Home ++ [item]) = lookupFS w.fs (ps.Home ++ [item])) ∧
      (∀ link d m, lookupFS w.fs (ps.Home ++ [item]) = some (.symlink link) →
        ps.Home.isPrefixOf link = false →
        lookupFS w.fs link = some (.file d m) →
        lookupFS w'.fs (ps.Home ++ [item]) = some (.file d w.now)) := by
  unfold Disable at h
  split at h
  · exact absurd h (by simp)
  · rename_i u1 w1 heqR
    unfold RemoveSymlinks at heqR
    have hri := removeItems_go ps (ShareableItems ++ OptionalShareableItems)
      w (.ok u1) w1 heqR (by decide)
    try dsimp only at h
    split at h
    · exact absurd h (by simp)
    · rename_i u2 w2 heqS
      injection h with h1 h2
      subst h2
      have hcfg : cfg' = { cfg with mode := .disabled, includeSettings := false } :=
        (Except.ok.inj h1).symm
      have hSC := SaveConfig_frame ps _ w1 (.ok u2) w2 heqS
      have hkeep : ∀ item : String, lookupFS w2.fs (ps.Home ++ [item]) =
          lookupFS w1.fs (ps.Home ++ [item]) := by
        intro item
        exact hSC.2.2.2 (ps.Home ++ [item]) (Home_rel_ne_DataDir ps [item])
          (Home_rel_ne_StateDir ps [item]) (Home_rel_ne_AccountsDir ps [item])
          (Home_rel_ne_SharingConfigFile ps [item])
      refine ⟨by rw [hcfg]; rfl, fun item hm => ⟨fun t => ?_, fun hnl => ?_,
        fun link d m hlk hout hfile => ?_⟩⟩
      · rw [hkeep item]
        exact hri.2.2.2.1 (by cases u1; rfl) item hm t
      · rw [hkeep item]
        exact hri.2.2.1 item hm hnl
      · rw [hkeep item]
        exact hri.2.2.2.2 (by cases u1; rfl) item hm link d m hlk hout hfile

/-- An installation with the "sessions" item shared via a symlink into
the shared directory, used to disable sharing. -/
def cfgEn : Config := Config.mk .global false []

def wC7 : World :=
  { fs := [ (psEx.Home, .dir 0),
            (psEx.Home ++ ["sessions"], .symlink (psEx.SharedDir ++ ["sessions"])),
            (psEx.SharedDir, .dir 0),
            (psEx.SharedDir ++ ["sessions"], .file (.bytes "S") 0) ],
    bad := [], now := 3 }

theorem disable_removes_symlinks_witness :
    ∃ cfg' w', Disable psEx cfgEn wC7 = (.ok cfg', w') ∧
      IsEnabled cfg' = false ∧
      (∀ t, lookupFS w'.fs (psEx.Home ++ ["sessions"]) ≠ some (.symlink t)) ∧
      lookupFS w'.fs (psEx.Home ++ ["sessions"]) =
        some (.file (.bytes "S") 3) := by
  refine ⟨_, _, rfl, ?_, fun t => ?_, ?_⟩
  · exact (disable_removes_symlinks psEx cfgEn wC7 _ _ rfl).1
  · exact ((disable_removes_symlinks psEx cfgEn wC7 _ _ rfl).2 "sessions"
      (by decide)).1 t
  · exact ((disable_removes_symlinks psEx cfgEn wC7 _ _ rfl).2 "sessions"
      (by decide)).2.2 (psEx.SharedDir ++ ["sessions"]) (.bytes "S") 0 rfl rfl rfl

/-- A live "sessions" directory holding a log, with nothing yet at the
shared location: setup migrates it and leaves a symlink behind. -/
def wC6 : World :=
  { fs := [ (psEx.Home, .dir 0),
            (psEx.Home ++ ["sessions"], .dir 0),
            (psEx.Home ++ ["sessions", "log"], .file (.bytes "L") 0),
            (psEx.SharedDir, .dir 0) ],
    bad := [], now := 2 }

theorem setup_symlink_migrate_witness :
    ∃ w', setupSymlink psEx "sessions" psEx.SharedDir wC6 = (.ok (), w') ∧
      lookupFS w'.fs (psEx.Home ++ ["sessions"]) =
        some (.symlink (psEx.SharedDir ++ ["sessions"])) ∧
      lookupFS w'.fs (psEx.SharedDir ++ ["sessions", "log"]) =
        some (.file (.bytes "L") 0) := by
  refine ⟨_, rfl, ?_, ?_⟩
  · exact (setup_symlink_migrate_or_shared_wins psEx "sessions" psEx.SharedDir
      wC6 _ (.dir 0) rfl (fun t hc => Node.noConfusion hc) rfl
      (fun rel => rfl)).1
  · have := (setup_symlink_migrate_or_shared_wins psEx "sessions" psEx.SharedDir
      wC6 _ (.dir 0) rfl (fun t hc => Node.noConfusion hc) rfl
      (fun rel => rfl)).2.1 rfl ["log"] (.file (.bytes "L") 0) rfl
    exact this

/-- C8: with sharing disabled (no config file) and three distinct
nonempty names — c active at the start, snapshots for a and b present —
Activate(a); Activate(b); Activate(a) restores the live directory to
byte-identical regular-file content as it was immediately AFTER the first
Activate(a) (the corrected reference point: the claim's "immediately
before" world still holds c's content, which the round trip does not
restore), away from the `.account.json` sidecar name. -/
theorem activate_round_trip (ps : Paths) (w0 w1 w2 w3 : World)
    (a b c : String) (hwf : WFfs w0.fs)
    (hshare : lookupFS w0.fs ps.SharingConfigFile = none)
    (hsf : notLink (lookupFS w0.fs ps.StateFile))
    (hcur : CurrentName ps w0 = c)
    (hc1 : c ≠ "") (hca : c ≠ a) (hcb : c ≠ b) (ha : a ≠ "") (hb : b ≠ "")
    (hab : a ≠ b) (hcx : ps.CodexExists w0 = true)
    (hrootA : ∃ m, lookupFS w0.fs (ps.AccountPath a) = some (.dir m))
    (hrootB : ∃ m, lookupFS w0.fs (ps.AccountPath b) = some (.dir m))
    (h1 : Activate ps w0 a = (.ok (), w1))
    (h2 : Activate ps w1 b = (.ok (), w2))
    (h3 : Activate ps w2 a = (.ok (), w3)) :
    ∀ rel, rel ≠ [".account.json"] →
      dataOf (lookupFS w3.fs (ps.Home ++ rel)) =
        dataOf (lookupFS w1.fs (ps.Home ++ rel)) := by
  obtain ⟨mA, hA⟩ := hrootA
  obtain ⟨mB, hB⟩ := hrootB
  have S1 := Activate_spec_save ps w0 a c w1 hwf h1 hshare hsf hcur hc1 hca
    ha hcx
  -- the first switch: the live directory is a's snapshot, w1 is healthy
  have hwf1 : WFfs w1.fs := S1.2.2.2.2.2.2
  have hframe1 : ∀ q, ps.Home.isPrefixOf q = false →
      (ps.AccountPath c).isPrefixOf q = false → q ≠ ps.DataDir →
      q ≠ ps.StateDir → q ≠ ps.AccountsDir → q ≠ ps.StateFile →
      lookupFS w1.fs q = lookupFS w0.fs q := S1.2.2.2.1
  have hshare1 : lookupFS w1.fs ps.SharingConfigFile = none := by
    rw [hframe1 ps.SharingConfigFile (Home_not_prefix_SharingConfigFile ps)
      (AP_not_prefix_SharingConfigFile ps c)
      (SharingConfigFile_ne_DataDir ps) (SharingConfigFile_ne_StateDir ps)
      (SharingConfigFile_ne_AccountsDir ps) (SharingConfigFile_ne_StateFile ps)]
    exact hshare
  have hsf1 : notLink (lookupFS w1.fs ps.StateFile) := by
    rw [S1.2.2.1]
    exact trivial
  have hcur1 : CurrentName ps w1 = a := by
    show (loadState ps w1).current = a
    rw [loadState_file ps w1 _ _ S1.2.2.1]
    rfl
  have hhome1 : lookupFS w1.fs ps.Home = some (.dir w0.now) := by
    have := S1.1 []
    rw [List.append_nil, List.append_nil, hA] at this
    exact this
  have hcx1 : ps.CodexExists w1 = true := by
    unfold Paths.CodexExists
    rw [statFS_direct w1.fs ps.Home (.dir w0.now) hhome1
      (fun t => Node.noConfusion)]
    rfl
  have S2 := Activate_spec_save ps w1 b a w2 hwf1 h2 hshare1 hsf1 hcur1 ha
    hab hb hcx1
  -- the second switch: a's snapshot now holds w1's live content
  have hwf2 : WFfs w2.fs := S2.2.2.2.2.2.2
  have hframe2 : ∀ q, ps.Home.isPrefixOf q = false →
      (ps.AccountPath a).isPrefixOf q = false → q ≠ ps.DataDir →
      q ≠ ps.StateDir → q ≠ ps.AccountsDir → q ≠ ps.StateFile →
      lookupFS w2.fs q = lookupFS w1.fs q := S2.2.2.2.1
  have hshare2 : lookupFS w2.fs ps.SharingConfigFile = none := by
    rw [hframe2 ps.SharingConfigFile (Home_not_prefix_SharingConfigFile ps)
      (AP_not_prefix_SharingConfigFile ps a)
      (SharingConfigFile_ne_DataDir ps) (SharingConfigFile_ne_StateDir ps)
      (SharingConfigFile_ne_AccountsDir ps) (SharingConfigFile_ne_StateFile ps)]
    exact hshare1
  have hsf2 : notLink (lookupFS w2.fs ps.StateFile) := by
    rw [S2.2.2.1]
    exact trivial
  have hcur2 : CurrentName ps w2 = b := by
    show (loadState ps w2).current = b
    rw [loadState_file ps w2 _ _ S2.2.2.1]
    rfl
  have hrootB1 : lookupFS w1.fs (ps.AccountPath b) = some (.dir mB) := by
    have hq1 : ps.Home.isPrefixOf (ps.AccountPath b) = false := by
      have hq := Home_not_prefix_AP_rel ps b []
      rw [List.append_nil] at hq
      exact hq
    have hq2 : (ps.AccountPath c).isPrefixOf (ps.AccountPath b) = false := by
      have hq := AP_not_prefix_AP ps c b [] hcb hc1 hb
      rw [List.append_nil] at hq
      exact hq
    have hq3 := AP_rel_ne_DataDir ps b []
    rw [List.append_nil] at hq3
    have hq4 := AP_rel_ne_StateDir ps b []
    rw [List.append_nil] at hq4
    have hq5 := AP_rel_ne_AccountsDir ps b [] hb
    rw [List.append_nil] at hq5
    have hq6 := AP_rel_ne_StateFile ps b []
    rw [List.append_nil] at hq6
    rw [hframe1 (ps.AccountPath b) hq1 hq2 hq3 hq4 hq5 hq6]
    exact hB
  have hhome2 : lookupFS w2.fs ps.Home = some (.dir w1.now) := by
    have hh := S2.1 []
    rw [List.append_nil, List.append_nil, hrootB1] at hh
    exact hh
  have hcx2 : ps.CodexExists w2 = true := by
    unfold Paths.CodexExists
    rw [statFS_direct w2.fs ps.Home (.dir w1.now) hhome2
      (fun t => Node.noConfusion)]
    rfl
  have hba : b ≠ a := fun hc0 => hab hc0.symm
  have S3 := Activate_spec_save ps w2 a b w3 hwf2 h3 hshare2 hsf2 hcur2 hb
    hba ha hcx2
  intro rel hrel
  have e3 : lookupFS w3.fs (ps.Home ++ rel) =
      (lookupFS w2.fs (ps.AccountPath a ++ rel)).map (copyNode w2.now) :=
    S3.1 rel
  have e2 : lookupFS w2.fs (ps.AccountPath a ++ rel) =
      (lookupFS w1.fs (ps.Home ++ rel)).map (copyNode w1.now) := S2.2.1 rel hrel
  rw [e3, e2, dataOf_map_copyNode, dataOf_map_copyNode]

theorem activate_round_trip_witness :
    ∃ w1 w2 w3, Activate psEx wEx "alice" = (.ok (), w1) ∧
      Activate psEx w1 "bob" = (.ok (), w2) ∧
      Activate psEx w2 "alice" = (.ok (), w3) ∧
      dataOf (lookupFS w3.fs (psEx.Home ++ ["auth.json"])) =
        dataOf (lookupFS w1.fs (psEx.Home ++ ["auth.json"])) := by
  refine ⟨_, _, _, rfl, rfl, rfl, ?_⟩
  exact activate_round_trip psEx wEx _ _ _ "alice" "bob" "carol" (by decide)
    rfl (by decide) rfl (by decide) (by decide) (by decide) (by decide)
    (by decide) (by decide) rfl ⟨0, rfl⟩ ⟨0, rfl⟩ rfl rfl rfl
    ["auth.json"] (by decide)

theorem activate_round_trip_not_before_cex :
    dataOf (lookupFS wEx.fs (psEx.Home ++ ["auth.json"])) =
      some (.bytes "A") ∧
    (Activate psEx wEx "alice").1 = .ok () ∧
    (Activate psEx (Activate psEx wEx "alice").2 "bob").1 = .ok () ∧
    (Activate psEx (Activate psEx
      (Activate psEx wEx "alice").2 "bob").2 "alice").1 = .ok () ∧
    dataOf (lookupFS (Activate psEx (Activate psEx
        (Activate psEx wEx "alice").2 "bob").2 "alice").2.fs
      (psEx.Home ++ ["auth.json"])) = some (.bytes "AA") ∧
    (Data.bytes "AA") ≠ Data.bytes "A" :=
  ⟨rfl, rfl, rfl, rfl, rfl, by decide⟩

end Cxa
